import Mathlib

/-!
Verification of the CRP asset organizer (`src/tools/organize_crp.py`).

This file gives a shallow embedding of the organizer: paths are lists of
characters, the filesystem is an association list from absolute paths to
nodes (files or directories, in enumeration order), JSON documents are a
small mutual inductive, and every Python operation the script performs
(dict subscripts, `in`, `str.split`, `int()`, `os.makedirs`, `shutil.copy`,
`os.listdir`, ...) is modelled by an executable Lean function that returns
`Except PyErr` where the Python operation can raise.  The organizer itself
(`organize_crp_assets`), the batch driver (`process_crp_folders`), `main`,
and the `__main__` guard are then translated statement by statement.

Line numbers quoted in doc comments refer to `src/tools/organize_crp.py`.
-/

namespace Crp

/-- Strings of the model: Python strings as lists of characters. -/
abbrev Chars := List Char

/-- Coerce a Lean string literal into the model's character-list strings. -/
def chars (s : String) : Chars := s.data

/-- Does `s` start with `pat`?  (Python `str.startswith`, also the work-horse
for substring search.) -/
def startsW : Chars → Chars → Bool
  | _, [] => true
  | [], _ :: _ => false
  | c :: s, d :: p => c == d && startsW s p

/-- Python `pat in s` (substring containment; the empty pattern is contained
in every string). -/
def strContains : Chars → Chars → Bool
  | _, [] => true
  | [], _ :: _ => false
  | c :: s, pat => startsW (c :: s) pat || strContains s pat

/-- Python `s.endswith(suf)`. -/
def endsW (s suf : Chars) : Bool := startsW s.reverse suf.reverse

/-- Helper for `pySplit`: fuelled scan emitting parts between occurrences of
the (non-empty) separator. -/
def pySplitAux (sep : Chars) : Nat → Chars → Chars → List Chars
  | _, [], acc => [acc.reverse]
  | 0, rest, acc => [acc.reverse ++ rest]
  | fuel + 1, c :: rest, acc =>
      if startsW (c :: rest) sep then
        acc.reverse :: pySplitAux sep fuel (List.drop (sep.length - 1) rest) []
      else
        pySplitAux sep fuel rest (c :: acc)

/-- Python `s.split(sep)` for a non-empty separator: all parts between
leftmost non-overlapping occurrences of `sep` (the script never splits on an
empty separator, which Python rejects). -/
def pySplit (s sep : Chars) : List Chars :=
  if sep.isEmpty then [s] else pySplitAux sep s.length s []

/-- ASCII whitespace recognised by `str.strip` / `int()` as used here. -/
def isSpaceCh (c : Char) : Bool := c == ' ' || c == '\t' || c == '\n' || c == '\r'

/-- Python `s.strip()` (restricted to the ASCII whitespace above). -/
def strStrip (s : Chars) : Chars :=
  ((s.dropWhile isSpaceCh).reverse.dropWhile isSpaceCh).reverse

/-- ASCII decimal digit test. -/
def isDigitCh (c : Char) : Bool := decide ('0' ≤ c) && decide (c ≤ '9')

/-- Numeric value of a list of decimal digits. -/
def digitsVal (ds : Chars) : Nat :=
  ds.foldl (fun acc c => acc * 10 + (c.toNat - '0'.toNat)) 0

/-- Python `int(s)` on the strings reachable in this script: optional
surrounding whitespace, an optional sign, then a non-empty run of decimal
digits; everything else raises `ValueError` (modelled as `none`).  (Python's
underscore digit grouping is unreachable here: the parsed text is always a
piece produced by `split('_')`, so it never contains an underscore.) -/
def pyIntParse (s : Chars) : Option Int :=
  match strStrip s with
  | '-' :: ds => if !ds.isEmpty && ds.all isDigitCh then some (-(digitsVal ds : Int)) else none
  | '+' :: ds => if !ds.isEmpty && ds.all isDigitCh then some (digitsVal ds : Int) else none
  | ds => if !ds.isEmpty && ds.all isDigitCh then some (digitsVal ds : Int) else none

/-- Helper for `natChars`: most-significant-first decimal digits of a
positive number, with a structural fuel. -/
def natCharsAux : Nat → Nat → Chars
  | 0, _ => []
  | _, 0 => []
  | fuel + 1, n + 1 =>
      natCharsAux fuel ((n + 1) / 10) ++ [Char.ofNat ('0'.toNat + (n + 1) % 10)]

/-- Decimal rendering of a natural number (Python `str(i)` for the loop
counters, which are non-negative). -/
def natChars (n : Nat) : Chars :=
  if n = 0 then ['0'] else natCharsAux (n + 1) n

/-- Python `os.path.join(a, b)` for the cases the script exercises: an
absolute `b` wins; otherwise the parts are glued with a single `/`. -/
def pathJoin (a b : Chars) : Chars :=
  if startsW b (chars "/") then b
  else if a.isEmpty || endsW a (chars "/") then a ++ b
  else a ++ '/' :: b

/-- Python `os.path.basename(p)`: the part after the last `/`. -/
def baseName (p : Chars) : Chars :=
  (p.reverse.takeWhile (fun c => c != '/')).reverse

/-- Strip the prefix `pre` from `s`, if present. -/
def stripPre : Chars → Chars → Option Chars
  | [], s => some s
  | _ :: _, [] => none
  | c :: p, d :: s => if c == d then stripPre p s else none

/-- If `p` is an immediate child path of directory `d` (that is,
`p = d ++ "/" ++ name` with `name` non-empty and slash-free), return `name`. -/
def childNameOf (d p : Chars) : Option Chars :=
  match stripPre (d ++ [ '/' ]) p with
  | some name => if !name.isEmpty && name.all (fun c => c != '/') then some name else none
  | none => none

/-- Python `os.path.abspath` as used by the script: the tool is run on
absolute paths, and a relative path is resolved against the working
directory (no `..`/symlink normalisation is exercised). -/
def pyAbspath (cwd p : Chars) : Chars :=
  if startsW p (chars "/") then p else pathJoin cwd p

mutual
/-- JSON values as loaded by `json.load`: objects keep their key order. -/
inductive JV where
  | jnull
  | jbool (b : Bool)
  | jint (n : Int)
  | jstr (s : Chars)
  | jarr (xs : JA)
  | jdict (kvs : JD)
/-- JSON arrays (spelt out to keep the family non-nested). -/
inductive JA where
  | anil
  | acons (hd : JV) (tl : JA)
/-- JSON objects: ordered key/value sequences with string keys. -/
inductive JD where
  | dnil
  | dcons (k : Chars) (v : JV) (tl : JD)
end

deriving instance DecidableEq for JV
deriving instance DecidableEq for JA
deriving instance DecidableEq for JD

/-- The elements of a JSON array, as a Lean list. -/
def JA.toList : JA → List JV
  | .anil => []
  | .acons h t => h :: t.toList

/-- Build a JSON array from a Lean list (used to write concrete inputs). -/
def JA.ofList : List JV → JA
  | [] => .anil
  | h :: t => .acons h (JA.ofList t)

/-- The key/value pairs of a JSON object, as a Lean list. -/
def JD.toList : JD → List (Chars × JV)
  | .dnil => []
  | .dcons k v t => (k, v) :: t.toList

/-- Build a JSON object from a Lean list (used to write concrete inputs). -/
def JD.ofList : List (Chars × JV) → JD
  | [] => .dnil
  | (k, v) :: t => .dcons k v (JD.ofList t)

/-- First value stored under key `k` (`json.load` never produces duplicate
keys, so first match is dict lookup). -/
def JD.lookupKey : JD → Chars → Option JV
  | .dnil, _ => none
  | .dcons k0 v t, k => if k0 = k then some v else t.lookupKey k

/-- Python exceptions the script can raise. -/
inductive PyErr where
  | keyError (k : JV)
  | indexError
  | valueError (msg : String)
  | typeError
  | attributeError
  | fileNotFoundError (p : Chars)
  | notADirectoryError (p : Chars)
  | fileExistsError (p : Chars)
  | isADirectoryError (p : Chars)
deriving DecidableEq

deriving instance DecidableEq for Except

/-- Contents of a regular file, as the two views the script takes of its
bytes: `json` is what `json.load` yields (`none` when the bytes parse in
neither encoding), `lines` is what iterating over the open file yields, and
`tag` stands for the identity of the raw bytes, so that copied files compare
equal exactly when their bytes do. -/
structure FData where
  json : Option JV
  lines : List Chars
  tag : Nat
deriving DecidableEq

/-- A filesystem node: a regular file or a directory. -/
inductive Node where
  | file (d : FData)
  | dir
deriving DecidableEq

/-- The filesystem: absolute path to node, in enumeration order (new nodes
are appended, so `os.listdir` yields pre-existing names first). -/
abbrev FS := List (Chars × Node)

/-- Node stored at path `p`, if any (first match; well-formed filesystems
have distinct paths). -/
def fsGet : FS → Chars → Option Node
  | [], _ => none
  | (q, n) :: rest, p => if q = p then some n else fsGet rest p

/-- Write node `n` at path `p`: replace in place if the path exists,
append otherwise. -/
def fsSet : FS → Chars → Node → FS
  | [], p, n => [(p, n)]
  | (q, m) :: rest, p, n =>
      if q = p then (p, n) :: rest else (q, m) :: fsSet rest p n

/-- Names of the immediate children of directory `d`, in filesystem order. -/
def listNames (fs : FS) (d : Chars) : List Chars :=
  fs.filterMap (fun e => childNameOf d e.1)

/-- Python `os.listdir(d)`: raises when `d` is missing or not a directory. -/
def pyListdir (fs : FS) (d : Chars) : Except PyErr (List Chars) :=
  match fsGet fs d with
  | some .dir => .ok (listNames fs d)
  | some (.file _) => .error (.notADirectoryError d)
  | none => .error (.fileNotFoundError d)

/-- Helper for `pathPrefixList`: walk the remaining characters, emitting the
accumulated prefix (held reversed in `done`) at each component boundary. -/
def pathPrefixAux (done : Chars) : Chars → List Chars
  | [] => [done.reverse]
  | c :: rest =>
      if c = '/' then done.reverse :: pathPrefixAux (c :: done) rest
      else pathPrefixAux (c :: done) rest

/-- All prefixes of `p` ending at a component boundary, shortest first — the
directories `os.makedirs` visits (for `/a/b/c`: `/a`, `/a/b`, `/a/b/c`). -/
def pathPrefixList (p : Chars) : List Chars :=
  match p with
  | [] => []
  | c :: rest => pathPrefixAux [c] rest

/-- Helper for `makedirs`: create each missing prefix directory in turn;
an existing file blocks creation exactly as in Python. -/
def makedirsAux (leaf : Chars) : FS → List Chars → Except PyErr FS
  | fs, [] => .ok fs
  | fs, q :: rest =>
      match fsGet fs q with
      | some .dir => makedirsAux leaf fs rest
      | some (.file _) =>
          .error (if q = leaf then .fileExistsError q else .notADirectoryError q)
      | none => makedirsAux leaf (fsSet fs q .dir) rest

/-- Python `os.makedirs(p, exist_ok=True)`. -/
def makedirs (fs : FS) (p : Chars) : Except PyErr FS :=
  makedirsAux p fs (pathPrefixList p)

/-- One executed `shutil.copy`/`shutil.copy2` call: source, the destination
path actually written, and whether that destination already existed (that
is, whether the copy overwrote a file). -/
structure CopyEvent where
  src : Chars
  dst : Chars
  overwrote : Bool
deriving DecidableEq

/-- Mutable state of a run: the filesystem plus the log of executed copies. -/
structure RunSt where
  fs : FS
  log : List CopyEvent
deriving DecidableEq

/-- Python `shutil.copy(src, dst)` (and `copy2`, which additionally copies
metadata): raises on a missing or directory source; a destination that is an
existing directory receives the file under the source's basename. -/
def shutilCopy (st : RunSt) (src dst : Chars) : Except PyErr RunSt :=
  match fsGet st.fs src with
  | none => .error (.fileNotFoundError src)
  | some .dir => .error (.isADirectoryError src)
  | some (.file d) =>
      let dst2 := match fsGet st.fs dst with
        | some .dir => pathJoin dst (baseName src)
        | _ => dst
      match fsGet st.fs dst2 with
      | some .dir => .error (.isADirectoryError dst2)
      | existing =>
          .ok { fs := fsSet st.fs dst2 (.file d),
                log := st.log ++ [{ src := src, dst := dst2, overwrote := existing.isSome }] }

/-- Python truthiness of a JSON value (`if v:`). -/
def JV.truthy : JV → Bool
  | .jnull => false
  | .jbool b => b
  | .jint n => n != 0
  | .jstr s => !s.isEmpty
  | .jarr .anil => false
  | .jarr _ => true
  | .jdict .dnil => false
  | .jdict _ => true

/-- Is the value usable as a dict key?  Lists and dicts are unhashable and
raise `TypeError` when used as keys. -/
def JV.hashable : JV → Bool
  | .jarr _ => false
  | .jdict _ => false
  | _ => true

/-- Python `v[k]` for a string key `k`: dict lookup; subscripting a list or a
string with a string key raises `TypeError`, as does subscripting a
non-container. -/
def pySubscr (v : JV) (k : Chars) : Except PyErr JV :=
  match v with
  | .jdict kvs =>
      match kvs.lookupKey k with
      | some x => .ok x
      | none => .error (.keyError (.jstr k))
  | _ => .error .typeError

/-- Python `v[i]` for a non-negative int `i`: list/string indexing; on a dict
the int is just an absent key. -/
def pySubscrIdx (v : JV) (i : Nat) : Except PyErr JV :=
  match v with
  | .jarr xs =>
      match xs.toList.get? i with
      | some x => .ok x
      | none => .error .indexError
  | .jstr s =>
      match s.get? i with
      | some c => .ok (.jstr [c])
      | none => .error .indexError
  | .jdict _ => .error (.keyError (.jint i))
  | _ => .error .typeError

/-- Python `k in v` for a string `k`: key test on dicts, membership on lists,
substring test on strings; `in` on a non-container raises `TypeError`. -/
def pyInJ (k : Chars) (v : JV) : Except PyErr Bool :=
  match v with
  | .jdict kvs => .ok ((kvs.toList.map Prod.fst).contains k)
  | .jarr xs => .ok (xs.toList.contains (.jstr k))
  | .jstr s => .ok (strContains s k)
  | _ => .error .typeError

/-- Python `for x in v`: lists yield elements, dicts yield keys, strings
yield one-character strings; iterating a non-container raises `TypeError`. -/
def pyIter (v : JV) : Except PyErr (List JV) :=
  match v with
  | .jarr xs => .ok xs.toList
  | .jdict kvs => .ok (kvs.toList.map (fun kv => JV.jstr kv.1))
  | .jstr s => .ok (s.map (fun c => JV.jstr [c]))
  | _ => .error .typeError

/-- Python dict assignment `m[k] = v` on an association list: overwrite in
place (dicts keep the original key position) or append. -/
def updAssoc {α β : Type} [DecidableEq α] : List (α × β) → α → β → List (α × β)
  | [], k, v => [(k, v)]
  | (k0, v0) :: rest, k, v =>
      if k0 = k then (k, v) :: rest else (k0, v0) :: updAssoc rest k v

/-- First value stored under key `k` in an association list. -/
def getAssoc {α β : Type} [DecidableEq α] : List (α × β) → α → Option β
  | [], _ => none
  | (k0, v0) :: rest, k => if k0 = k then some v0 else getAssoc rest k

/-- Python `m[k]` on the checksum dict: unhashable keys raise `TypeError`,
absent keys raise `KeyError`. -/
def dictGetJ (m : List (JV × Int)) (k : JV) : Except PyErr Int :=
  if k.hashable then
    match getAssoc m k with
    | some v => .ok v
    | none => .error (.keyError k)
  else .error .typeError

/-- Python `m.get(k)` on the checksum dict: unhashable keys still raise
`TypeError`; absent keys give `None`. -/
def dictGetJOpt (m : List (JV × Int)) (k : JV) : Except PyErr (Option Int) :=
  if k.hashable then .ok (getAssoc m k) else .error .typeError

/-- Models `safe_read_json` (lines 54-68): the parsed JSON document, or
`none` when the file is missing, is a directory, or its bytes fail to parse
in both the UTF-8 and Latin-1 attempts — every exception is caught and
reported as `None`. -/
def safe_read_json (fs : FS) (p : Chars) : Option JV :=
  match fsGet fs p with
  | some (.file d) => d.json
  | _ => none

/-- Line 77: `int(filename.split('entry_')[1].split('_')[0])`.  `[1]` raises
`IndexError` when the path contains no `entry_` at all; `int()` raises
`ValueError` when the leading `_`-field after the first `entry_` is not an
integer literal. -/
def parseEntryIdx (p : Chars) : Except PyErr Int :=
  match (pySplit p (chars "entry_")).get? 1 with
  | none => .error .indexError
  | some seg =>
      match pyIntParse ((pySplit seg (chars "_")).headD []) with
      | some n => .ok n
      | none => .error (.valueError "invalid literal for int() with base 10")

/-- Lines 73-79: walk `all_files`; paths without the substring `entry` are
skipped; the rest are parsed with `parseEntryIdx` and entered into both
index maps (plain dict assignment, so a repeated index overwrites). -/
def buildEntryMapsAux :
    List (Int × Chars) × List (Chars × Int) → List Chars →
    Except PyErr (List (Int × Chars) × List (Chars × Int))
  | acc, [] => .ok acc
  | (m1, m2), f :: rest =>
      if !strContains f (chars "entry") then buildEntryMapsAux (m1, m2) rest
      else do
        let idx ← parseEntryIdx f
        buildEntryMapsAux (updAssoc m1 idx f, updAssoc m2 f idx) rest

/-- The `map_idx2filename` / `map_filename2idx` construction (lines 70-79). -/
def buildEntryMaps (all_files : List Chars) :
    Except PyErr (List (Int × Chars) × List (Chars × Int)) :=
  buildEntryMapsAux ([], []) all_files

/-- Lines 85-92: the first file whose path ends with `header.json` (a suffix
test, not an exact-name test); `ValueError` when there is none. -/
def findHeaderFile (all_files : List Chars) : Except PyErr Chars :=
  match all_files.find? (fun f => endsW f (chars "header.json")) with
  | some f => .ok f
  | none => .error (.valueError "header.json not found in the input directory")

/-- Lines 102-109: number the manifest's assets in order and enter
`idx ↔ assetChecksum` into the two maps; a missing `assetChecksum` key
raises `KeyError`, an unhashable checksum raises `TypeError` at the dict
assignment. -/
def buildHashMapsAux :
    Int → List (Int × JV) × List (JV × Int) → List JV →
    Except PyErr (List (Int × JV) × List (JV × Int))
  | _, acc, [] => .ok acc
  | idx, (m1, m2), a :: rest => do
      let cs ← pySubscr a (chars "assetChecksum")
      if cs.hashable then
        buildHashMapsAux (idx + 1) (updAssoc m1 idx cs, updAssoc m2 cs idx) rest
      else .error .typeError

/-- The `map_idx2hash` / `map_hash2idx` construction (lines 96-112), starting
from the parsed manifest: `header["assets"]` is subscripted and iterated. -/
def buildHashMaps (header : JV) :
    Except PyErr (List (Int × JV) × List (JV × Int)) := do
  let assets ← pySubscr header (chars "assets")
  let xs ← pyIter assets
  buildHashMapsAux 0 ([], []) xs

/-- Lines 166-172: if the material has a `textures` entry, collect its truthy
slot values in order (via `.items()`, which raises `AttributeError` when the
entry is not a dict). -/
def getTextureHashes (material : JV) : Except PyErr (List JV) := do
  let b ← pyInJ (chars "textures") material
  if b then do
    let tv ← pySubscr material (chars "textures")
    match tv with
    | .jdict kvs => .ok ((kvs.toList.map Prod.snd).filter JV.truthy)
    | _ => .error .attributeError
  else
    .ok []

/-- The `except`-handler scan (lines 195-205): first file with a `.png`/`.jpg`
extension whose extraction index differs from the material file's by less
than 10 (unindexed paths default to index 0). -/
def proximitySearch (map_filename2idx : List (Chars × Int)) (all_files : List Chars)
    (material_filename : Chars) : List Chars :=
  match all_files.find? (fun fp =>
      (endsW fp (chars ".png") || endsW fp (chars ".jpg")) &&
      ((getAssoc map_filename2idx material_filename).getD 0 -
        (getAssoc map_filename2idx fp).getD 0).natAbs < 10) with
  | some fp => [fp]
  | none => []

/-- Lines 176-205 for one texture hash: the `try` body first asks the index;
on an index miss for a string hash it scans `all_files` for the first path
containing the hash that also looks like an image.  The `except` handler
(and with it `proximitySearch`) runs only when the `try` body raises, which
happens exactly for non-string hashes: an unhashable hash raises `TypeError`
inside `map_hash2idx.get`, and a hashable non-string one raises `TypeError`
at `texture_hash in file_path` on the first file of the scan (with no files
the scan body never runs and nothing is appended). -/
def resolveTexture (map_hash2idx : List (JV × Int)) (map_idx2filename : List (Int × Chars))
    (map_filename2idx : List (Chars × Int)) (all_files : List Chars)
    (material_filename : Chars) (texture_hash : JV) : List Chars :=
  if !texture_hash.hashable then
    proximitySearch map_filename2idx all_files material_filename
  else
    match getAssoc map_hash2idx texture_hash with
    | some ti =>
        match getAssoc map_idx2filename ti with
        | some fn => if !fn.isEmpty then [fn] else []
        | none => []
    | none =>
        match texture_hash with
        | .jstr s =>
            match all_files.find? (fun fp => strContains fp s &&
                (strContains fp (chars "Texture") || endsW fp (chars ".png") ||
                  endsW fp (chars ".jpg"))) with
            | some fp => [fp]
            | none => []
        | _ =>
            if all_files.isEmpty then []
            else proximitySearch map_filename2idx all_files material_filename

/-- Lines 174-205: the texture filenames accumulated over all texture
hashes, in order. -/
def resolveTextures (map_hash2idx : List (JV × Int)) (map_idx2filename : List (Int × Chars))
    (map_filename2idx : List (Chars × Int)) (all_files : List Chars)
    (material_filename : Chars) (texture_hashes : List JV) : List Chars :=
  List.flatten (texture_hashes.map
    (resolveTexture map_hash2idx map_idx2filename map_filename2idx all_files material_filename))

/-- The copy pattern of lines 211-250: destination is the instance directory
plus the source's basename; if the destination exists, the copy is skipped,
otherwise `shutil.copy` runs. -/
def copyIfAbsent (st : RunSt) (src dstDir : Chars) : Except PyErr RunSt :=
  let dst := pathJoin dstDir (baseName src)
  if (fsGet st.fs dst).isSome then .ok st
  else shutilCopy st src dst

/-- Texture copies (lines 241-250), one `copyIfAbsent` per resolved file. -/
def copyFilesLoop (dstDir : Chars) : RunSt → List Chars → Except PyErr RunSt
  | st, [] => .ok st
  | st, f :: rest => do
      let st2 ← copyIfAbsent st f dstDir
      copyFilesLoop dstDir st2 rest

/-- Read-only context of the per-instance phase: the four lookup tables,
the discovered files, and the `instances` output directory. -/
structure Ctx where
  map_idx2filename : List (Int × Chars)
  map_filename2idx : List (Chars × Int)
  map_hash2idx : List (JV × Int)
  all_files : List Chars
  instances_dir : Chars
deriving DecidableEq

/-- One loop iteration of lines 123-253: an unreadable GameObject file skips
the instance (`continue`); missing record keys and failed index lookups are
uncaught exceptions; an unreadable material is replaced by an empty texture
mapping; the resolved files are copied into `instance_<inst_id>`. -/
def processInstance (cx : Ctx) (st : RunSt) (inst_id : Nat) (go_file : Chars) :
    Except PyErr RunSt :=
  match safe_read_json st.fs go_file with
  | none => .ok st
  | some gameobject => do
      let mesh_obj_hash ← pySubscr gameobject (chars "1_UnityEngine.MeshFilter")
      let renderer ← pySubscr gameobject (chars "2_UnityEngine.MeshRenderer")
      let material_obj_hash ← pySubscrIdx renderer 0
      let mesh_idx ← dictGetJ cx.map_hash2idx mesh_obj_hash
      let mesh_filename ← (match getAssoc cx.map_idx2filename mesh_idx with
          | some f => Except.ok f
          | none => .error (.keyError (.jint mesh_idx)))
      let material_idx ← dictGetJ cx.map_hash2idx material_obj_hash
      let material_filename ← (match getAssoc cx.map_idx2filename material_idx with
          | some f => Except.ok f
          | none => .error (.keyError (.jint material_idx)))
      let material := match safe_read_json st.fs material_filename with
          | none => JV.jdict (.dcons (chars "textures") (.jdict .dnil) .dnil)
          | some m => m
      let texture_hashes ← getTextureHashes material
      let texture_filenames := resolveTextures cx.map_hash2idx cx.map_idx2filename
          cx.map_filename2idx cx.all_files material_filename texture_hashes
      let instance_dir := pathJoin cx.instances_dir (chars "instance_" ++ natChars inst_id)
      let fs2 ← makedirs st.fs instance_dir
      let st1 : RunSt := { st with fs := fs2 }
      let st2 ← copyIfAbsent st1 go_file instance_dir
      let st3 ← copyIfAbsent st2 mesh_filename instance_dir
      let st4 ← copyIfAbsent st3 material_filename instance_dir
      copyFilesLoop instance_dir st4 texture_filenames

/-- The instance loop (lines 123-253), `inst_id` counting from 0. -/
def processInstances (cx : Ctx) : RunSt → Nat → List Chars → Except PyErr RunSt
  | st, _, [] => .ok st
  | st, i, g :: rest => do
      let st2 ← processInstance cx st i g
      processInstances cx st2 (i + 1) rest

/-- Lines 261-269 for one instance directory: nothing when it does not
exist; otherwise each listed name contributes the presumed original path
`input_dir/basename(name)` and, when that path exists, also
`input_dir/name` (the same path, added conditionally a second time). -/
def assignedOfInstance (fs : FS) (input_dir instance_dir : Chars) :
    Except PyErr (List Chars) :=
  match fsGet fs instance_dir with
  | none => .ok []
  | some _ => do
      let names ← pyListdir fs instance_dir
      .ok (List.flatten (names.map (fun name =>
        pathJoin input_dir (baseName name) ::
          (if (fsGet fs (pathJoin input_dir name)).isSome
            then [pathJoin input_dir name] else []))))

/-- Lines 255-269: the assigned-files collection over the instance indexes. -/
def computeAssignedAux (fs : FS) (input_dir instances_dir : Chars) :
    List Nat → Except PyErr (List Chars)
  | [] => .ok []
  | i :: rest => do
      let a ← assignedOfInstance fs input_dir
          (pathJoin instances_dir (chars "instance_" ++ natChars i))
      let b ← computeAssignedAux fs input_dir instances_dir rest
      .ok (a ++ b)

/-- The `assigned_files` set of lines 255-269 (a list whose membership is
the set membership; `header.json` is *not* pre-added — line 257 is
commented out in the source). -/
def computeAssigned (fs : FS) (input_dir instances_dir : Chars) (n : Nat) :
    Except PyErr (List Chars) :=
  computeAssignedAux fs input_dir instances_dir (List.range n)

/-- The bucket classification of lines 278-290: the destination directory
chosen for an unassigned file, by filename heuristics in priority order. -/
def sweepDest (mesh_dir material_dir texture_dir other_dir : Chars) (filename : Chars) :
    Chars :=
  if endsW filename (chars ".obj") || strContains filename (chars "Mesh") then
    mesh_dir
  else if endsW filename (chars ".json") && strContains filename (chars "Material") then
    material_dir
  else if endsW filename (chars ".png") || endsW filename (chars ".jpg") ||
      strContains filename (chars "Texture") then
    texture_dir
  else
    other_dir

/-- Lines 271-296: every discovered file not in `assigned` is classified by
`sweepDest` into one of the four bucket directories and copied there
unconditionally with `shutil.copy2` (no prior existence check). -/
def sweepLoop (assigned : List Chars) (mesh_dir material_dir texture_dir other_dir : Chars) :
    RunSt → List Chars → Except PyErr RunSt
  | st, [] => .ok st
  | st, f :: rest =>
      if assigned.contains f then
        sweepLoop assigned mesh_dir material_dir texture_dir other_dir st rest
      else do
        let filename := baseName f
        let dest_dir := sweepDest mesh_dir material_dir texture_dir other_dir filename
        let st2 ← shutilCopy st f (pathJoin dest_dir filename)
        sweepLoop assigned mesh_dir material_dir texture_dir other_dir st2 rest

/-- The organizer, lines 12-299.  Given the working directory, the starting
filesystem, the input directory and the optional output directory, it
returns the final filesystem with the copy log and the output path, or the
uncaught Python exception. -/
def organize_crp_assets (cwd : Chars) (fs0 : FS) (input_dir0 : Chars)
    (output_dir0 : Option Chars) : Except PyErr (RunSt × Chars) := do
  let input_dir := pyAbspath cwd input_dir0
  let output_dir := match output_dir0 with
    | none => pathJoin input_dir (chars "organized")
    | some o => o
  let fs1 ← makedirs fs0 output_dir
  let instances_dir := pathJoin output_dir (chars "instances")
  let unassigned_dir := pathJoin output_dir (chars "unassigned")
  let fs2 ← makedirs fs1 instances_dir
  let fs3 ← makedirs fs2 unassigned_dir
  let mesh_dir := pathJoin unassigned_dir (chars "mesh")
  let material_dir := pathJoin unassigned_dir (chars "material")
  let texture_dir := pathJoin unassigned_dir (chars "texture")
  let other_dir := pathJoin unassigned_dir (chars "other")
  let fs4 ← makedirs fs3 mesh_dir
  let fs5 ← makedirs fs4 material_dir
  let fs6 ← makedirs fs5 texture_dir
  let fs7 ← makedirs fs6 other_dir
  let names ← pyListdir fs7 input_dir
  let all_files := names.map (fun n => pathJoin input_dir n)
  let maps ← buildEntryMaps all_files
  let header_file ← findHeaderFile all_files
  let header ← (match safe_read_json fs7 header_file with
      | some h => Except.ok h
      | none => .error (.valueError "Could not read header file"))
  let hmaps ← buildHashMaps header
  let gameobject_files := all_files.filter (fun f => endsW f (chars "GameObject.json"))
  let cx : Ctx := { map_idx2filename := maps.1, map_filename2idx := maps.2,
                    map_hash2idx := hmaps.2, all_files := all_files,
                    instances_dir := instances_dir }
  let st ← processInstances cx { fs := fs7, log := [] } 0 gameobject_files
  let assigned ← computeAssigned st.fs input_dir instances_dir gameobject_files.length
  let st2 ← sweepLoop assigned mesh_dir material_dir texture_dir other_dir st all_files
  .ok (st2, output_dir)

/-- The batch driver's `readlines` over the folder-list file. -/
def pyReadLines (fs : FS) (p : Chars) : Except PyErr (List Chars) :=
  match fsGet fs p with
  | some (.file d) => .ok d.lines
  | some .dir => .error (.isADirectoryError p)
  | none => .error (.fileNotFoundError p)

/-- The folder loop of `process_crp_folders` (lines 324-344): a non-directory
entry counts as a failure; otherwise the organizer runs with the sibling
`<folder>_organized` output, a success advancing the filesystem and any
exception being caught and counted as a failure (the model does not track
writes a failed run made before its exception; no claim inspects them). -/
def processFoldersLoop (cwd : Chars) : FS → Nat → Nat → List Chars → Nat × Nat × FS
  | fs, sc, fc, [] => (sc, fc, fs)
  | fs, sc, fc, folder :: rest =>
      let folder_path := pyAbspath cwd folder
      if fsGet fs folder_path = some Node.dir then
        let output_path := folder_path ++ chars "_organized"
        match organize_crp_assets cwd fs folder_path (some output_path) with
        | .ok (st, _) => processFoldersLoop cwd st.fs (sc + 1) fc rest
        | .error _ => processFoldersLoop cwd fs sc (fc + 1) rest
      else
        processFoldersLoop cwd fs sc (fc + 1) rest

/-- `process_crp_folders` (lines 301-348): reads the folder list (a read
error returns 1), strips and drops blank lines, processes each folder, and
returns 0 exactly when no folder failed (plus the resulting filesystem). -/
def process_crp_folders (cwd : Chars) (fs : FS) (input_file : Chars) : Int × FS :=
  match pyReadLines fs input_file with
  | .error _ => (1, fs)
  | .ok rawLines =>
      let crp_folders := (rawLines.map strStrip).filter (fun l => !l.isEmpty)
      let r := processFoldersLoop cwd fs 0 0 crp_folders
      (if r.2.1 = 0 then 0 else 1, r.2.2)

/-- The two mutually exclusive CLI modes of `main` (lines 350-367). -/
inductive CliArgs where
  | inputMode (input : Chars) (output : Option Chars)
  | fileMode (file : Chars)
deriving DecidableEq

/-- `main` (lines 350-367): `--file` returns `process_crp_folders`' status,
`--input` runs the organizer once and returns 0 (propagating any exception). -/
def pyMain (cwd : Chars) (fs : FS) (args : CliArgs) : Except PyErr (Int × FS) :=
  match args with
  | .fileMode f => .ok (process_crp_folders cwd fs f)
  | .inputMode i o =>
      match organize_crp_assets cwd fs i o with
      | .ok (st, _) => .ok (0, st.fs)
      | .error e => .error e

/-- The `__main__` guard (lines 370-376): `main()` is called with its return
value discarded, and any exception is caught, printed and swallowed, so the
interpreter finishes the script normally — the process exit status is 0 in
both cases. -/
def scriptExitCode (cwd : Chars) (fs : FS) (args : CliArgs) : Int :=
  match pyMain cwd fs args with
  | .ok _ => 0
  | .error _ => 0

/-! ### Well-formedness predicates and statement helpers -/

/-- A legal directory-entry name: non-empty and slash-free. -/
def nameOk (n : Chars) : Bool := !n.isEmpty && n.all (fun c => c != '/')

/-- A normalised absolute path: starts with `/`, does not end with `/`,
and has no empty components. -/
def pathOk (p : Chars) : Bool :=
  startsW p (chars "/") && !endsW p (chars "/") && !strContains p (chars "//")

/-- A well-formed filesystem: no duplicate paths, all paths normalised. -/
def fsOk (fs : FS) : Bool :=
  decide ((fs.map Prod.fst).Nodup) && fs.all (fun e => pathOk e.1)

/-- Is `q` equal to `d` or strictly below directory `d`? -/
def underEq (d q : Chars) : Bool := q == d || startsW q (d ++ [ '/' ])

/-- The four unassigned bucket directories of an output directory. -/
def bucketsOf (outp : Chars) : List Chars :=
  [ pathJoin (pathJoin outp (chars "unassigned")) (chars "mesh"),
    pathJoin (pathJoin outp (chars "unassigned")) (chars "material"),
    pathJoin (pathJoin outp (chars "unassigned")) (chars "texture"),
    pathJoin (pathJoin outp (chars "unassigned")) (chars "other") ]

/-- Every place a file can surface under the output directory: each
instance directory (children of `<outp>/instances`) and the four buckets. -/
def placesOf (fs : FS) (outp : Chars) : List Chars :=
  (listNames fs (pathJoin outp (chars "instances"))).map
    (pathJoin (pathJoin outp (chars "instances"))) ++ bucketsOf outp

/-! ### Concrete inputs used by the witnesses and counterexamples -/

/-- A file whose bytes parse as the JSON value `v`. -/
def jsonFile (v : JV) (tag : Nat) : Node := .file ⟨some v, [], tag⟩

/-- A file whose bytes are not valid JSON. -/
def rawFile (tag : Nat) : Node := .file ⟨none, [], tag⟩

/-- A text file with the given lines (not valid JSON). -/
def textFile (lines : List Chars) (tag : Nat) : Node := .file ⟨none, lines, tag⟩

/-- Manifest with checksums `A1`, `B2` (the spec's end-to-end scenario). -/
def headerE2E : JV := .jdict (.ofList [(chars "assets", .jarr (.ofList
  [ .jdict (.ofList [(chars "assetChecksum", .jstr (chars "A1"))]),
    .jdict (.ofList [(chars "assetChecksum", .jstr (chars "B2"))]) ]))])

/-- Material with a single empty texture slot. -/
def materialE2E : JV := .jdict (.ofList
  [(chars "textures", .jdict (.ofList [(chars "diffuse", .jstr (chars ""))]))])

/-- Scene object referencing mesh `A1` and renderer material `B2`. -/
def gameobjE2E : JV := .jdict (.ofList
  [ (chars "1_UnityEngine.MeshFilter", .jstr (chars "A1")),
    (chars "2_UnityEngine.MeshRenderer", .jarr (.ofList [.jstr (chars "B2")])) ])

/-- The spec's end-to-end input directory. -/
def fsE2E : FS :=
  [ (chars "/in", .dir),
    (chars "/in/header.json", jsonFile headerE2E 1),
    (chars "/in/entry_0_x.obj", rawFile 2),
    (chars "/in/entry_1_x.json", jsonFile materialE2E 3),
    (chars "/in/entry_2_GameObject.json", jsonFile gameobjE2E 4) ]

/-- Filesystem after one organizer run on `fsE2E` (input `/in`, output
`/out`); the fallback value is never reached because the run succeeds. -/
def e2eRun1 : RunSt :=
  match organize_crp_assets (chars "/") fsE2E (chars "/in") (some (chars "/out")) with
  | .ok (st, _) => st
  | .error _ => ⟨[], []⟩

/-- Scene object referencing the absent mesh checksum `ZZ`. -/
def gameobjBadHash : JV := .jdict (.ofList
  [ (chars "1_UnityEngine.MeshFilter", .jstr (chars "ZZ")),
    (chars "2_UnityEngine.MeshRenderer", .jarr (.ofList [.jstr (chars "B2")])) ])

/-- Input directory whose only scene object references an absent checksum. -/
def fsBadHash : FS :=
  [ (chars "/in", .dir),
    (chars "/in/header.json", jsonFile headerE2E 1),
    (chars "/in/entry_0_x.obj", rawFile 2),
    (chars "/in/entry_1_x.json", jsonFile materialE2E 3),
    (chars "/in/entry_2_GameObject.json", jsonFile gameobjBadHash 4) ]

/-- Scene object record lacking the `2_UnityEngine.MeshRenderer` key. -/
def gameobjNoRenderer : JV := .jdict (.ofList
  [ (chars "1_UnityEngine.MeshFilter", .jstr (chars "A1")) ])

/-- Input directory whose only scene object lacks the MeshRenderer key. -/
def fsNoRenderer : FS :=
  [ (chars "/in", .dir),
    (chars "/in/header.json", jsonFile headerE2E 1),
    (chars "/in/entry_0_x.obj", rawFile 2),
    (chars "/in/entry_1_x.json", jsonFile materialE2E 3),
    (chars "/in/entry_2_GameObject.json", jsonFile gameobjNoRenderer 4) ]

/-- Input directory whose only manifest candidate is the suffix-named
`x_header.json` (no file named exactly `header.json`). -/
def fsSuffixHeader : FS :=
  [ (chars "/in", .dir),
    (chars "/in/x_header.json", jsonFile headerE2E 1) ]

/-- Input directory with two manifest candidates: the suffix-named (valid)
`a_header.json` listed first and a malformed exact `header.json` second. -/
def fsTwoHeaders : FS :=
  [ (chars "/in", .dir),
    (chars "/in/a_header.json", jsonFile headerE2E 1),
    (chars "/in/header.json", rawFile 2) ]

/-- Input directory whose only exact `header.json` does not parse. -/
def fsBadHeader : FS :=
  [ (chars "/in", .dir),
    (chars "/in/header.json", rawFile 1) ]

/-- Material referencing texture checksum `T1`, which is absent from the
manifest and contained in no file path. -/
def materialT1 : JV := .jdict (.ofList
  [(chars "textures", .jdict (.ofList [(chars "diffuse", .jstr (chars "T1"))]))])

/-- Input directory for the texture-fallback scenario: `T1` resolves
nowhere, while `entry_3_pic.png` sits within the proximity window of the
material `entry_1_x.json`. -/
def fsTexFallback : FS :=
  [ (chars "/in", .dir),
    (chars "/in/header.json", jsonFile headerE2E 1),
    (chars "/in/entry_0_x.obj", rawFile 2),
    (chars "/in/entry_1_x.json", jsonFile materialT1 3),
    (chars "/in/entry_3_pic.png", rawFile 5),
    (chars "/in/entry_2_GameObject.json", jsonFile gameobjE2E 4) ]

/-- Input directory containing the file `xentry_12`, whose name contains
`entry` but not the shape `entry_<digits>_<rest>` (the digits run to the end
of the name). -/
def fsXentry : FS :=
  [ (chars "/in", .dir),
    (chars "/in/header.json", jsonFile headerE2E 1),
    (chars "/in/xentry_12", rawFile 2) ]

/-- An input directory whose own path contains `entry` (but no `entry_`). -/
def fsEntryDir : FS :=
  [ (chars "/data/entry", .dir),
    (chars "/data/entry/header.json", jsonFile headerE2E 1) ]

/-- World for the batch-mode scenario: the folder list `/L` names the
directory `/nodir`, which does not exist. -/
def fsBatchBad : FS :=
  [ (chars "/L", textFile [chars "/nodir"] 1) ]

/-- Final filesystem of an organizer result (empty on error; used only to
state facts about successful runs). -/
def finalFS (r : Except PyErr (RunSt × Chars)) : FS :=
  match r with
  | .ok (st, _) => st.fs
  | .error _ => []

/-- The discovered files of `fsTexFallback`, in enumeration order. -/
def allFilesTex : List Chars :=
  [ chars "/in/header.json", chars "/in/entry_0_x.obj", chars "/in/entry_1_x.json",
    chars "/in/entry_3_pic.png", chars "/in/entry_2_GameObject.json" ]

/-- The `map_idx2filename` table built from `allFilesTex`. -/
def i2fTex : List (Int × Chars) :=
  [ (0, chars "/in/entry_0_x.obj"), (1, chars "/in/entry_1_x.json"),
    (3, chars "/in/entry_3_pic.png"), (2, chars "/in/entry_2_GameObject.json") ]

/-- The `map_filename2idx` table built from `allFilesTex`. -/
def f2iTex : List (Chars × Int) :=
  [ (chars "/in/entry_0_x.obj", 0), (chars "/in/entry_1_x.json", 1),
    (chars "/in/entry_3_pic.png", 3), (chars "/in/entry_2_GameObject.json", 2) ]

/-- The `map_hash2idx` table of the two-asset manifest `headerE2E`. -/
def hash2idxE2E : List (JV × Int) :=
  [ (.jstr (chars "A1"), 0), (.jstr (chars "B2"), 1) ]

/-- A small resolver context used to exercise `processInstance` directly. -/
def cxMini : Ctx :=
  { map_idx2filename := [(0, chars "/in/entry_0_x.obj"), (1, chars "/in/entry_1_x.json")],
    map_filename2idx := [(chars "/in/entry_0_x.obj", 0), (chars "/in/entry_1_x.json", 1)],
    map_hash2idx := hash2idxE2E,
    all_files := [chars "/in/entry_0_x.obj", chars "/in/entry_1_x.json"],
    instances_dir := chars "/out/instances" }

/-- A state whose only file is a scene object referencing the absent
checksum `ZZ`. -/
def stMini : RunSt := ⟨[(chars "/go", jsonFile gameobjBadHash 9)], []⟩

/-- A state for exercising `processInstance` with an unreadable material:
the three referenced files exist, the material does not parse. -/
def stMiniC8 : RunSt :=
  ⟨[ (chars "/in", .dir),
     (chars "/in/entry_0_x.obj", rawFile 2),
     (chars "/in/entry_1_x.json", rawFile 3),
     (chars "/in/entry_2_GameObject.json", jsonFile gameobjE2E 4) ], []⟩

/-- The instance directory the per-instance phase uses for instance `j`. -/
def instDirOf (cx : Ctx) (j : Nat) : Chars :=
  pathJoin cx.instances_dir (chars "instance_" ++ natChars j)

/-- Over-approximation of the copy sources of one iteration of the
per-instance phase with GameObject file `go`: `go` itself, a value of the
`map_idx2filename` table, or a discovered file selected by one of the
texture fallback scans (which demand an image-looking path). -/
def instSrc (cx : Ctx) (go src : Chars) : Prop :=
  src = go ∨ (∃ k, getAssoc cx.map_idx2filename k = some src) ∨
  (src ∈ cx.all_files ∧
    (strContains src (chars "Texture") || endsW src (chars ".png") ||
      endsW src (chars ".jpg")) = true)

/-! ### General lemmas about the embedding -/

/-- Bind on `Except` of a success just applies the continuation. -/
theorem exc_bind_ok {ε α β : Type} (a : α) (f : α → Except ε β) :
    (Except.ok a >>= f) = f a := rfl

/-- Bind on `Except` propagates an error. -/
theorem exc_bind_error {ε α β : Type} (e : ε) (f : α → Except ε β) :
    ((Except.error e : Except ε α) >>= f) = .error e := rfl

/-- Binding the success constructor is the identity on `Except`. -/
theorem exc_bind_pure {ε α : Type} (x : Except ε α) :
    (x >>= fun a => Except.ok a) = x := by cases x <;> rfl



/-! ### String and path lemmas -/

theorem startsW_iff (s p : Chars) : startsW s p = true ↔ ∃ t, s = p ++ t := by
  induction p generalizing s with
  | nil => simp [startsW]
  | cons c pt ih =>
      cases s with
      | nil => simp [startsW]
      | cons d st =>
          simp only [startsW, Bool.and_eq_true, beq_iff_eq]
          rw [ih]
          constructor
          · rintro ⟨rfl, t, rfl⟩
            exact ⟨t, rfl⟩
          · rintro ⟨t, h⟩
            cases h
            exact ⟨rfl, t, rfl⟩

theorem startsW_append (a t : Chars) : startsW (a ++ t) a = true := by
  rw [startsW_iff]; exact ⟨t, rfl⟩

theorem stripPre_eq_some (a s r : Chars) : stripPre a s = some r ↔ s = a ++ r := by
  induction a generalizing s with
  | nil => simp [stripPre]
  | cons c at' ih =>
      cases s with
      | nil => simp [stripPre]
      | cons d st =>
          simp only [stripPre]
          by_cases h : c = d
          · subst h
            simp only [beq_self_eq_true, if_pos, List.cons_append, List.cons.injEq, true_and]
            exact ih st
          · have hb : (c == d) = false := by simp [h]
            simp only [hb, Bool.false_eq_true, if_false, List.cons_append, List.cons.injEq]
            constructor
            · intro h2; cases h2
            · intro h2; exact absurd h2.1.symm h

-- nameOk unfolding
theorem nameOk_iff (n : Chars) : nameOk n = true ↔ n ≠ [] ∧ ∀ c ∈ n, c ≠ '/' := by
  simp only [nameOk, Bool.and_eq_true, List.all_eq_true, ne_eq, bne_iff_ne]
  cases n <;> simp [List.isEmpty]

theorem pathOk_startsW (p : Chars) (h : pathOk p = true) : startsW p (chars "/") = true := by
  simp only [pathOk, Bool.and_eq_true] at h
  exact h.1.1

theorem pathOk_not_endsW (p : Chars) (h : pathOk p = true) : endsW p (chars "/") = false := by
  simp only [pathOk, Bool.and_eq_true, Bool.not_eq_true'] at h
  exact h.1.2

-- join of a nice dir and a name is plain append
theorem pathJoin_eq (d n : Chars) (hd1 : startsW d (chars "/") = true)
    (hd2 : endsW d (chars "/") = false) (hn : nameOk n = true) :
    pathJoin d n = d ++ '/' :: n := by
  obtain ⟨hne, hsl⟩ := (nameOk_iff n).mp hn
  have h1 : startsW n (chars "/") = false := by
    cases n with
    | nil => exact absurd rfl hne
    | cons c t =>
        have : c ≠ '/' := hsl c (by simp)
        simp [startsW, chars]
        intro h; exact absurd h this
  have h2 : d.isEmpty = false := by
    cases d with
    | nil => simp [startsW, chars] at hd1
    | cons c t => rfl
  simp [pathJoin, h1, h2, hd2]

theorem childNameOf_eq_some (d p n : Chars) :
    childNameOf d p = some n ↔ p = d ++ '/' :: n ∧ nameOk n = true := by
  simp only [childNameOf]
  cases h : stripPre (d ++ [ '/' ]) p with
  | none =>
      constructor
      · intro h2; cases h2
      · rintro ⟨rfl, _⟩
        have h3 : stripPre (d ++ [ '/' ]) (d ++ '/' :: n) = some n := by
          rw [stripPre_eq_some]; simp
        rw [h3] at h; cases h
  | some m =>
      rw [stripPre_eq_some] at h
      subst h
      by_cases hm : !m.isEmpty && m.all (fun c => c != '/')
      · simp only [hm, if_pos]
        constructor
        · rintro h2; cases h2
          refine ⟨by simp, hm⟩
        · rintro ⟨h2, _⟩
          have : m = n := by
            have := h2
            rw [show d ++ '/' :: n = (d ++ [ '/' ]) ++ n by simp] at this
            exact List.append_cancel_left this
          simp [this]
      · have hm2 : (!m.isEmpty && m.all (fun c => c != '/')) = false := by
          simpa using hm
        simp only [hm2, Bool.false_eq_true, if_false]
        constructor
        · intro h2; cases h2
        · rintro ⟨h2, hn⟩
          have : m = n := by
            rw [show d ++ '/' :: n = (d ++ [ '/' ]) ++ n by simp] at h2
            exact List.append_cancel_left h2
          subst this
          exact absurd hn (by simpa [nameOk] using hm)

theorem childNameOf_join (d n : Chars) (hd1 : startsW d (chars "/") = true)
    (hd2 : endsW d (chars "/") = false) (hn : nameOk n = true) :
    childNameOf d (pathJoin d n) = some n := by
  rw [pathJoin_eq d n hd1 hd2 hn, childNameOf_eq_some]
  exact ⟨rfl, hn⟩

theorem takeWhile_append_stop {p : Char → Bool} (a b : Chars) (b0 : Char)
    (ha : ∀ c ∈ a, p c = true) (hb : p b0 = false) :
    (a ++ b0 :: b).takeWhile p = a := by
  induction a with
  | nil => simp [List.takeWhile, hb]
  | cons c t ih =>
      have hc : p c = true := ha c (by simp)
      simp only [List.cons_append, List.takeWhile_cons, hc, if_true]
      rw [ih (fun x hx => ha x (by simp [hx]))]

theorem baseName_append (d n : Chars) (hsl : ∀ c ∈ n, c ≠ '/') :
    baseName (d ++ '/' :: n) = n := by
  simp only [baseName, List.reverse_append, List.reverse_cons]
  rw [List.append_assoc, List.singleton_append]
  rw [takeWhile_append_stop n.reverse d.reverse '/'
      (fun c hc => by simpa using hsl c (by simpa using hc)) (by simp)]
  exact List.reverse_reverse n

theorem baseName_of_nameOk (n : Chars) (hn : nameOk n = true) : baseName n = n := by
  obtain ⟨_, hsl⟩ := (nameOk_iff n).mp hn
  simp only [baseName]
  have h1 : (n.reverse.takeWhile fun c => c != '/') = n.reverse := by
    rw [List.takeWhile_eq_self_iff]
    intro c hc
    simp only [bne_iff_ne, ne_eq]
    exact hsl c (by simpa using hc)
  rw [h1, List.reverse_reverse]

theorem baseName_no_slash (p : Chars) : ∀ c ∈ baseName p, c ≠ '/' := by
  intro c hc
  simp only [baseName, List.mem_reverse] at hc
  have := List.mem_takeWhile_imp hc
  simpa using this

theorem slash_decomp_aux (u v a b : Chars) (hu : ∀ c ∈ u, c ≠ '/')
    (hv : ∀ c ∈ v, c ≠ '/') (h : u ++ '/' :: a = v ++ '/' :: b) :
    u = v ∧ a = b := by
  induction u generalizing v with
  | nil =>
      cases v with
      | nil => simpa using h
      | cons d vt =>
          simp only [List.nil_append, List.cons_append, List.cons.injEq] at h
          exact absurd h.1.symm (hv d (by simp))
  | cons c ut ih =>
      cases v with
      | nil =>
          simp only [List.nil_append, List.cons_append, List.cons.injEq] at h
          exact absurd h.1 (hu c (by simp))
      | cons d vt =>
          simp only [List.cons_append, List.cons.injEq] at h
          obtain ⟨rfl, h2⟩ := h
          obtain ⟨h3, h4⟩ := ih vt (fun x hx => hu x (by simp [hx]))
            (fun x hx => hv x (by simp [hx])) h2
          exact ⟨by rw [h3], h4⟩

/-- Two dir/name decompositions with slash-free last components agree. -/
theorem lastComp_decomp (a b x y : Chars) (hx : ∀ c ∈ x, c ≠ '/')
    (hy : ∀ c ∈ y, c ≠ '/') (h : a ++ '/' :: x = b ++ '/' :: y) :
    a = b ∧ x = y := by
  have hr : x.reverse ++ '/' :: a.reverse = y.reverse ++ '/' :: b.reverse := by
    have := congrArg List.reverse h
    simpa [List.reverse_append] using this
  obtain ⟨h1, h2⟩ := slash_decomp_aux x.reverse y.reverse a.reverse b.reverse
    (fun c hc => hx c (by simpa using hc)) (fun c hc => hy c (by simpa using hc)) hr
  constructor
  · have := congrArg List.reverse h2; simpa using this
  · have := congrArg List.reverse h1; simpa using this

theorem startsW_mono (s p t : Chars) (h : startsW s p = true) :
    startsW (s ++ t) p = true := by
  rw [startsW_iff] at h ⊢
  obtain ⟨r, rfl⟩ := h
  exact ⟨r ++ t, by simp⟩

theorem strContains_left (a b pat : Chars) (h : strContains a pat = true) :
    strContains (a ++ b) pat = true := by
  induction a with
  | nil =>
      cases pat with
      | nil => cases b <;> simp [strContains]
      | cons c t => simp [strContains] at h
  | cons c s ih =>
      cases pat with
      | nil => simp [strContains]
      | cons d t =>
          simp only [strContains, Bool.or_eq_true] at h ⊢
          rcases h with h | h
          · exact Or.inl (by simpa using startsW_mono _ _ b h)
          · exact Or.inr (ih h)

theorem strContains_right (a b pat : Chars) (h : strContains b pat = true) :
    strContains (a ++ b) pat = true := by
  induction a with
  | nil => simpa using h
  | cons c s ih =>
      cases pat with
      | nil => simp [strContains]
      | cons d t =>
          simp only [List.cons_append, strContains, Bool.or_eq_true]
          exact Or.inr ih

theorem startsW_single (c : Char) (t : Chars) (d : Char) :
    startsW (c :: t) [d] = (c == d) := by
  simp [startsW]

theorem endsW_join_name (d n : Chars) (hn : nameOk n = true) :
    endsW (d ++ '/' :: n) (chars "/") = false := by
  obtain ⟨hne, hsl⟩ := (nameOk_iff n).mp hn
  have hs : (d ++ '/' :: n).reverse = n.reverse ++ '/' :: d.reverse := by
    simp [List.reverse_append]
  rw [endsW, hs]
  cases hrev : n.reverse with
  | nil => exact absurd (by simpa using congrArg List.reverse hrev) hne
  | cons c t =>
      have hc : c ≠ '/' := hsl c (by rw [← List.mem_reverse, hrev]; simp)
      have h1 : (chars "/").reverse = ['/'] := rfl
      rw [h1, List.cons_append, startsW_single]
      simpa using hc

theorem startsW_join (d n : Chars) (h : startsW d (chars "/") = true) :
    startsW (d ++ '/' :: n) (chars "/") = true :=
  startsW_mono d (chars "/") ('/' :: n) h

theorem pathJoin_length_ge (a m : Chars) (hm : ∀ c ∈ m, c ≠ '/') :
    a.length ≤ (pathJoin a m).length := by
  have h1 : startsW m (chars "/") = false := by
    cases m with
    | nil => simp [startsW, chars]
    | cons c t =>
        simp only [chars, show ("/".data) = ['/'] from rfl, startsW_single]
        simpa using hm c (by simp)
  simp only [pathJoin, h1, Bool.false_eq_true, if_false]
  by_cases h2 : a.isEmpty || endsW a (chars "/")
  · simp [h2]
  · simp only [h2, Bool.false_eq_true, if_false]
    simp

theorem pathJoin_length_gt (a n : Chars) (hn : nameOk n = true) :
    a.length < (pathJoin a n).length := by
  obtain ⟨hne, hsl⟩ := (nameOk_iff n).mp hn
  have h1 : startsW n (chars "/") = false := by
    cases n with
    | nil => exact absurd rfl hne
    | cons c t =>
        simp only [chars, show ("/".data) = ['/'] from rfl, startsW_single]
        simpa using hsl c (by simp)
  have h3 : 0 < n.length := List.length_pos.mpr hne
  simp only [pathJoin, h1, Bool.false_eq_true, if_false]
  by_cases h2 : a.isEmpty || endsW a (chars "/")
  · simp only [h2, if_true]
    simp only [List.length_append]
    omega
  · simp only [h2, Bool.false_eq_true, if_false]
    simp only [List.length_append, List.length_cons]
    omega

theorem pathJoin_ne_nil (a b : Chars) (hb : b ≠ []) : pathJoin a b ≠ [] := by
  unfold pathJoin
  by_cases h1 : startsW b (chars "/") = true
  · rw [if_pos h1]; exact hb
  · rw [if_neg h1]
    by_cases h2 : (a.isEmpty || endsW a (chars "/")) = true
    · rw [if_pos h2]
      intro hc
      exact hb (List.append_eq_nil.mp hc).2
    · rw [if_neg h2]
      intro hc
      have := (List.append_eq_nil.mp hc).2
      cases this

theorem natCharsAux_no_slash (fuel n : Nat) : ∀ c ∈ natCharsAux fuel n, c ≠ '/' := by
  induction fuel generalizing n with
  | zero => intro c hc; simp [natCharsAux] at hc
  | succ f ih =>
      intro c hc
      cases n with
      | zero => simp [natCharsAux] at hc
      | succ m =>
          simp only [natCharsAux, List.mem_append, List.mem_singleton] at hc
          rcases hc with hc | rfl
          · exact ih _ c hc
          · have hr : (m + 1) % 10 < 10 := Nat.mod_lt _ (by omega)
            interval_cases h : (m + 1) % 10 <;> decide

theorem natChars_nameOk (i : Nat) : nameOk (natChars i) = true := by
  rw [nameOk_iff]
  constructor
  · simp only [natChars]
    by_cases h : i = 0
    · simp [h]
    · simp only [h, if_false]
      cases i with
      | zero => exact absurd rfl h
      | succ m => simp [natCharsAux]
  · intro c hc
    simp only [natChars] at hc
    by_cases h : i = 0
    · simp [h] at hc
      simp [hc]
    · simp only [h, if_false] at hc
      exact natCharsAux_no_slash _ _ c hc

theorem instName_nameOk (i : Nat) : nameOk (chars "instance_" ++ natChars i) = true := by
  rw [nameOk_iff]
  obtain ⟨h1, h2⟩ := (nameOk_iff _).mp (natChars_nameOk i)
  constructor
  · intro hcontra
    have := congrArg List.length hcontra
    simp [chars] at this
  · intro c hc
    rcases List.mem_append.mp hc with hc | hc
    · fin_cases hc <;> decide
    · exact h2 c hc

theorem pairwise_mem_or {α : Type} {R : α → α → Prop} {l : List α} {a b : α}
    (h : l.Pairwise R) (ha : a ∈ l) (hb : b ∈ l) (hne : a ≠ b) : R a b ∨ R b a := by
  induction l with
  | nil => cases ha
  | cons x t ih =>
      cases h with
      | cons hx ht =>
          rcases List.mem_cons.mp ha with rfl | ha2
          · rcases List.mem_cons.mp hb with rfl | hb2
            · exact absurd rfl hne
            · exact Or.inl (hx b hb2)
          · rcases List.mem_cons.mp hb with rfl | hb2
            · exact Or.inr (hx a ha2)
            · exact ih ht ha2 hb2



/-! ### Filesystem lemmas -/

theorem fsGet_eq_none_iff (fs : FS) (q : Chars) :
    fsGet fs q = none ↔ q ∉ fs.map Prod.fst := by
  induction fs with
  | nil => simp [fsGet]
  | cons e rest ih =>
      obtain ⟨p, n⟩ := e
      simp only [List.map_cons, List.mem_cons]
      by_cases h : p = q
      · subst h
        simp only [fsGet, if_pos rfl]
        constructor
        · intro h2; cases h2
        · intro h2; exact absurd (Or.inl trivial) h2
      · simp only [fsGet, if_neg h]
        rw [ih]
        constructor
        · intro h2 h3
          rcases h3 with h3 | h3
          · exact h h3.symm
          · exact h2 h3
        · intro h2 h3
          exact h2 (Or.inr h3)

theorem fsGet_fsSet (fs : FS) (p : Chars) (n : Node) (q : Chars) :
    fsGet (fsSet fs p n) q = if q = p then some n else fsGet fs q := by
  induction fs with
  | nil =>
      by_cases h : q = p
      · subst h
        simp [fsSet, fsGet]
      · have h2 : p ≠ q := fun hc => h hc.symm
        simp [fsSet, fsGet, h, h2]
  | cons e rest ih =>
      obtain ⟨pe, ne⟩ := e
      by_cases hpe : pe = p
      · subst hpe
        by_cases hq : pe = q
        · subst hq
          simp [fsSet, fsGet]
        · have h2 : q ≠ pe := fun hc => hq hc.symm
          simp [fsSet, fsGet, hq, h2]
      · by_cases hq : pe = q
        · have h2 : q ≠ p := hq ▸ hpe
          simp [fsSet, fsGet, hpe, hq, h2]
        · simp only [fsSet, if_neg hpe, fsGet, if_neg hq]
          exact ih

theorem keys_fsSet_mem (fs : FS) (p : Chars) (n : Node)
    (h : p ∈ fs.map Prod.fst) :
    (fsSet fs p n).map Prod.fst = fs.map Prod.fst := by
  induction fs with
  | nil => simp at h
  | cons e rest ih =>
      obtain ⟨pe, ne⟩ := e
      by_cases hpe : pe = p
      · subst hpe
        simp [fsSet]
      · simp only [List.map_cons, List.mem_cons] at h
        rcases h with h | h
        · exact absurd h.symm hpe
        · simp only [fsSet, if_neg hpe, List.map_cons]
          rw [ih h]

theorem keys_fsSet_new (fs : FS) (p : Chars) (n : Node)
    (h : p ∉ fs.map Prod.fst) :
    (fsSet fs p n).map Prod.fst = fs.map Prod.fst ++ [p] := by
  induction fs with
  | nil => simp [fsSet]
  | cons e rest ih =>
      obtain ⟨pe, ne⟩ := e
      simp only [List.map_cons, List.mem_cons] at h
      push_neg at h
      have hpe : pe ≠ p := fun hc => h.1 hc.symm
      simp only [fsSet, if_neg hpe, List.map_cons, List.cons_append]
      rw [ih h.2]

theorem fsSet_nodup (fs : FS) (p : Chars) (n : Node)
    (h : (fs.map Prod.fst).Nodup) : ((fsSet fs p n).map Prod.fst).Nodup := by
  by_cases hm : p ∈ fs.map Prod.fst
  · rw [keys_fsSet_mem fs p n hm]; exact h
  · rw [keys_fsSet_new fs p n hm]
    simp [List.nodup_append, h, hm]

theorem listNames_eq_keys (fs : FS) (d : Chars) :
    listNames fs d = (fs.map Prod.fst).filterMap (childNameOf d) := by
  rw [listNames, List.filterMap_map]
  rfl

theorem mem_listNames_iff (fs : FS) (d : Chars) (m : Chars) :
    m ∈ listNames fs d ↔ ∃ q, q ∈ fs.map Prod.fst ∧ childNameOf d q = some m := by
  rw [listNames_eq_keys, List.mem_filterMap]

theorem listNames_fsSet_mem (fs : FS) (p : Chars) (n : Node) (d : Chars)
    (h : p ∈ fs.map Prod.fst) :
    listNames (fsSet fs p n) d = listNames fs d := by
  rw [listNames_eq_keys, listNames_eq_keys, keys_fsSet_mem fs p n h]

theorem listNames_fsSet_new (fs : FS) (p : Chars) (n : Node) (d : Chars)
    (h : p ∉ fs.map Prod.fst) :
    listNames (fsSet fs p n) d =
      listNames fs d ++ (childNameOf d p).toList := by
  rw [listNames_eq_keys, listNames_eq_keys, keys_fsSet_new fs p n h,
    List.filterMap_append]
  cases h2 : childNameOf d p <;> simp [h2]

theorem mem_of_fsGet_ne_none (fs : FS) (q : Chars) (h : fsGet fs q ≠ none) :
    q ∈ fs.map Prod.fst := by
  by_contra hc
  exact h ((fsGet_eq_none_iff fs q).mpr hc)

theorem mem_listNames_of_node (fs : FS) (d m : Chars)
    (hd1 : startsW d (chars "/") = true) (hd2 : endsW d (chars "/") = false)
    (hm : nameOk m = true) (h : fsGet fs (pathJoin d m) ≠ none) :
    m ∈ listNames fs d := by
  rw [mem_listNames_iff]
  exact ⟨pathJoin d m, mem_of_fsGet_ne_none fs _ h, childNameOf_join d m hd1 hd2 hm⟩

theorem listNames_nodup (fs : FS) (d : Chars) (h : (fs.map Prod.fst).Nodup) :
    (listNames fs d).Nodup := by
  rw [listNames_eq_keys]
  apply List.Nodup.filterMap _ h
  intro a1 a2 m h1 h2
  rw [Option.mem_def, childNameOf_eq_some] at h1 h2
  rw [h1.1, h2.1]

/-! ### Path prefixes and directory creation -/

theorem pathPrefixAux_mem (done t : Chars) (q : Chars)
    (h : q ∈ pathPrefixAux done t) :
    ∃ t1 t2, t = t1 ++ t2 ∧ q = done.reverse ++ t1 := by
  induction t generalizing done with
  | nil =>
      simp only [pathPrefixAux, List.mem_singleton] at h
      exact ⟨[], [], by simp, by simp [h]⟩
  | cons c rest ih =>
      simp only [pathPrefixAux] at h
      by_cases hc : c = '/'
      · rw [if_pos hc] at h
        rcases List.mem_cons.mp h with rfl | h2
        · exact ⟨[], c :: rest, by simp, by simp⟩
        · obtain ⟨t1, t2, he, hq⟩ := ih (c :: done) h2
          refine ⟨c :: t1, t2, by simp [he], ?_⟩
          rw [hq]
          simp
      · rw [if_neg hc] at h
        obtain ⟨t1, t2, he, hq⟩ := ih (c :: done) h
        refine ⟨c :: t1, t2, by simp [he], ?_⟩
        rw [hq]
        simp

theorem mem_pathPrefixList_pre (p q : Chars) (h : q ∈ pathPrefixList p) :
    q <+: p := by
  cases p with
  | nil => simp [pathPrefixList] at h
  | cons c rest =>
      obtain ⟨t1, t2, he, hq⟩ := pathPrefixAux_mem [c] rest q h
      refine ⟨t2, ?_⟩
      rw [hq, he]
      simp

theorem pathPrefixAux_self (done t : Chars) :
    done.reverse ++ t ∈ pathPrefixAux done t := by
  induction t generalizing done with
  | nil => simp [pathPrefixAux]
  | cons c rest ih =>
      simp only [pathPrefixAux]
      by_cases hc : c = '/'
      · rw [if_pos hc]
        refine List.mem_cons.mpr (Or.inr ?_)
        have := ih (c :: done)
        simpa using this
      · rw [if_neg hc]
        have := ih (c :: done)
        simpa using this

theorem self_mem_pathPrefixList (p : Chars) (hp : p ≠ []) :
    p ∈ pathPrefixList p := by
  cases p with
  | nil => exact absurd rfl hp
  | cons c rest =>
      have := pathPrefixAux_self [c] rest
      simpa using this

theorem pathPrefixAux_noslash (done t : Chars) (h : ∀ c ∈ t, c ≠ '/') :
    pathPrefixAux done t = [done.reverse ++ t] := by
  induction t generalizing done with
  | nil => simp [pathPrefixAux]
  | cons c rest ih =>
      have hc : c ≠ '/' := h c (by simp)
      simp only [pathPrefixAux, if_neg hc]
      rw [ih (c :: done) (fun x hx => h x (by simp [hx]))]
      simp

theorem pathPrefixAux_slash (done t : Chars) :
    pathPrefixAux done ('/' :: t) = done.reverse :: pathPrefixAux ('/' :: done) t := by
  simp [pathPrefixAux]

theorem pathPrefixAux_cons (done t : Chars) (c : Char) (hc : c ≠ '/') :
    pathPrefixAux done (c :: t) = pathPrefixAux (c :: done) t := by
  simp [pathPrefixAux, hc]

theorem pathPrefixAux_append (done t n : Chars) (hn : ∀ c ∈ n, c ≠ '/') :
    pathPrefixAux done (t ++ '/' :: n) =
      pathPrefixAux done t ++ [done.reverse ++ t ++ '/' :: n] := by
  induction t generalizing done with
  | nil =>
      rw [List.nil_append, pathPrefixAux_slash, pathPrefixAux_noslash ('/' :: done) n hn]
      simp [pathPrefixAux]
  | cons c rest ih =>
      by_cases hc : c = '/'
      · subst hc
        rw [List.cons_append, pathPrefixAux_slash, pathPrefixAux_slash, ih ('/' :: done)]
        simp
      · rw [List.cons_append, pathPrefixAux_cons _ _ _ hc, pathPrefixAux_cons _ _ _ hc,
          ih (c :: done)]
        simp

theorem pathPrefixList_join (d n : Chars) (hd : d ≠ []) (hn : ∀ c ∈ n, c ≠ '/') :
    pathPrefixList (d ++ '/' :: n) = pathPrefixList d ++ [d ++ '/' :: n] := by
  cases d with
  | nil => exact absurd rfl hd
  | cons c rest =>
      simp only [List.cons_append, pathPrefixList]
      rw [pathPrefixAux_append [c] rest n hn]
      simp

theorem makedirsAux_mono (leaf : Chars) (fs fs' : FS) (l : List Chars)
    (h : makedirsAux leaf fs l = .ok fs') (q : Chars) (x : Node)
    (hq : fsGet fs q = some x) : fsGet fs' q = some x := by
  induction l generalizing fs with
  | nil =>
      simp only [makedirsAux, Except.ok.injEq] at h
      rw [← h]; exact hq
  | cons p rest ih =>
      simp only [makedirsAux] at h
      cases hg : fsGet fs p with
      | some node =>
          cases node with
          | dir => rw [hg] at h; exact ih fs h hq
          | file d => rw [hg] at h; cases h
      | none =>
          rw [hg] at h
          refine ih _ h ?_
          rw [fsGet_fsSet]
          by_cases hqp : q = p
          · subst hqp; rw [hq] at hg; cases hg
          · rw [if_neg hqp]; exact hq

theorem makedirsAux_created (leaf : Chars) (fs fs' : FS) (l : List Chars)
    (h : makedirsAux leaf fs l = .ok fs') (q : Chars)
    (hnone : fsGet fs q = none) (hsome : fsGet fs' q ≠ none) :
    q ∈ l ∧ fsGet fs' q = some .dir := by
  induction l generalizing fs with
  | nil =>
      simp only [makedirsAux, Except.ok.injEq] at h
      rw [← h] at hsome
      exact absurd hnone hsome
  | cons p rest ih =>
      simp only [makedirsAux] at h
      cases hg : fsGet fs p with
      | some node =>
          cases node with
          | dir =>
              rw [hg] at h
              obtain ⟨h1, h2⟩ := ih fs h hnone
              exact ⟨by simp [h1], h2⟩
          | file d => rw [hg] at h; cases h
      | none =>
          rw [hg] at h
          by_cases hqp : q = p
          · subst hqp
            refine ⟨by simp, ?_⟩
            exact makedirsAux_mono leaf _ fs' rest h q .dir (by rw [fsGet_fsSet]; simp)
          · have h2 : fsGet (fsSet fs p .dir) q = none := by
              rw [fsGet_fsSet, if_neg hqp]; exact hnone
            obtain ⟨h3, h4⟩ := ih _ h h2
            exact ⟨by simp [h3], h4⟩

theorem makedirsAux_targets (leaf : Chars) (fs fs' : FS) (l : List Chars)
    (h : makedirsAux leaf fs l = .ok fs') : ∀ p ∈ l, fsGet fs' p = some .dir := by
  induction l generalizing fs with
  | nil => intro p hp; cases hp
  | cons p0 rest ih =>
      intro p hp
      simp only [makedirsAux] at h
      cases hg : fsGet fs p0 with
      | some node =>
          cases node with
          | dir =>
              rw [hg] at h
              rcases List.mem_cons.mp hp with rfl | hp2
              · exact makedirsAux_mono leaf fs fs' rest h p .dir hg
              · exact ih fs h p hp2
          | file d => rw [hg] at h; cases h
      | none =>
          rw [hg] at h
          rcases List.mem_cons.mp hp with rfl | hp2
          · exact makedirsAux_mono leaf _ fs' rest h p .dir (by rw [fsGet_fsSet]; simp)
          · exact ih _ h p hp2

theorem makedirsAux_nodup (leaf : Chars) (fs fs' : FS) (l : List Chars)
    (h : makedirsAux leaf fs l = .ok fs')
    (hnd : (fs.map Prod.fst).Nodup) : ((fs'.map Prod.fst).Nodup) := by
  induction l generalizing fs with
  | nil =>
      simp only [makedirsAux, Except.ok.injEq] at h
      rw [← h]; exact hnd
  | cons p rest ih =>
      simp only [makedirsAux] at h
      cases hg : fsGet fs p with
      | some node =>
          cases node with
          | dir => rw [hg] at h; exact ih fs h hnd
          | file d => rw [hg] at h; cases h
      | none =>
          rw [hg] at h
          exact ih _ h (fsSet_nodup fs p .dir hnd)

theorem makedirs_mono (fs fs' : FS) (p : Chars) (h : makedirs fs p = .ok fs')
    (q : Chars) (x : Node) (hq : fsGet fs q = some x) : fsGet fs' q = some x :=
  makedirsAux_mono p fs fs' (pathPrefixList p) h q x hq

theorem makedirs_created (fs fs' : FS) (p : Chars) (h : makedirs fs p = .ok fs')
    (q : Chars) (hnone : fsGet fs q = none) (hsome : fsGet fs' q ≠ none) :
    q <+: p ∧ fsGet fs' q = some .dir := by
  obtain ⟨h1, h2⟩ := makedirsAux_created p fs fs' (pathPrefixList p) h q hnone hsome
  exact ⟨mem_pathPrefixList_pre p q h1, h2⟩

theorem makedirs_target (fs fs' : FS) (p : Chars) (hp : p ≠ [])
    (h : makedirs fs p = .ok fs') : fsGet fs' p = some .dir :=
  makedirsAux_targets p fs fs' (pathPrefixList p) h p (self_mem_pathPrefixList p hp)

theorem makedirs_nodup (fs fs' : FS) (p : Chars) (h : makedirs fs p = .ok fs')
    (hnd : (fs.map Prod.fst).Nodup) : (fs'.map Prod.fst).Nodup :=
  makedirsAux_nodup p fs fs' (pathPrefixList p) h hnd

/-! ### Characterisations of the run phases -/

theorem contains_iff_mem (l : List Chars) (x : Chars) :
    l.contains x = true ↔ x ∈ l := by
  simp [List.contains]

theorem shutilCopy_src_dir (st : RunSt) (src dst : Chars)
    (h : fsGet st.fs src = some .dir) :
    shutilCopy st src dst = .error (.isADirectoryError src) := by
  simp [shutilCopy, h]

theorem shutilCopy_ok_char (st st' : RunSt) (src dst : Chars)
    (h : shutilCopy st src dst = .ok st')
    (hdst : fsGet st.fs dst ≠ some Node.dir) :
    ∃ d, fsGet st.fs src = some (.file d) ∧ st'.fs = fsSet st.fs dst (.file d) := by
  unfold shutilCopy at h
  cases hsrc : fsGet st.fs src with
  | none => rw [hsrc] at h; cases h
  | some node =>
      cases node with
      | dir => rw [hsrc] at h; cases h
      | file d =>
          rw [hsrc] at h
          refine ⟨d, rfl, ?_⟩
          cases hdst2 : fsGet st.fs dst with
          | none =>
              rw [hdst2] at h
              simp only [Except.ok.injEq] at h
              rw [← h]
          | some node2 =>
              cases node2 with
              | dir => exact absurd hdst2 hdst
              | file d2 =>
                  rw [hdst2] at h
                  simp only [Except.ok.injEq] at h
                  rw [← h]

theorem copyIfAbsent_ok_char (st st' : RunSt) (src dstDir : Chars)
    (h : copyIfAbsent st src dstDir = .ok st') :
    st'.fs = st.fs ∨
      (∃ d, fsGet st.fs src = some (.file d) ∧
        fsGet st.fs (pathJoin dstDir (baseName src)) = none ∧
        st'.fs = fsSet st.fs (pathJoin dstDir (baseName src)) (.file d)) := by
  simp only [copyIfAbsent] at h
  cases hdst : fsGet st.fs (pathJoin dstDir (baseName src)) with
  | some node =>
      rw [hdst] at h
      simp only [Option.isSome_some, if_pos, Except.ok.injEq] at h
      left; rw [← h]
  | none =>
      rw [hdst] at h
      simp only [Option.isSome_none, Bool.false_eq_true, if_false] at h
      obtain ⟨d, h1, h2⟩ := shutilCopy_ok_char st st' src (pathJoin dstDir (baseName src)) h
        (by rw [hdst]; intro hc; cases hc)
      exact Or.inr ⟨d, h1, rfl, h2⟩

theorem copyIfAbsent_mono (st st' : RunSt) (src dstDir : Chars)
    (h : copyIfAbsent st src dstDir = .ok st') (q : Chars) (x : Node)
    (hq : fsGet st.fs q = some x) : fsGet st'.fs q = some x := by
  rcases copyIfAbsent_ok_char st st' src dstDir h with h2 | ⟨d, _, hnone, h2⟩
  · rw [h2]; exact hq
  · rw [h2, fsGet_fsSet]
    by_cases hqd : q = pathJoin dstDir (baseName src)
    · subst hqd; rw [hq] at hnone; cases hnone
    · rw [if_neg hqd]; exact hq

theorem copyIfAbsent_new (st st' : RunSt) (src dstDir : Chars)
    (h : copyIfAbsent st src dstDir = .ok st') (q : Chars)
    (hnone : fsGet st.fs q = none) (hsome : fsGet st'.fs q ≠ none) :
    q = pathJoin dstDir (baseName src) ∧ ∃ d, fsGet st'.fs q = some (.file d) := by
  rcases copyIfAbsent_ok_char st st' src dstDir h with h2 | ⟨d, _, hn2, h2⟩
  · rw [h2] at hsome; exact absurd hnone hsome
  · rw [h2, fsGet_fsSet] at hsome ⊢
    by_cases hqd : q = pathJoin dstDir (baseName src)
    · subst hqd
      exact ⟨rfl, d, by rw [if_pos rfl]⟩
    · rw [if_neg hqd] at hsome
      exact absurd hnone hsome

theorem copyIfAbsent_nodup (st st' : RunSt) (src dstDir : Chars)
    (h : copyIfAbsent st src dstDir = .ok st')
    (hnd : (st.fs.map Prod.fst).Nodup) : (st'.fs.map Prod.fst).Nodup := by
  rcases copyIfAbsent_ok_char st st' src dstDir h with h2 | ⟨d, _, _, h2⟩
  · rw [h2]; exact hnd
  · rw [h2]; exact fsSet_nodup _ _ _ hnd

theorem copyFilesLoop_char (dstDir : Chars) (st st' : RunSt) (l : List Chars)
    (h : copyFilesLoop dstDir st l = .ok st') :
    (∀ q x, fsGet st.fs q = some x → fsGet st'.fs q = some x) ∧
    (∀ q, fsGet st.fs q = none → fsGet st'.fs q ≠ none →
      ∃ src ∈ l, q = pathJoin dstDir (baseName src) ∧
        ∃ d, fsGet st'.fs q = some (.file d)) ∧
    ((st.fs.map Prod.fst).Nodup → (st'.fs.map Prod.fst).Nodup) := by
  induction l generalizing st with
  | nil =>
      simp only [copyFilesLoop, Except.ok.injEq] at h
      subst h
      exact ⟨fun q x hq => hq, fun q h1 h2 => absurd h1 h2, fun hn => hn⟩
  | cons src rest ih =>
      simp only [copyFilesLoop] at h
      cases hc : copyIfAbsent st src dstDir with
      | error e => rw [hc, exc_bind_error] at h; cases h
      | ok st2 =>
          rw [hc, exc_bind_ok] at h
          obtain ⟨ihm, ihn, ihd⟩ := ih st2 h
          refine ⟨?_, ?_, ?_⟩
          · intro q x hq
            exact ihm q x (copyIfAbsent_mono st st2 src dstDir hc q x hq)
          · intro q h1 h2
            by_cases hmid : fsGet st2.fs q = none
            · obtain ⟨src2, hs2, hq, d, hv⟩ := ihn q hmid h2
              exact ⟨src2, by simp [hs2], hq, d, hv⟩
            · obtain ⟨hq, d, hv⟩ := copyIfAbsent_new st st2 src dstDir hc q h1 hmid
              exact ⟨src, by simp, hq, d, ihm q _ hv⟩
          · intro hn
            exact ihd (copyIfAbsent_nodup st st2 src dstDir hc hn)

theorem proximitySearch_src (f2i : List (Chars × Int)) (all : List Chars) (mat : Chars) :
    ∀ x ∈ proximitySearch f2i all mat,
      x ∈ all ∧ (strContains x (chars "Texture") || endsW x (chars ".png") ||
        endsW x (chars ".jpg")) = true := by
  intro x hx
  unfold proximitySearch at hx
  cases hfind : all.find? (fun fp =>
      (endsW fp (chars ".png") || endsW fp (chars ".jpg")) &&
      ((getAssoc f2i mat).getD 0 - (getAssoc f2i fp).getD 0).natAbs < 10) with
  | some fp =>
      rw [hfind] at hx
      rcases List.mem_singleton.mp hx with rfl
      have h1 := List.find?_some hfind
      have h2 := List.mem_of_find?_eq_some hfind
      simp only [Bool.and_eq_true, Bool.or_eq_true] at h1
      refine ⟨h2, ?_⟩
      simp only [Bool.or_eq_true]
      rcases h1.1 with h3 | h3
      · exact Or.inl (Or.inr h3)
      · exact Or.inr h3
  | none => rw [hfind] at hx; cases hx

theorem resolveTexture_src_prox (f2i : List (Chars × Int)) (all : List Chars)
    (mat : Chars) (x : Chars)
    (hx : x ∈ (if all.isEmpty then ([] : List Chars) else proximitySearch f2i all mat)) :
    x ∈ all ∧ (strContains x (chars "Texture") || endsW x (chars ".png") ||
      endsW x (chars ".jpg")) = true := by
  by_cases he : all.isEmpty
  · rw [if_pos he] at hx; cases hx
  · rw [if_neg he] at hx
    exact proximitySearch_src f2i all mat x hx

theorem resolveTexture_src (m2i : List (JV × Int)) (i2f : List (Int × Chars))
    (f2i : List (Chars × Int)) (all : List Chars) (mat : Chars) (th : JV) :
    ∀ x ∈ resolveTexture m2i i2f f2i all mat th,
      (∃ k, getAssoc i2f k = some x) ∨
      (x ∈ all ∧ (strContains x (chars "Texture") || endsW x (chars ".png") ||
        endsW x (chars ".jpg")) = true) := by
  intro x hx
  unfold resolveTexture at hx
  by_cases hh : th.hashable = true
  · rw [hh] at hx
    simp only [Bool.not_true, Bool.false_eq_true, if_false] at hx
    cases hg : getAssoc m2i th with
    | some ti =>
        rw [hg] at hx
        simp only [] at hx
        cases hf : getAssoc i2f ti with
        | some fn =>
            rw [hf] at hx
            by_cases hfe : fn.isEmpty
            · simp [hfe] at hx
            · simp only [hfe, Bool.not_false, if_pos, List.mem_singleton] at hx
              subst hx
              exact Or.inl ⟨ti, hf⟩
        | none => rw [hf] at hx; cases hx
    | none =>
        rw [hg] at hx
        simp only [] at hx
        cases th with
        | jstr s =>
            simp only [] at hx
            cases hfind : all.find? (fun fp => strContains fp s &&
                (strContains fp (chars "Texture") || endsW fp (chars ".png") ||
                  endsW fp (chars ".jpg"))) with
            | some fp =>
                rw [hfind] at hx
                rcases List.mem_singleton.mp hx with rfl
                have h1 := List.find?_some hfind
                have h2 := List.mem_of_find?_eq_some hfind
                simp only [Bool.and_eq_true] at h1
                exact Or.inr ⟨h2, h1.2⟩
            | none => rw [hfind] at hx; cases hx
        | jnull => exact Or.inr (resolveTexture_src_prox f2i all mat x hx)
        | jbool b => exact Or.inr (resolveTexture_src_prox f2i all mat x hx)
        | jint n => exact Or.inr (resolveTexture_src_prox f2i all mat x hx)
        | jarr a => exact absurd hh (by simp [JV.hashable])
        | jdict kv => exact absurd hh (by simp [JV.hashable])
  · have hh2 : th.hashable = false := by
      cases hb : th.hashable
      · rfl
      · exact absurd hb hh
    rw [hh2] at hx
    simp only [Bool.not_false, if_pos] at hx
    exact Or.inr (proximitySearch_src f2i all mat x hx)

theorem resolveTextures_src (m2i : List (JV × Int)) (i2f : List (Int × Chars))
    (f2i : List (Chars × Int)) (all : List Chars) (mat : Chars) (ths : List JV) :
    ∀ x ∈ resolveTextures m2i i2f f2i all mat ths,
      (∃ k, getAssoc i2f k = some x) ∨
      (x ∈ all ∧ (strContains x (chars "Texture") || endsW x (chars ".png") ||
        endsW x (chars ".jpg")) = true) := by
  intro x hx
  unfold resolveTextures at hx
  rw [List.mem_flatten] at hx
  obtain ⟨l2, hl2, hx2⟩ := hx
  obtain ⟨th, _, rfl⟩ := List.mem_map.mp hl2
  exact resolveTexture_src m2i i2f f2i all mat th x hx2

theorem exc_bind_ok_iff {ε α β : Type} {x : Except ε α} {f : α → Except ε β} {b : β} :
    (x >>= f) = .ok b ↔ ∃ a, x = .ok a ∧ f a = .ok b := by
  cases x with
  | ok a => simp [exc_bind_ok]
  | error e =>
      rw [exc_bind_error]
      constructor
      · intro hh; cases hh
      · rintro ⟨a, ha, _⟩; cases ha

theorem processInstance_char (cx : Ctx) (st st' : RunSt) (i : Nat) (go : Chars)
    (h : processInstance cx st i go = .ok st') :
    (∀ q x, fsGet st.fs q = some x → fsGet st'.fs q = some x) ∧
    (∀ q, fsGet st.fs q = none → fsGet st'.fs q ≠ none →
      (q ∈ pathPrefixList (instDirOf cx i) ∧ fsGet st'.fs q = some .dir) ∨
      (∃ src, instSrc cx go src ∧ q = pathJoin (instDirOf cx i) (baseName src) ∧
        fsGet st'.fs (instDirOf cx i) = some Node.dir ∧
        ∃ fd, fsGet st'.fs q = some (.file fd))) ∧
    ((st.fs.map Prod.fst).Nodup → (st'.fs.map Prod.fst).Nodup) := by
  simp only [processInstance] at h
  cases hread : safe_read_json st.fs go with
  | none =>
      rw [hread] at h
      simp only [Except.ok.injEq] at h
      subst h
      exact ⟨fun q x hq => hq, fun q hq1 hq2 => absurd hq1 hq2, fun hn => hn⟩
  | some g =>
      rw [hread] at h
      simp only [] at h
      rw [exc_bind_ok_iff] at h
      obtain ⟨mh, h1, h⟩ := h
      rw [exc_bind_ok_iff] at h
      obtain ⟨r, h2, h⟩ := h
      rw [exc_bind_ok_iff] at h
      obtain ⟨mat, h3, h⟩ := h
      rw [exc_bind_ok_iff] at h
      obtain ⟨mesh_idx, h4, h⟩ := h
      rw [exc_bind_ok_iff] at h
      obtain ⟨mesh_fn, h5, h⟩ := h
      rw [exc_bind_ok_iff] at h
      obtain ⟨mat_idx, h6, h⟩ := h
      rw [exc_bind_ok_iff] at h
      obtain ⟨mat_fn, h7, h⟩ := h
      rw [exc_bind_ok_iff] at h
      obtain ⟨ths, h8, h⟩ := h
      rw [exc_bind_ok_iff] at h
      obtain ⟨fs2, hM, h⟩ := h
      rw [exc_bind_ok_iff] at h
      obtain ⟨stA, hc1, h⟩ := h
      rw [exc_bind_ok_iff] at h
      obtain ⟨stB, hc2, h⟩ := h
      rw [exc_bind_ok_iff] at h
      obtain ⟨stC, hc3, hLoop⟩ := h
      have h5' : getAssoc cx.map_idx2filename mesh_idx = some mesh_fn := by
        cases hg : getAssoc cx.map_idx2filename mesh_idx with
        | some f =>
            rw [hg] at h5
            simp only [Except.ok.injEq] at h5
            rw [h5]
        | none =>
            rw [hg] at h5
            cases h5
      have h7' : getAssoc cx.map_idx2filename mat_idx = some mat_fn := by
        cases hg : getAssoc cx.map_idx2filename mat_idx with
        | some f =>
            rw [hg] at h7
            simp only [Except.ok.injEq] at h7
            rw [h7]
        | none =>
            rw [hg] at h7
            cases h7
      obtain ⟨loopM, loopN, loopD⟩ := copyFilesLoop_char _ stC st' _ hLoop
      have mono2 : ∀ q x, fsGet fs2 q = some x → fsGet stA.fs q = some x :=
        fun q x hq => copyIfAbsent_mono _ stA go _ hc1 q x hq
      have mono3 : ∀ q x, fsGet stA.fs q = some x → fsGet stB.fs q = some x :=
        fun q x hq => copyIfAbsent_mono stA stB mesh_fn _ hc2 q x hq
      have mono4 : ∀ q x, fsGet stB.fs q = some x → fsGet stC.fs q = some x :=
        fun q x hq => copyIfAbsent_mono stB stC mat_fn _ hc3 q x hq
      have hinstne : pathJoin cx.instances_dir (chars "instance_" ++ natChars i) ≠ [] :=
        pathJoin_ne_nil _ _ (by
          obtain ⟨h1, _⟩ := (nameOk_iff _).mp (instName_nameOk i)
          exact h1)
      have hidir0 : fsGet fs2 (pathJoin cx.instances_dir
          (chars "instance_" ++ natChars i)) = some Node.dir :=
        makedirs_target st.fs fs2 _ hinstne hM
      have hidir : fsGet st'.fs (instDirOf cx i) = some Node.dir :=
        loopM _ _ (mono4 _ _ (mono3 _ _ (mono2 _ _ hidir0)))
      refine ⟨?_, ?_, ?_⟩
      · intro q x hq
        exact loopM q x (mono4 q x (mono3 q x (mono2 q x
          (makedirs_mono st.fs fs2 _ hM q x hq))))
      · intro q hq1 hq2
        by_cases b2 : fsGet fs2 q = none
        · by_cases bA : fsGet stA.fs q = none
          · by_cases bB : fsGet stB.fs q = none
            · by_cases bC : fsGet stC.fs q = none
              · obtain ⟨src, hsrc, hq, fd, hv⟩ := loopN q bC hq2
                refine Or.inr ⟨src, ?_, hq, hidir, fd, hv⟩
                rcases resolveTextures_src cx.map_hash2idx cx.map_idx2filename
                    cx.map_filename2idx cx.all_files mat_fn ths src hsrc with hk | hm
                · exact Or.inr (Or.inl hk)
                · exact Or.inr (Or.inr hm)
              · obtain ⟨hq, fd, hv⟩ := copyIfAbsent_new stB stC mat_fn _ hc3 q bB bC
                exact Or.inr ⟨mat_fn, Or.inr (Or.inl ⟨mat_idx, h7'⟩), hq, hidir, fd,
                  loopM q _ hv⟩
            · obtain ⟨hq, fd, hv⟩ := copyIfAbsent_new stA stB mesh_fn _ hc2 q bA bB
              exact Or.inr ⟨mesh_fn, Or.inr (Or.inl ⟨mesh_idx, h5'⟩), hq, hidir, fd,
                loopM q _ (mono4 q _ hv)⟩
          · obtain ⟨hq, fd, hv⟩ := copyIfAbsent_new _ stA go _ hc1 q b2 bA
            exact Or.inr ⟨go, Or.inl rfl, hq, hidir, fd,
              loopM q _ (mono4 q _ (mono3 q _ hv))⟩
        · obtain ⟨hmem, hdir⟩ := makedirsAux_created _ st.fs fs2 _ hM q hq1 b2
          exact Or.inl ⟨hmem, loopM q _ (mono4 q _ (mono3 q _ (mono2 q _ hdir)))⟩
      · intro hn
        exact loopD (copyIfAbsent_nodup stB stC mat_fn _ hc3
          (copyIfAbsent_nodup stA stB mesh_fn _ hc2
            (copyIfAbsent_nodup _ stA go _ hc1
              (makedirs_nodup st.fs fs2 _ hM hn))))

theorem processInstances_char (cx : Ctx) (st st' : RunSt) (k : Nat) (gs : List Chars)
    (h : processInstances cx st k gs = .ok st') :
    (∀ q x, fsGet st.fs q = some x → fsGet st'.fs q = some x) ∧
    (∀ q, fsGet st.fs q = none → fsGet st'.fs q ≠ none →
      ∃ j, k ≤ j ∧ j < k + gs.length ∧
        ((q ∈ pathPrefixList (instDirOf cx j) ∧ fsGet st'.fs q = some .dir) ∨
         (∃ src go, go ∈ gs ∧ instSrc cx go src ∧
           q = pathJoin (instDirOf cx j) (baseName src) ∧
           fsGet st'.fs (instDirOf cx j) = some Node.dir ∧
           ∃ fd, fsGet st'.fs q = some (.file fd)))) ∧
    ((st.fs.map Prod.fst).Nodup → (st'.fs.map Prod.fst).Nodup) := by
  induction gs generalizing st k with
  | nil =>
      simp only [processInstances, Except.ok.injEq] at h
      subst h
      exact ⟨fun q x hq => hq, fun q hq1 hq2 => absurd hq1 hq2, fun hn => hn⟩
  | cons g rest ih =>
      simp only [processInstances] at h
      rw [exc_bind_ok_iff] at h
      obtain ⟨st2, hstep, h⟩ := h
      obtain ⟨m1, n1, d1⟩ := processInstance_char cx st st2 k g hstep
      obtain ⟨m2, n2, d2⟩ := ih st2 (k + 1) h
      refine ⟨?_, ?_, ?_⟩
      · intro q x hq
        exact m2 q x (m1 q x hq)
      · intro q hq1 hq2
        by_cases bmid : fsGet st2.fs q = none
        · obtain ⟨j, hj1, hj2, hcase⟩ := n2 q bmid hq2
          refine ⟨j, by omega, by simp only [List.length_cons]; omega, ?_⟩
          rcases hcase with hl | ⟨src, go2, hgo, hrest⟩
          · exact Or.inl hl
          · exact Or.inr ⟨src, go2, by simp [hgo], hrest⟩
        · rcases n1 q hq1 bmid with ⟨hmem, hdir⟩ | ⟨src, hsrc, hq, hid, fd, hv⟩
          · exact ⟨k, le_refl k, by simp, Or.inl ⟨hmem, m2 q _ hdir⟩⟩
          · exact ⟨k, le_refl k, by simp,
              Or.inr ⟨src, g, by simp, hsrc, hq, m2 _ _ hid, fd, m2 q _ hv⟩⟩
      · intro hn
        exact d2 (d1 hn)

theorem assignedOfInstance_char (fs : FS) (input instd : Chars) (a : List Chars)
    (h : assignedOfInstance fs input instd = .ok a) :
    (∀ x ∈ a, ∃ name ∈ listNames fs instd,
      x = pathJoin input (baseName name) ∨ x = pathJoin input name) ∧
    (fsGet fs instd ≠ none →
      ∀ name ∈ listNames fs instd, pathJoin input (baseName name) ∈ a) := by
  unfold assignedOfInstance at h
  cases hg : fsGet fs instd with
  | none =>
      rw [hg] at h
      simp only [Except.ok.injEq] at h
      subst h
      exact ⟨fun x hx => absurd hx (List.not_mem_nil x),
        fun hne => absurd hg (by simpa using hne)⟩
  | some node =>
      rw [hg] at h
      simp only [pyListdir] at h
      cases node with
      | file d => rw [hg] at h; cases h
      | dir =>
          rw [hg] at h
          simp only [exc_bind_ok, Except.ok.injEq] at h
          subst h
          constructor
          · intro x hx
            rw [List.mem_flatten] at hx
            obtain ⟨l2, hl2, hx2⟩ := hx
            obtain ⟨name, hname, rfl⟩ := List.mem_map.mp hl2
            refine ⟨name, hname, ?_⟩
            rcases List.mem_cons.mp hx2 with rfl | hx3
            · exact Or.inl rfl
            · by_cases he : (fsGet fs (pathJoin input name)).isSome
              · rw [if_pos he] at hx3
                rcases List.mem_singleton.mp hx3 with rfl
                exact Or.inr rfl
              · rw [if_neg he] at hx3
                cases hx3
          · intro _ name hname
            rw [List.mem_flatten]
            refine ⟨pathJoin input (baseName name) ::
              (if (fsGet fs (pathJoin input name)).isSome then [pathJoin input name]
                else []), ?_, by simp⟩
            exact List.mem_map.mpr ⟨name, hname, rfl⟩

theorem computeAssignedAux_char (fs : FS) (input instd : Chars) (il : List Nat)
    (a : List Chars) (h : computeAssignedAux fs input instd il = .ok a) :
    (∀ x ∈ a, ∃ i ∈ il, ∃ name ∈
        listNames fs (pathJoin instd (chars "instance_" ++ natChars i)),
      x = pathJoin input (baseName name) ∨ x = pathJoin input name) ∧
    (∀ i ∈ il, fsGet fs (pathJoin instd (chars "instance_" ++ natChars i)) ≠ none →
      ∀ name ∈ listNames fs (pathJoin instd (chars "instance_" ++ natChars i)),
        pathJoin input (baseName name) ∈ a) := by
  induction il generalizing a with
  | nil =>
      simp only [computeAssignedAux, Except.ok.injEq] at h
      subst h
      exact ⟨fun x hx => absurd hx (List.not_mem_nil x), fun i hi => absurd hi (by simp)⟩
  | cons i0 rest ih =>
      simp only [computeAssignedAux] at h
      rw [exc_bind_ok_iff] at h
      obtain ⟨a1, h1, h⟩ := h
      rw [exc_bind_ok_iff] at h
      obtain ⟨a2, h2, h⟩ := h
      simp only [Except.ok.injEq] at h
      subst h
      obtain ⟨f1, b1⟩ := assignedOfInstance_char fs input _ a1 h1
      obtain ⟨f2, b2⟩ := ih a2 h2
      constructor
      · intro x hx
        rcases List.mem_append.mp hx with hx | hx
        · obtain ⟨name, hname, hor⟩ := f1 x hx
          exact ⟨i0, by simp, name, hname, hor⟩
        · obtain ⟨i, hi, name, hname, hor⟩ := f2 x hx
          exact ⟨i, by simp [hi], name, hname, hor⟩
      · intro i hi hne name hname
        rcases List.mem_cons.mp hi with rfl | hi2
        · exact List.mem_append.mpr (Or.inl (b1 hne name hname))
        · exact List.mem_append.mpr (Or.inr (b2 i hi2 hne name hname))

theorem sweepDest_mem (b1 b2 b3 b4 n : Chars) :
    sweepDest b1 b2 b3 b4 n ∈ [b1, b2, b3, b4] := by
  unfold sweepDest
  by_cases h1 : endsW n (chars ".obj") || strContains n (chars "Mesh")
  · simp [h1]
  · by_cases h2 : endsW n (chars ".json") && strContains n (chars "Material")
    · simp [h1, h2]
    · by_cases h3 : endsW n (chars ".png") || endsW n (chars ".jpg") ||
          strContains n (chars "Texture")
      · simp [h1, h2, h3]
      · simp [h1, h2, h3]

theorem sweepLoop_char (assigned : List Chars) (b1 b2 b3 b4 : Chars)
    (st st' : RunSt) (l : List Chars)
    (h : sweepLoop assigned b1 b2 b3 b4 st l = .ok st')
    (hnd : ∀ b ∈ [b1, b2, b3, b4], ∀ m, (∀ c ∈ m, c ≠ '/') →
      fsGet st.fs (pathJoin b m) ≠ some Node.dir) :
    (∀ q, fsGet st'.fs q = fsGet st.fs q ∨
      ∃ f ∈ l, ¬(f ∈ assigned) ∧
        q = pathJoin (sweepDest b1 b2 b3 b4 (baseName f)) (baseName f) ∧
        ∃ fd, fsGet st'.fs q = some (.file fd)) ∧
    (∀ f ∈ l, ¬(f ∈ assigned) →
      fsGet st'.fs (pathJoin (sweepDest b1 b2 b3 b4 (baseName f)) (baseName f)) ≠ none) ∧
    ((st.fs.map Prod.fst).Nodup → (st'.fs.map Prod.fst).Nodup) := by
  induction l generalizing st with
  | nil =>
      simp only [sweepLoop, Except.ok.injEq] at h
      subst h
      exact ⟨fun q => Or.inl rfl, fun f hf => absurd hf (List.not_mem_nil f),
        fun hn => hn⟩
  | cons g rest ih =>
      simp only [sweepLoop] at h
      by_cases hassg : g ∈ assigned
      · rw [if_pos ((contains_iff_mem assigned g).mpr hassg)] at h
        obtain ⟨fwd, bwd, dup⟩ := ih st h hnd
        refine ⟨?_, ?_, dup⟩
        · intro q
          rcases fwd q with hq | ⟨f, hf, hrest⟩
          · exact Or.inl hq
          · exact Or.inr ⟨f, by simp [hf], hrest⟩
        · intro f hf hfa
          rcases List.mem_cons.mp hf with rfl | hf2
          · exact absurd hassg hfa
          · exact bwd f hf2 hfa
      · have hcont : assigned.contains g = false := by
          cases hb : assigned.contains g
          · rfl
          · exact absurd ((contains_iff_mem assigned g).mp hb) hassg
        rw [hcont] at h
        simp only [Bool.false_eq_true, if_false] at h
        rw [exc_bind_ok_iff] at h
        obtain ⟨st2, hcopy, h⟩ := h
        have hdstnd : fsGet st.fs (pathJoin (sweepDest b1 b2 b3 b4 (baseName g))
            (baseName g)) ≠ some Node.dir :=
          hnd _ (sweepDest_mem b1 b2 b3 b4 (baseName g)) (baseName g) (baseName_no_slash g)
        obtain ⟨d, hsrc, hfs2⟩ := shutilCopy_ok_char st st2 g _ hcopy hdstnd
        have hnd2 : ∀ b ∈ [b1, b2, b3, b4], ∀ m, (∀ c ∈ m, c ≠ '/') →
            fsGet st2.fs (pathJoin b m) ≠ some Node.dir := by
          intro b hb m hmsl
          rw [hfs2, fsGet_fsSet]
          by_cases hq : pathJoin b m = pathJoin (sweepDest b1 b2 b3 b4 (baseName g))
              (baseName g)
          · rw [if_pos hq]
            intro hc
            cases hc
          · rw [if_neg hq]
            exact hnd b hb m hmsl
        obtain ⟨fwd, bwd, dup⟩ := ih st2 h hnd2
        refine ⟨?_, ?_, ?_⟩
        · intro q
          rcases fwd q with hq | ⟨f, hf, hrest⟩
          · by_cases hqd : q = pathJoin (sweepDest b1 b2 b3 b4 (baseName g)) (baseName g)
            · refine Or.inr ⟨g, by simp, hassg, hqd, d, ?_⟩
              rw [hq, hfs2, fsGet_fsSet, if_pos hqd]
            · refine Or.inl ?_
              rw [hq, hfs2, fsGet_fsSet, if_neg hqd]
          · exact Or.inr ⟨f, by simp [hf], hrest⟩
        · intro f hf hfa
          rcases List.mem_cons.mp hf with rfl | hf2
          · have hex : fsGet st2.fs (pathJoin (sweepDest b1 b2 b3 b4 (baseName f))
                (baseName f)) ≠ none := by
              rw [hfs2, fsGet_fsSet, if_pos rfl]
              intro hc
              cases hc
            intro hq
            cases hmid : fsGet st2.fs (pathJoin (sweepDest b1 b2 b3 b4 (baseName f))
                (baseName f)) with
            | none => exact hex hmid
            | some node =>
                rcases fwd (pathJoin (sweepDest b1 b2 b3 b4 (baseName f))
                    (baseName f)) with hcase | ⟨f2, _, _, _, fd, hval⟩
                · rw [hcase, hmid] at hq
                  cases hq
                · rw [hval] at hq
                  cases hq
          · exact bwd f hf2 hfa
        · intro hn
          refine dup ?_
          rw [hfs2]
          exact fsSet_nodup _ _ _ hn

/-! ### Run-level structural lemmas -/

theorem pathNice_join (d n : Chars) (hd1 : startsW d (chars "/") = true)
    (hd2 : endsW d (chars "/") = false) (hn : nameOk n = true) :
    startsW (pathJoin d n) (chars "/") = true ∧
    endsW (pathJoin d n) (chars "/") = false ∧
    pathJoin d n = d ++ '/' :: n := by
  have he := pathJoin_eq d n hd1 hd2 hn
  rw [he]
  exact ⟨startsW_join d n hd1, endsW_join_name d n hn, rfl⟩

theorem under_eq_decomp (o A B : Chars) (h : o ++ '/' :: A = o ++ '/' :: B) :
    A = B := by
  have h2 := List.append_cancel_left h
  simpa using h2

theorem under_prefix_decomp (o A B : Chars) (h : o ++ '/' :: A <+: o ++ '/' :: B) :
    A <+: B := by
  obtain ⟨r, hr⟩ := h
  rw [List.append_assoc] at hr
  have h2 := List.append_cancel_left hr
  simp only [List.cons_append, List.cons.injEq] at h2
  exact ⟨r, h2.2⟩

theorem head_ne_not_pre {ca cb : Char} (hne : ca ≠ cb) (l1 l2 : Chars) :
    ¬ (ca :: l1 <+: cb :: l2) := by
  intro h
  rw [List.cons_prefix_cons] at h
  exact hne h.1

theorem append_head_ne {ca cb : Char} (a x b y : Chars) (hne : ca ≠ cb) :
    (ca :: a) ++ x ≠ (cb :: b) ++ y := by
  intro h
  simp only [List.cons_append, List.cons.injEq] at h
  exact hne h.1

theorem not_prefix_of_longer (q p : Chars) (h : p.length < q.length) :
    ¬ q <+: p :=
  fun hc => absurd hc.length_le (by omega)

theorem endsW_slash_append (x : Chars) :
    endsW (x ++ [ '/' ]) (chars "/") = true := by
  simp only [endsW, chars, List.reverse_append]
  show startsW ('/' :: x.reverse) ('/' :: [].reverse) = true
  simp [startsW]

theorem startsW_nonempty (p : Chars) (h : startsW p (chars "/") = true) :
    p ≠ [] := by
  intro hc
  subst hc
  simp [startsW, chars] at h

theorem join_base_cases (dst m : Chars) (hd1 : startsW dst (chars "/") = true)
    (hd2 : endsW dst (chars "/") = false) (hm : ∀ c ∈ m, c ≠ '/') :
    (m = [] ∧ pathJoin dst m = dst ++ [ '/' ]) ∨
    (nameOk m = true ∧ pathJoin dst m = dst ++ '/' :: m) := by
  cases m with
  | nil =>
      left
      refine ⟨rfl, ?_⟩
      unfold pathJoin
      have h1 : startsW ([] : Chars) (chars "/") = false := by
        simp [startsW, chars]
      rw [h1]
      have hne : dst ≠ [] := startsW_nonempty dst hd1
      have h2 : dst.isEmpty = false := by
        cases dst with
        | nil => exact absurd rfl hne
        | cons c t => rfl
      rw [h2, hd2]
      rfl
  | cons c t =>
      right
      have hn : nameOk (c :: t) = true := by
        rw [nameOk_iff]
        exact ⟨by simp, hm⟩
      exact ⟨hn, pathJoin_eq dst (c :: t) hd1 hd2 hn⟩

theorem join_name_ne_slash (d1 n d2 : Chars) (hn : nameOk n = true) :
    d1 ++ '/' :: n ≠ d2 ++ [ '/' ] := by
  intro h
  have h1 := endsW_join_name d1 n hn
  rw [h] at h1
  rw [endsW_slash_append] at h1
  cases h1

theorem underEq_append (o x : Chars) : underEq o (o ++ '/' :: x) = true := by
  unfold underEq
  have he : o ++ '/' :: x = (o ++ [ '/' ]) ++ x := by simp
  rw [he, startsW_append]
  simp

theorem fresh_none (fs0 : FS) (outp q : Chars)
    (hfresh : fs0.all (fun e => !underEq outp e.1) = true)
    (hq : underEq outp q = true) : fsGet fs0 q = none := by
  by_contra hc
  have hmem := mem_of_fsGet_ne_none fs0 q hc
  rw [List.mem_map] at hmem
  obtain ⟨e, he, hq2⟩ := hmem
  rw [List.all_eq_true] at hfresh
  have h2 := hfresh e he
  rw [hq2, hq] at h2
  cases h2

theorem fsGet_ne_none_of_mem (fs : FS) (q : Chars) (h : q ∈ fs.map Prod.fst) :
    fsGet fs q ≠ none := by
  intro hc
  exact (fsGet_eq_none_iff fs q).mp hc h

theorem listNames_nameOk (fs : FS) (d m : Chars) (h : m ∈ listNames fs d) :
    nameOk m = true := by
  rw [mem_listNames_iff] at h
  obtain ⟨q, _, hq⟩ := h
  exact ((childNameOf_eq_some d q m).mp hq).2

theorem pyListdir_ok (fs : FS) (d : Chars) (names : List Chars)
    (h : pyListdir fs d = .ok names) :
    fsGet fs d = some Node.dir ∧ names = listNames fs d := by
  unfold pyListdir at h
  cases hg : fsGet fs d with
  | none => rw [hg] at h; cases h
  | some node =>
      cases node with
      | file fd => rw [hg] at h; cases h
      | dir =>
          rw [hg] at h
          simp only [Except.ok.injEq] at h
          exact ⟨rfl, h.symm⟩

theorem shutilCopy_ok_any (st st' : RunSt) (src dst : Chars)
    (h : shutilCopy st src dst = .ok st') :
    ∃ d dst2, (dst2 = dst ∨ dst2 = pathJoin dst (baseName src)) ∧
      st'.fs = fsSet st.fs dst2 (.file d) := by
  unfold shutilCopy at h
  cases h1 : fsGet st.fs src with
  | none => rw [h1] at h; cases h
  | some node =>
      cases node with
      | dir => rw [h1] at h; cases h
      | file d =>
          rw [h1] at h
          simp only [] at h
          cases h2 : fsGet st.fs dst with
          | some node2 =>
              cases node2 with
              | dir =>
                  rw [h2] at h
                  simp only [] at h
                  cases h3 : fsGet st.fs (pathJoin dst (baseName src)) with
                  | some node3 =>
                      cases node3 with
                      | dir => rw [h3] at h; cases h
                      | file d3 =>
                          rw [h3] at h
                          simp only [Except.ok.injEq] at h
                          exact ⟨d, _, Or.inr rfl, by rw [← h]⟩
                  | none =>
                      rw [h3] at h
                      simp only [Except.ok.injEq] at h
                      exact ⟨d, _, Or.inr rfl, by rw [← h]⟩
              | file d2 =>
                  rw [h2] at h
                  simp only [] at h
                  rw [h2] at h
                  simp only [Except.ok.injEq] at h
                  exact ⟨d, dst, Or.inl rfl, by rw [← h]⟩
          | none =>
              rw [h2] at h
              simp only [] at h
              rw [h2] at h
              simp only [Except.ok.injEq] at h
              exact ⟨d, dst, Or.inl rfl, by rw [← h]⟩

theorem endsW_base (d n sfx : Chars) (hs : ∀ c ∈ sfx, c ≠ '/')
    (h : endsW (d ++ '/' :: n) sfx = true) :
    endsW n sfx = true := by
  simp only [endsW] at h ⊢
  rw [startsW_iff] at h
  obtain ⟨t, ht⟩ := h
  rw [startsW_iff]
  have hrev : (d ++ '/' :: n).reverse = n.reverse ++ '/' :: d.reverse := by
    simp
  rw [hrev] at ht
  by_cases hle : sfx.reverse.length ≤ n.reverse.length
  · refine ⟨n.reverse.drop sfx.reverse.length, ?_⟩
    have htake : (n.reverse ++ '/' :: d.reverse).take sfx.reverse.length =
        (sfx.reverse ++ t).take sfx.reverse.length := by rw [ht]
    rw [List.take_append_eq_append_take, List.take_append_eq_append_take,
      Nat.sub_self, List.take_zero, List.take_length, List.append_nil] at htake
    have hz : sfx.reverse.length - n.reverse.length = 0 := by omega
    rw [hz, List.take_zero, List.append_nil] at htake
    conv_lhs => rw [← List.take_append_drop sfx.reverse.length n.reverse]
    rw [htake]
  · exfalso
    have htake : (n.reverse ++ '/' :: d.reverse).take (n.reverse.length + 1) =
        (sfx.reverse ++ t).take (n.reverse.length + 1) := by rw [ht]
    rw [List.take_append_eq_append_take, List.take_append_eq_append_take] at htake
    have h1 : n.reverse.length + 1 - n.reverse.length = 1 := by omega
    have h2 : n.reverse.length + 1 - sfx.reverse.length = 0 := by omega
    rw [h1, h2, List.take_zero, List.append_nil,
      List.take_of_length_le (by omega : n.reverse.length ≤ n.reverse.length + 1)]
      at htake
    have hmem : '/' ∈ sfx.reverse.take (n.reverse.length + 1) := by
      rw [← htake]
      exact List.mem_append.mpr (Or.inr (by simp [List.take]))
    have hmem2 : '/' ∈ sfx := by
      rw [← List.mem_reverse]
      exact List.take_subset _ _ hmem
    exact hs '/' hmem2 rfl

theorem getAssoc_updAssoc {α β : Type} [DecidableEq α]
    (m : List (α × β)) (k k2 : α) (v : β) :
    getAssoc (updAssoc m k v) k2 = if k = k2 then some v else getAssoc m k2 := by
  induction m with
  | nil => simp [updAssoc, getAssoc]
  | cons e rest ih =>
      obtain ⟨k0, v0⟩ := e
      by_cases h0 : k0 = k
      · subst h0
        simp only [updAssoc, if_pos rfl, getAssoc]
        by_cases hk2 : k0 = k2
        · simp [hk2]
        · simp [hk2]
      · simp only [updAssoc, if_neg h0, getAssoc]
        by_cases h2 : k0 = k2
        · subst h2
          have hk : ¬ k = k0 := fun hc => h0 hc.symm
          simp [hk]
        · rw [if_neg h2, if_neg h2, ih]

theorem buildEntryMapsAux_val (all : List Chars) (a1 : List (Int × Chars))
    (a2 : List (Chars × Int)) (m1 : List (Int × Chars)) (m2 : List (Chars × Int))
    (h : buildEntryMapsAux (a1, a2) all = .ok (m1, m2)) (k : Int) (v : Chars)
    (hv : getAssoc m1 k = some v) :
    getAssoc a1 k = some v ∨ (v ∈ all ∧ strContains v (chars "entry") = true) := by
  induction all generalizing a1 a2 with
  | nil =>
      simp only [buildEntryMapsAux, Except.ok.injEq, Prod.mk.injEq] at h
      left
      rw [h.1]
      exact hv
  | cons f rest ih =>
      simp only [buildEntryMapsAux] at h
      by_cases hc : strContains f (chars "entry") = true
      · rw [hc] at h
        simp only [Bool.not_true, Bool.false_eq_true, if_false] at h
        rw [exc_bind_ok_iff] at h
        obtain ⟨idx, hp, h⟩ := h
        rcases ih _ _ h with hacc | hrest
        · rw [getAssoc_updAssoc] at hacc
          by_cases hk : idx = k
          · rw [if_pos hk] at hacc
            right
            have hvf : v = f := by
              injection hacc with h2
              exact h2.symm
            subst hvf
            exact ⟨by simp, hc⟩
          · rw [if_neg hk] at hacc
            left
            exact hacc
        · right
          exact ⟨List.mem_cons_of_mem f hrest.1, hrest.2⟩
      · have hcf : strContains f (chars "entry") = false := by
          cases hb : strContains f (chars "entry")
          · rfl
          · exact absurd hb hc
        rw [hcf] at h
        simp only [Bool.not_false, if_true] at h
        rcases ih _ _ h with hacc | hrest
        · left
          exact hacc
        · right
          exact ⟨List.mem_cons_of_mem f hrest.1, hrest.2⟩

theorem buildEntryMaps_val (all : List Chars) (m1 : List (Int × Chars))
    (m2 : List (Chars × Int)) (h : buildEntryMaps all = .ok (m1, m2))
    (k : Int) (v : Chars) (hv : getAssoc m1 k = some v) :
    v ∈ all ∧ strContains v (chars "entry") = true := by
  rcases buildEntryMapsAux_val all [] [] m1 m2 h k v hv with hacc | hgood
  · rw [getAssoc] at hacc
    cases hacc
  · exact hgood

theorem sweepLoop_src_dir_error (assigned : List Chars) (b1 b2 b3 b4 : Chars)
    (st : RunSt) (l : List Chars) (f : Chars)
    (hfa : f ∉ assigned)
    (hlen : ∀ b ∈ [b1, b2, b3, b4], f.length < b.length) :
    f ∈ l → fsGet st.fs f = some Node.dir →
    ∀ st', sweepLoop assigned b1 b2 b3 b4 st l ≠ .ok st' := by
  induction l generalizing st with
  | nil =>
      intro hf
      cases hf
  | cons g rest ih =>
      intro hf hdir st' h
      simp only [sweepLoop] at h
      by_cases hassg : g ∈ assigned
      · rw [if_pos ((contains_iff_mem assigned g).mpr hassg)] at h
        rcases List.mem_cons.mp hf with rfl | hf2
        · exact hfa hassg
        · exact ih st hf2 hdir st' h
      · have hcont : assigned.contains g = false := by
          cases hb : assigned.contains g
          · rfl
          · exact absurd ((contains_iff_mem assigned g).mp hb) hassg
        rw [hcont] at h
        simp only [Bool.false_eq_true, if_false] at h
        rw [exc_bind_ok_iff] at h
        obtain ⟨st3, hcopy, h2⟩ := h
        rcases List.mem_cons.mp hf with rfl | hf2
        · rw [shutilCopy_src_dir st f _ hdir] at hcopy
          cases hcopy
        · obtain ⟨d, dst2, hdst2, hfs2⟩ := shutilCopy_ok_any st st3 g _ hcopy
          have hblen : f.length < (sweepDest b1 b2 b3 b4 (baseName g)).length :=
            hlen _ (sweepDest_mem b1 b2 b3 b4 (baseName g))
          have hjlen := pathJoin_length_ge (sweepDest b1 b2 b3 b4 (baseName g))
            (baseName g) (baseName_no_slash g)
          have hdst2len : f.length < dst2.length := by
            rcases hdst2 with rfl | rfl
            · omega
            · have h3 := pathJoin_length_ge
                (pathJoin (sweepDest b1 b2 b3 b4 (baseName g)) (baseName g))
                (baseName g) (baseName_no_slash g)
              omega
          have hne : ¬ (f = dst2) := by
            intro hc
            rw [hc] at hdst2len
            omega
          have hdir2 : fsGet st3.fs f = some Node.dir := by
            rw [hfs2, fsGet_fsSet, if_neg hne]
            exact hdir
          exact ih st3 hf2 hdir2 st' h2

theorem organize_inv_default (cwd : Chars) (fs0 : FS) (input0 : Chars)
    (st2 : RunSt) (outp : Chars)
    (h : organize_crp_assets cwd fs0 input0 none = .ok (st2, outp)) :
    outp = pathJoin (pyAbspath cwd input0) (chars "organized") ∧
    ∃ (fs7 : FS) (names : List Chars)
      (maps : List (Int × Chars) × List (Chars × Int))
      (hmaps : List (Int × JV) × List (JV × Int)) (st : RunSt)
      (assigned : List Chars),
      (∀ q x, fsGet fs0 q = some x → fsGet fs7 q = some x) ∧
      (∀ q, fsGet fs0 q = none → fsGet fs7 q ≠ none →
        fsGet fs7 q = some Node.dir ∧
        ∃ t ∈ (pathJoin (pyAbspath cwd input0) (chars "organized")) :: pathJoin (pathJoin (pyAbspath cwd input0) (chars "organized")) (chars "instances") ::
            pathJoin (pathJoin (pyAbspath cwd input0) (chars "organized")) (chars "unassigned") :: bucketsOf (pathJoin (pyAbspath cwd input0) (chars "organized")), q <+: t) ∧
      ((fs0.map Prod.fst).Nodup → (fs7.map Prod.fst).Nodup) ∧
      ((pathJoin (pyAbspath cwd input0) (chars "organized")) ≠ [] → fsGet fs7 (pathJoin (pyAbspath cwd input0) (chars "organized")) = some Node.dir) ∧
      pyListdir fs7 (pyAbspath cwd input0) = .ok names ∧
      buildEntryMaps (names.map (fun n => pathJoin (pyAbspath cwd input0) n)) = .ok maps ∧
      processInstances
        { map_idx2filename := maps.1, map_filename2idx := maps.2,
          map_hash2idx := hmaps.2,
          all_files := names.map (fun n => pathJoin (pyAbspath cwd input0) n),
          instances_dir := pathJoin (pathJoin (pyAbspath cwd input0) (chars "organized")) (chars "instances") }
        { fs := fs7, log := [] } 0
        ((names.map (fun n => pathJoin (pyAbspath cwd input0) n)).filter
          (fun f => endsW f (chars "GameObject.json"))) = .ok st ∧
      computeAssigned st.fs (pyAbspath cwd input0) (pathJoin (pathJoin (pyAbspath cwd input0) (chars "organized")) (chars "instances"))
        ((names.map (fun n => pathJoin (pyAbspath cwd input0) n)).filter
          (fun f => endsW f (chars "GameObject.json"))).length = .ok assigned ∧
      sweepLoop assigned
        (pathJoin (pathJoin (pathJoin (pyAbspath cwd input0) (chars "organized")) (chars "unassigned")) (chars "mesh"))
        (pathJoin (pathJoin (pathJoin (pyAbspath cwd input0) (chars "organized")) (chars "unassigned")) (chars "material"))
        (pathJoin (pathJoin (pathJoin (pyAbspath cwd input0) (chars "organized")) (chars "unassigned")) (chars "texture"))
        (pathJoin (pathJoin (pathJoin (pyAbspath cwd input0) (chars "organized")) (chars "unassigned")) (chars "other"))
        st (names.map (fun n => pathJoin (pyAbspath cwd input0) n)) = .ok st2 := by
  simp only [organize_crp_assets] at h
  rw [exc_bind_ok_iff] at h
  obtain ⟨fs1, hmk1, h⟩ := h
  rw [exc_bind_ok_iff] at h
  obtain ⟨fs2, hmk2, h⟩ := h
  rw [exc_bind_ok_iff] at h
  obtain ⟨fs3, hmk3, h⟩ := h
  rw [exc_bind_ok_iff] at h
  obtain ⟨fs4, hmk4, h⟩ := h
  rw [exc_bind_ok_iff] at h
  obtain ⟨fs5, hmk5, h⟩ := h
  rw [exc_bind_ok_iff] at h
  obtain ⟨fs6, hmk6, h⟩ := h
  rw [exc_bind_ok_iff] at h
  obtain ⟨fs7, hmk7, h⟩ := h
  rw [exc_bind_ok_iff] at h
  obtain ⟨names, hls, h⟩ := h
  rw [exc_bind_ok_iff] at h
  obtain ⟨maps, hbe, h⟩ := h
  rw [exc_bind_ok_iff] at h
  obtain ⟨header_file, hhf, h⟩ := h
  rw [exc_bind_ok_iff] at h
  obtain ⟨header, hrd, h⟩ := h
  rw [exc_bind_ok_iff] at h
  obtain ⟨hmaps, hbm, h⟩ := h
  rw [exc_bind_ok_iff] at h
  obtain ⟨st, hpi, h⟩ := h
  rw [exc_bind_ok_iff] at h
  obtain ⟨assigned, hca, h⟩ := h
  rw [exc_bind_ok_iff] at h
  obtain ⟨stX, hsw, hpure⟩ := h
  simp only [Except.ok.injEq, Prod.mk.injEq] at hpure
  obtain ⟨hst, houtp⟩ := hpure
  subst hst
  subst houtp
  have m67 := makedirs_mono fs6 fs7 _ hmk7
  have m57 : ∀ q x, fsGet fs5 q = some x → fsGet fs7 q = some x :=
    fun q x hq => m67 q x (makedirs_mono fs5 fs6 _ hmk6 q x hq)
  have m47 : ∀ q x, fsGet fs4 q = some x → fsGet fs7 q = some x :=
    fun q x hq => m57 q x (makedirs_mono fs4 fs5 _ hmk5 q x hq)
  have m37 : ∀ q x, fsGet fs3 q = some x → fsGet fs7 q = some x :=
    fun q x hq => m47 q x (makedirs_mono fs3 fs4 _ hmk4 q x hq)
  have m27 : ∀ q x, fsGet fs2 q = some x → fsGet fs7 q = some x :=
    fun q x hq => m37 q x (makedirs_mono fs2 fs3 _ hmk3 q x hq)
  have m17 : ∀ q x, fsGet fs1 q = some x → fsGet fs7 q = some x :=
    fun q x hq => m27 q x (makedirs_mono fs1 fs2 _ hmk2 q x hq)
  have m07 : ∀ q x, fsGet fs0 q = some x → fsGet fs7 q = some x :=
    fun q x hq => m17 q x (makedirs_mono fs0 fs1 _ hmk1 q x hq)
  have hnew : ∀ q, fsGet fs0 q = none → fsGet fs7 q ≠ none →
      fsGet fs7 q = some Node.dir ∧
      ∃ t ∈ (pathJoin (pyAbspath cwd input0) (chars "organized")) :: pathJoin (pathJoin (pyAbspath cwd input0) (chars "organized")) (chars "instances") ::
          pathJoin (pathJoin (pyAbspath cwd input0) (chars "organized")) (chars "unassigned") :: bucketsOf (pathJoin (pyAbspath cwd input0) (chars "organized")), q <+: t := by
    intro q h0 h7
    by_cases c1 : fsGet fs1 q = none
    · by_cases c2 : fsGet fs2 q = none
      · by_cases c3 : fsGet fs3 q = none
        · by_cases c4 : fsGet fs4 q = none
          · by_cases c5 : fsGet fs5 q = none
            · by_cases c6 : fsGet fs6 q = none
              · obtain ⟨hp, hdir⟩ := makedirs_created fs6 fs7 _ hmk7 q c6 h7
                exact ⟨hdir, _, by simp [bucketsOf], hp⟩
              · obtain ⟨hp, hdir⟩ := makedirs_created fs5 fs6 _ hmk6 q c5 c6
                exact ⟨m67 q _ hdir, _, by simp [bucketsOf], hp⟩
            · obtain ⟨hp, hdir⟩ := makedirs_created fs4 fs5 _ hmk5 q c4 c5
              exact ⟨m57 q _ hdir, _, by simp [bucketsOf], hp⟩
          · obtain ⟨hp, hdir⟩ := makedirs_created fs3 fs4 _ hmk4 q c3 c4
            exact ⟨m47 q _ hdir, _, by simp [bucketsOf], hp⟩
        · obtain ⟨hp, hdir⟩ := makedirs_created fs2 fs3 _ hmk3 q c2 c3
          exact ⟨m37 q _ hdir, _, by simp [bucketsOf], hp⟩
      · obtain ⟨hp, hdir⟩ := makedirs_created fs1 fs2 _ hmk2 q c1 c2
        exact ⟨m27 q _ hdir, _, by simp [bucketsOf], hp⟩
    · obtain ⟨hp, hdir⟩ := makedirs_created fs0 fs1 _ hmk1 q h0 c1
      exact ⟨m17 q _ hdir, _, by simp, hp⟩
  have hnodup : (fs0.map Prod.fst).Nodup → (fs7.map Prod.fst).Nodup :=
    fun hn => makedirs_nodup fs6 fs7 _ hmk7 (makedirs_nodup fs5 fs6 _ hmk6
      (makedirs_nodup fs4 fs5 _ hmk5 (makedirs_nodup fs3 fs4 _ hmk4
        (makedirs_nodup fs2 fs3 _ hmk3 (makedirs_nodup fs1 fs2 _ hmk2
          (makedirs_nodup fs0 fs1 _ hmk1 hn))))))
  have htarget : (pathJoin (pyAbspath cwd input0) (chars "organized")) ≠ [] → fsGet fs7 (pathJoin (pyAbspath cwd input0) (chars "organized")) = some Node.dir :=
    fun hne => m17 _ _ (makedirs_target fs0 fs1 (pathJoin (pyAbspath cwd input0) (chars "organized")) hne hmk1)
  exact ⟨rfl, fs7, names, maps, hmaps, st, assigned,
    m07, hnew, hnodup, htarget, hls, hbe, hpi, hca, hsw⟩

theorem organize_inv_out (cwd : Chars) (fs0 : FS) (input0 outp0 : Chars)
    (st2 : RunSt) (outp : Chars)
    (h : organize_crp_assets cwd fs0 input0 (some outp0) = .ok (st2, outp)) :
    outp = outp0 ∧
    ∃ (fs7 : FS) (names : List Chars)
      (maps : List (Int × Chars) × List (Chars × Int))
      (hmaps : List (Int × JV) × List (JV × Int)) (st : RunSt)
      (assigned : List Chars),
      (∀ q x, fsGet fs0 q = some x → fsGet fs7 q = some x) ∧
      (∀ q, fsGet fs0 q = none → fsGet fs7 q ≠ none →
        fsGet fs7 q = some Node.dir ∧
        ∃ t ∈ outp0 :: pathJoin outp0 (chars "instances") ::
            pathJoin outp0 (chars "unassigned") :: bucketsOf outp0, q <+: t) ∧
      ((fs0.map Prod.fst).Nodup → (fs7.map Prod.fst).Nodup) ∧
      (outp0 ≠ [] → fsGet fs7 outp0 = some Node.dir) ∧
      pyListdir fs7 (pyAbspath cwd input0) = .ok names ∧
      buildEntryMaps (names.map (fun n => pathJoin (pyAbspath cwd input0) n)) = .ok maps ∧
      processInstances
        { map_idx2filename := maps.1, map_filename2idx := maps.2,
          map_hash2idx := hmaps.2,
          all_files := names.map (fun n => pathJoin (pyAbspath cwd input0) n),
          instances_dir := pathJoin outp0 (chars "instances") }
        { fs := fs7, log := [] } 0
        ((names.map (fun n => pathJoin (pyAbspath cwd input0) n)).filter
          (fun f => endsW f (chars "GameObject.json"))) = .ok st ∧
      computeAssigned st.fs (pyAbspath cwd input0) (pathJoin outp0 (chars "instances"))
        ((names.map (fun n => pathJoin (pyAbspath cwd input0) n)).filter
          (fun f => endsW f (chars "GameObject.json"))).length = .ok assigned ∧
      sweepLoop assigned
        (pathJoin (pathJoin outp0 (chars "unassigned")) (chars "mesh"))
        (pathJoin (pathJoin outp0 (chars "unassigned")) (chars "material"))
        (pathJoin (pathJoin outp0 (chars "unassigned")) (chars "texture"))
        (pathJoin (pathJoin outp0 (chars "unassigned")) (chars "other"))
        st (names.map (fun n => pathJoin (pyAbspath cwd input0) n)) = .ok st2 := by
  simp only [organize_crp_assets] at h
  rw [exc_bind_ok_iff] at h
  obtain ⟨fs1, hmk1, h⟩ := h
  rw [exc_bind_ok_iff] at h
  obtain ⟨fs2, hmk2, h⟩ := h
  rw [exc_bind_ok_iff] at h
  obtain ⟨fs3, hmk3, h⟩ := h
  rw [exc_bind_ok_iff] at h
  obtain ⟨fs4, hmk4, h⟩ := h
  rw [exc_bind_ok_iff] at h
  obtain ⟨fs5, hmk5, h⟩ := h
  rw [exc_bind_ok_iff] at h
  obtain ⟨fs6, hmk6, h⟩ := h
  rw [exc_bind_ok_iff] at h
  obtain ⟨fs7, hmk7, h⟩ := h
  rw [exc_bind_ok_iff] at h
  obtain ⟨names, hls, h⟩ := h
  rw [exc_bind_ok_iff] at h
  obtain ⟨maps, hbe, h⟩ := h
  rw [exc_bind_ok_iff] at h
  obtain ⟨header_file, hhf, h⟩ := h
  rw [exc_bind_ok_iff] at h
  obtain ⟨header, hrd, h⟩ := h
  rw [exc_bind_ok_iff] at h
  obtain ⟨hmaps, hbm, h⟩ := h
  rw [exc_bind_ok_iff] at h
  obtain ⟨st, hpi, h⟩ := h
  rw [exc_bind_ok_iff] at h
  obtain ⟨assigned, hca, h⟩ := h
  rw [exc_bind_ok_iff] at h
  obtain ⟨stX, hsw, hpure⟩ := h
  simp only [Except.ok.injEq, Prod.mk.injEq] at hpure
  obtain ⟨hst, houtp⟩ := hpure
  subst hst
  subst houtp
  have m67 := makedirs_mono fs6 fs7 _ hmk7
  have m57 : ∀ q x, fsGet fs5 q = some x → fsGet fs7 q = some x :=
    fun q x hq => m67 q x (makedirs_mono fs5 fs6 _ hmk6 q x hq)
  have m47 : ∀ q x, fsGet fs4 q = some x → fsGet fs7 q = some x :=
    fun q x hq => m57 q x (makedirs_mono fs4 fs5 _ hmk5 q x hq)
  have m37 : ∀ q x, fsGet fs3 q = some x → fsGet fs7 q = some x :=
    fun q x hq => m47 q x (makedirs_mono fs3 fs4 _ hmk4 q x hq)
  have m27 : ∀ q x, fsGet fs2 q = some x → fsGet fs7 q = some x :=
    fun q x hq => m37 q x (makedirs_mono fs2 fs3 _ hmk3 q x hq)
  have m17 : ∀ q x, fsGet fs1 q = some x → fsGet fs7 q = some x :=
    fun q x hq => m27 q x (makedirs_mono fs1 fs2 _ hmk2 q x hq)
  have m07 : ∀ q x, fsGet fs0 q = some x → fsGet fs7 q = some x :=
    fun q x hq => m17 q x (makedirs_mono fs0 fs1 _ hmk1 q x hq)
  have hnew : ∀ q, fsGet fs0 q = none → fsGet fs7 q ≠ none →
      fsGet fs7 q = some Node.dir ∧
      ∃ t ∈ outp0 :: pathJoin outp0 (chars "instances") ::
          pathJoin outp0 (chars "unassigned") :: bucketsOf outp0, q <+: t := by
    intro q h0 h7
    by_cases c1 : fsGet fs1 q = none
    · by_cases c2 : fsGet fs2 q = none
      · by_cases c3 : fsGet fs3 q = none
        · by_cases c4 : fsGet fs4 q = none
          · by_cases c5 : fsGet fs5 q = none
            · by_cases c6 : fsGet fs6 q = none
              · obtain ⟨hp, hdir⟩ := makedirs_created fs6 fs7 _ hmk7 q c6 h7
                exact ⟨hdir, _, by simp [bucketsOf], hp⟩
              · obtain ⟨hp, hdir⟩ := makedirs_created fs5 fs6 _ hmk6 q c5 c6
                exact ⟨m67 q _ hdir, _, by simp [bucketsOf], hp⟩
            · obtain ⟨hp, hdir⟩ := makedirs_created fs4 fs5 _ hmk5 q c4 c5
              exact ⟨m57 q _ hdir, _, by simp [bucketsOf], hp⟩
          · obtain ⟨hp, hdir⟩ := makedirs_created fs3 fs4 _ hmk4 q c3 c4
            exact ⟨m47 q _ hdir, _, by simp [bucketsOf], hp⟩
        · obtain ⟨hp, hdir⟩ := makedirs_created fs2 fs3 _ hmk3 q c2 c3
          exact ⟨m37 q _ hdir, _, by simp [bucketsOf], hp⟩
      · obtain ⟨hp, hdir⟩ := makedirs_created fs1 fs2 _ hmk2 q c1 c2
        exact ⟨m27 q _ hdir, _, by simp [bucketsOf], hp⟩
    · obtain ⟨hp, hdir⟩ := makedirs_created fs0 fs1 _ hmk1 q h0 c1
      exact ⟨m17 q _ hdir, _, by simp, hp⟩
  have hnodup : (fs0.map Prod.fst).Nodup → (fs7.map Prod.fst).Nodup :=
    fun hn => makedirs_nodup fs6 fs7 _ hmk7 (makedirs_nodup fs5 fs6 _ hmk6
      (makedirs_nodup fs4 fs5 _ hmk5 (makedirs_nodup fs3 fs4 _ hmk4
        (makedirs_nodup fs2 fs3 _ hmk3 (makedirs_nodup fs1 fs2 _ hmk2
          (makedirs_nodup fs0 fs1 _ hmk1 hn))))))
  have htarget : outp0 ≠ [] → fsGet fs7 outp0 = some Node.dir :=
    fun hne => m17 _ _ (makedirs_target fs0 fs1 outp0 hne hmk1)
  exact ⟨rfl, fs7, names, maps, hmaps, st, assigned,
    m07, hnew, hnodup, htarget, hls, hbe, hpi, hca, hsw⟩

theorem processPhase_trace (fs0 fs7 : FS) (outp : Chars) (cx : Ctx) (gs : List Chars)
    (st : RunSt)
    (houtp1 : startsW outp (chars "/") = true)
    (houtp2 : endsW outp (chars "/") = false)
    (hfresh : fs0.all (fun e => !underEq outp e.1) = true)
    (hnew : ∀ q, fsGet fs0 q = none → fsGet fs7 q ≠ none →
      fsGet fs7 q = some Node.dir ∧
      ∃ t ∈ outp :: pathJoin outp (chars "instances") ::
          pathJoin outp (chars "unassigned") :: bucketsOf outp, q <+: t)
    (hcx : cx.instances_dir = pathJoin outp (chars "instances"))
    (hpi : processInstances cx { fs := fs7, log := [] } 0 gs = .ok st) :
    ∀ q A, q = outp ++ '/' :: A → fsGet st.fs q ≠ none →
      (∃ t ∈ outp :: pathJoin outp (chars "instances") ::
          pathJoin outp (chars "unassigned") :: bucketsOf outp,
        q <+: t ∧ fsGet st.fs q = some Node.dir) ∨
      (∃ j, j < gs.length ∧ q = instDirOf cx j ∧ fsGet st.fs q = some Node.dir) ∨
      (∃ j, j < gs.length ∧ ∃ src go, go ∈ gs ∧ instSrc cx go src ∧
        q = pathJoin (instDirOf cx j) (baseName src) ∧
        fsGet st.fs (instDirOf cx j) = some Node.dir ∧
        ∃ fd, fsGet st.fs q = some (Node.file fd)) := by
  intro q A hqA hqst
  have h0 : fsGet fs0 q = none := fresh_none fs0 outp q hfresh (by
    rw [hqA]; exact underEq_append outp A)
  obtain ⟨mono, newc, hdup⟩ := processInstances_char cx { fs := fs7, log := [] } st 0 gs hpi
  by_cases h7 : fsGet fs7 q = none
  · obtain ⟨j, hj0, hjlt, hcase⟩ := newc q h7 hqst
    rcases hcase with ⟨hmem, hdir⟩ | ⟨src, go, hgo, hsrc, hq, hid, fd, hv⟩
    · obtain ⟨hDs, hDe, hDeq⟩ := pathNice_join outp (chars "instances") houtp1 houtp2
        (by decide)
      have hone : outp ≠ [] := startsW_nonempty outp houtp1
      have hDne : pathJoin outp (chars "instances") ≠ [] := by
        rw [hDeq]
        intro hc
        have h2 := (List.append_eq_nil.mp hc).2
        cases h2
      have hicn : ∀ c ∈ chars "instance_" ++ natChars j, c ≠ '/' :=
        ((nameOk_iff _).mp (instName_nameOk j)).2
      have hInst : instDirOf cx j =
          pathJoin outp (chars "instances") ++ '/' :: (chars "instance_" ++ natChars j) := by
        unfold instDirOf
        rw [hcx]
        exact pathJoin_eq _ _ hDs hDe (instName_nameOk j)
      rw [hInst, pathPrefixList_join _ _ hDne hicn] at hmem
      rcases List.mem_append.mp hmem with hm1 | hm2
      · rw [hDeq, pathPrefixList_join outp (chars "instances") hone (by decide)] at hm1
        rcases List.mem_append.mp hm1 with hm1a | hm1b
        · exfalso
          have hpre := mem_pathPrefixList_pre outp q hm1a
          have hlen := hpre.length_le
          rw [hqA] at hlen
          simp only [List.length_append, List.length_cons] at hlen
          omega
        · have hqD : q = pathJoin outp (chars "instances") := by
            rw [hDeq]
            exact List.mem_singleton.mp hm1b
          left
          refine ⟨pathJoin outp (chars "instances"), by simp, ?_, hdir⟩
          rw [hqD]
      · have hqI : q = instDirOf cx j := by
          rw [hInst]
          exact List.mem_singleton.mp hm2
        right
        left
        exact ⟨j, by omega, hqI, hdir⟩
    · right
      right
      exact ⟨j, by omega, src, go, hgo, hsrc, hq, hid, fd, hv⟩
  · obtain ⟨hdir7, t, ht, hp⟩ := hnew q h0 h7
    left
    exact ⟨t, ht, hp, mono q _ hdir7⟩

theorem inst_unass_prefix_kill (X Y : Chars)
    (h : chars "instances" ++ X <+: chars "unassigned" ++ Y) : False := by
  have e1 : chars "instances" ++ X = 'i' :: (chars "nstances" ++ X) := rfl
  have e2 : chars "unassigned" ++ Y = 'u' :: (chars "nassigned" ++ Y) := rfl
  rw [e1, e2] at h
  exact head_ne_not_pre (by decide) _ _ h

theorem unass_inst_prefix_kill (X Y : Chars)
    (h : chars "unassigned" ++ X <+: chars "instances" ++ Y) : False := by
  have e1 : chars "unassigned" ++ X = 'u' :: (chars "nassigned" ++ X) := rfl
  have e2 : chars "instances" ++ Y = 'i' :: (chars "nstances" ++ Y) := rfl
  rw [e1, e2] at h
  exact head_ne_not_pre (by decide) _ _ h

theorem inst_unass_eq_kill (X Y : Chars)
    (h : chars "instances" ++ X = chars "unassigned" ++ Y) : False := by
  have e1 : chars "instances" ++ X = 'i' :: (chars "nstances" ++ X) := rfl
  have e2 : chars "unassigned" ++ Y = 'u' :: (chars "nassigned" ++ Y) := rfl
  rw [e1, e2] at h
  injection h with h1 h2
  exact absurd h1 (by decide)

theorem unass_inst_eq_kill (X Y : Chars)
    (h : chars "unassigned" ++ X = chars "instances" ++ Y) : False := by
  have e1 : chars "unassigned" ++ X = 'u' :: (chars "nassigned" ++ X) := rfl
  have e2 : chars "instances" ++ Y = 'i' :: (chars "nstances" ++ Y) := rfl
  rw [e1, e2] at h
  injection h with h1 h2
  exact absurd h1 (by decide)

/-! ### Claim theorems -/

/-- C1: the claim says the organizer process exits 0 iff every requested
unit succeeded and exits 1 whenever any unit failed, in both modes.  The
code contradicts this: with the batch list `/L` naming the nonexistent
directory `/nodir`, `process_crp_folders` itself reports failure (returns
1), yet the `__main__` guard calls `main()` without using its return value
and swallows every exception, so the process exit status is 0; in `--input`
mode an aborting run is likewise swallowed and the exit status is again 0.
(The sibling script `extract_crp.py` ends with `sys.exit(main())`; this
one drops the status.) -/
theorem c1_exit_code_bug :
    (process_crp_folders (chars "/") fsBatchBad (chars "/L")).1 = 1 ∧
    scriptExitCode (chars "/") fsBatchBad (.fileMode (chars "/L")) = 0 ∧
    (organize_crp_assets (chars "/") fsBadHash (chars "/in") (some (chars "/out"))).isOk
      = false ∧
    scriptExitCode (chars "/") fsBadHash (.inputMode (chars "/in") (some (chars "/out"))) = 0 := by
  refine ⟨?_, ?_, ?_, ?_⟩ <;> decide

/-- C2 (counterexample): the claim says a mesh/material checksum absent
from the index makes the resolver skip only that instance, without throwing
and without aborting the directory run.  On `fsBadHash`, whose only scene
object references the absent mesh checksum `ZZ`, the whole organization run
aborts with an uncaught `KeyError` — the raw `map_hash2idx[...]` subscript
of line 146 throws. -/
theorem c2_counterexample :
    organize_crp_assets (chars "/") fsBadHash (chars "/in") (some (chars "/out")) =
      .error (.keyError (.jstr (chars "ZZ"))) := by decide

/-- C2 (amended): a scene-object record whose mesh or material checksum is
absent from the checksum index (or whose index entry has no discovered
file) makes the per-instance resolution raise an uncaught `KeyError` that
propagates out of `organize_crp_assets` and aborts the whole directory's
run; the instance is not skipped.  Each of the four lookup failures of
lines 146-153 is covered. -/
theorem c2_amended (cx : Ctx) (st : RunSt) (i : Nat) (go : Chars) (g mh r mat : JV)
    (hg : safe_read_json st.fs go = some g)
    (hm : pySubscr g (chars "1_UnityEngine.MeshFilter") = .ok mh)
    (hr : pySubscr g (chars "2_UnityEngine.MeshRenderer") = .ok r)
    (h0 : pySubscrIdx r 0 = .ok mat) :
    (∀ e, dictGetJ cx.map_hash2idx mh = .error e →
        processInstance cx st i go = .error e) ∧
    (∀ idx, dictGetJ cx.map_hash2idx mh = .ok idx →
        getAssoc cx.map_idx2filename idx = none →
        processInstance cx st i go = .error (.keyError (.jint idx))) ∧
    (∀ idx f e, dictGetJ cx.map_hash2idx mh = .ok idx →
        getAssoc cx.map_idx2filename idx = some f →
        dictGetJ cx.map_hash2idx mat = .error e →
        processInstance cx st i go = .error e) ∧
    (∀ idx f idx2, dictGetJ cx.map_hash2idx mh = .ok idx →
        getAssoc cx.map_idx2filename idx = some f →
        dictGetJ cx.map_hash2idx mat = .ok idx2 →
        getAssoc cx.map_idx2filename idx2 = none →
        processInstance cx st i go = .error (.keyError (.jint idx2))) := by
  refine ⟨?_, ?_, ?_, ?_⟩
  · intro e he
    simp [processInstance, exc_bind_ok, exc_bind_error, hg, hm, hr, h0, he]
  · intro idx h1 h2
    simp [processInstance, exc_bind_ok, exc_bind_error, hg, hm, hr, h0, h1, h2]
  · intro idx f e h1 h2 h3
    simp [processInstance, exc_bind_ok, exc_bind_error, hg, hm, hr, h0, h1, h2, h3]
  · intro idx f idx2 h1 h2 h3 h4
    simp [processInstance, exc_bind_ok, exc_bind_error, hg, hm, hr, h0, h1, h2, h3, h4]

/-- Witness for C2 (amended): a concrete scene object referencing the
absent checksum `ZZ` makes `processInstance` raise `KeyError('ZZ')`. -/
theorem c2_amended_witness :
    safe_read_json stMini.fs (chars "/go") = some gameobjBadHash ∧
    processInstance cxMini stMini 0 (chars "/go") = .error (.keyError (.jstr (chars "ZZ"))) := by
  have h := c2_amended cxMini stMini 0 (chars "/go") gameobjBadHash (.jstr (chars "ZZ"))
      (.jarr (.ofList [.jstr (chars "B2")])) (.jstr (chars "B2"))
      (by decide) (by decide) (by decide) (by decide)
  exact ⟨by decide, h.1 _ (by decide)⟩

/-- C3 (counterexample): the claim says a scene-object record lacking the
MeshFilter or MeshRenderer key is skipped while the run continues.  On
`fsNoRenderer`, whose only scene object lacks `2_UnityEngine.MeshRenderer`,
the whole run aborts with the uncaught `KeyError` of line 141 instead. -/
theorem c3_counterexample :
    organize_crp_assets (chars "/") fsNoRenderer (chars "/in") (some (chars "/out")) =
      .error (.keyError (.jstr (chars "2_UnityEngine.MeshRenderer"))) := by decide

/-- C3 (amended): a parsed scene-object record that lacks the
`1_UnityEngine.MeshFilter` key or the `2_UnityEngine.MeshRenderer` key
makes the instance loop raise the subscript's exception (a `KeyError`),
aborting the run rather than skipping the instance; only a GameObject file
that fails to read or parse is skipped (with the loop continuing on the
unchanged state). -/
theorem c3_amended (cx : Ctx) (st : RunSt) (i : Nat) (go : Chars) :
    (∀ g e, safe_read_json st.fs go = some g →
        pySubscr g (chars "1_UnityEngine.MeshFilter") = .error e →
        processInstance cx st i go = .error e) ∧
    (∀ g mh e, safe_read_json st.fs go = some g →
        pySubscr g (chars "1_UnityEngine.MeshFilter") = .ok mh →
        pySubscr g (chars "2_UnityEngine.MeshRenderer") = .error e →
        processInstance cx st i go = .error e) ∧
    (safe_read_json st.fs go = none → processInstance cx st i go = .ok st) := by
  refine ⟨?_, ?_, ?_⟩
  · intro g e hg h1
    simp [processInstance, exc_bind_ok, exc_bind_error, hg, h1]
  · intro g mh e hg h1 h2
    simp [processInstance, exc_bind_ok, exc_bind_error, hg, h1, h2]
  · intro hg
    simp [processInstance, hg]

/-- Witness for C3 (amended): the concrete record without a MeshRenderer
key raises `KeyError('2_UnityEngine.MeshRenderer')`. -/
theorem c3_amended_witness :
    safe_read_json fsNoRenderer (chars "/in/entry_2_GameObject.json") = some gameobjNoRenderer ∧
    processInstance cxMini ⟨fsNoRenderer, []⟩ 0 (chars "/in/entry_2_GameObject.json") =
      .error (.keyError (.jstr (chars "2_UnityEngine.MeshRenderer"))) := by
  have h := (c3_amended cxMini ⟨fsNoRenderer, []⟩ 0 (chars "/in/entry_2_GameObject.json")).2.1
      gameobjNoRenderer (.jstr (chars "A1")) (.keyError (.jstr (chars "2_UnityEngine.MeshRenderer")))
      (by decide) (by decide) (by decide)
  exact ⟨by decide, h⟩

/-- C4 (counterexample): the claim says a present destination is never
overwritten and a second identical run copies zero files (including the
unassigned sweep).  Running the organizer a second time on the end-to-end
input (state `e2eRun1.fs` left by the first run) produces the identical
tree but performs one `shutil.copy2` in the sweep, overwriting the existing
`unassigned/other/header.json` — the sweep of lines 292-294 has no
existence check. -/
theorem c4_counterexample :
    organize_crp_assets (chars "/") e2eRun1.fs (chars "/in") (some (chars "/out")) =
      .ok ({ fs := e2eRun1.fs,
             log := [{ src := chars "/in/header.json",
                       dst := chars "/out/unassigned/other/header.json",
                       overwrote := true }] }, chars "/out") := by decide

/-- C4 (amended): the per-instance copies are guarded — an existing
destination is left untouched and no copy is performed — so a second run
leaves the output tree identical; but the unassigned sweep copies
unconditionally, so a second run performs one overwriting copy per
unassigned file rather than zero copies (shown on the end-to-end input:
the second run's whole copy log is that single overwriting sweep copy,
while the first run overwrote nothing). -/
theorem c4_amended :
    (∀ (st : RunSt) (src dstDir : Chars),
        (fsGet st.fs (pathJoin dstDir (baseName src))).isSome = true →
        copyIfAbsent st src dstDir = .ok st) ∧
    organize_crp_assets (chars "/") e2eRun1.fs (chars "/in") (some (chars "/out")) =
      .ok ({ fs := e2eRun1.fs,
             log := [{ src := chars "/in/header.json",
                       dst := chars "/out/unassigned/other/header.json",
                       overwrote := true }] }, chars "/out") ∧
    e2eRun1.log.all (fun ev => !ev.overwrote) = true := by
  refine ⟨?_, by decide, by decide⟩
  intro st src dstDir h
  simp [copyIfAbsent, h]

/-- Witness for C4 (amended): a concrete existing destination makes
`copyIfAbsent` a no-op. -/
theorem c4_amended_witness :
    (fsGet e2eRun1.fs (pathJoin (chars "/out/instances/instance_0")
        (baseName (chars "/in/entry_0_x.obj")))).isSome = true ∧
    copyIfAbsent e2eRun1 (chars "/in/entry_0_x.obj") (chars "/out/instances/instance_0") =
      .ok e2eRun1 := by
  exact ⟨by decide, c4_amended.1 e2eRun1 (chars "/in/entry_0_x.obj")
      (chars "/out/instances/instance_0") (by decide)⟩

/-- C5 (counterexample): the claim says the manifest is identified by an
exact filename match and that zero or more than one candidate is an error.
On `fsSuffixHeader` the input has no file named exactly `header.json` —
only `x_header.json` — yet the run succeeds, using the suffix-matched file;
on `fsTwoHeaders` two candidate files are present and the run succeeds
rather than failing. -/
theorem c5_counterexample :
    (organize_crp_assets (chars "/") fsSuffixHeader (chars "/in") (some (chars "/out"))).isOk
      = true ∧
    (organize_crp_assets (chars "/") fsTwoHeaders (chars "/in") (some (chars "/out"))).isOk
      = true := by
  exact ⟨by decide, by decide⟩

/-- C5 (amended): the manifest is identified by the suffix test
`endswith("header.json")`; when no discovered path matches, the lookup
fails with the `ValueError` of line 92, and when several match, the first
in enumeration order is used with no error; a chosen manifest whose bytes
do not parse fails with the `ValueError` of line 98. -/
theorem c5_amended :
    (∀ all_files : List Chars, (∀ f ∈ all_files, endsW f (chars "header.json") = false) →
        findHeaderFile all_files =
          .error (.valueError "header.json not found in the input directory")) ∧
    (∀ (l1 l2 : List Chars) (f : Chars),
        (∀ g ∈ l1, endsW g (chars "header.json") = false) →
        endsW f (chars "header.json") = true →
        findHeaderFile (l1 ++ f :: l2) = .ok f) ∧
    (organize_crp_assets (chars "/") fsTwoHeaders (chars "/in") (some (chars "/out"))).isOk
      = true ∧
    organize_crp_assets (chars "/") fsBadHeader (chars "/in") (some (chars "/out")) =
      .error (.valueError "Could not read header file") := by
  refine ⟨?_, ?_, by decide, by decide⟩
  · intro all_files h
    have hnone : all_files.find? (fun f => endsW f (chars "header.json")) = none := by
      rw [List.find?_eq_none]
      intro x hx
      simp [h x hx]
    simp [findHeaderFile, hnone]
  · intro l1 l2 f h1 h2
    induction l1 with
    | nil => simp [findHeaderFile, List.find?, h2]
    | cons g gs ih =>
        have hg : endsW g (chars "header.json") = false := h1 g (by simp)
        have ih2 := ih (fun x hx => h1 x (by simp [hx]))
        simpa [findHeaderFile, List.find?, hg] using ih2

/-- Witness for C5 (amended): with a non-candidate first, the suffix-named
`a_header.json` is selected even though an exact `header.json` follows. -/
theorem c5_amended_witness :
    endsW (chars "/in/a_header.json") (chars "header.json") = true ∧
    findHeaderFile [chars "/in/zzz.obj", chars "/in/a_header.json", chars "/in/header.json"] =
      .ok (chars "/in/a_header.json") := by
  exact ⟨by decide, c5_amended.2.1 [chars "/in/zzz.obj"]
      [chars "/in/header.json"] (chars "/in/a_header.json") (by decide) (by decide)⟩

/-- C7 (counterexample): the claim says that when the string-containment
scan also fails, the ±10 extraction-index proximity fallback is applied.
On `fsTexFallback` the texture checksum `T1` has no index entry, no path
contains it, and `entry_3_pic.png` is a proximity candidate (index 3 vs the
material's 1, and `proximitySearch` would select it) — yet the run resolves
no texture at all: the png is not copied into the instance and surfaces in
the unassigned texture bucket.  The proximity code sits in an `except`
handler that a failed scan never reaches. -/
theorem c7_counterexample :
    (organize_crp_assets (chars "/") fsTexFallback (chars "/in") (some (chars "/out"))).isOk
      = true ∧
    fsGet (finalFS (organize_crp_assets (chars "/") fsTexFallback (chars "/in")
        (some (chars "/out")))) (chars "/out/instances/instance_0/entry_3_pic.png") = none ∧
    fsGet (finalFS (organize_crp_assets (chars "/") fsTexFallback (chars "/in")
        (some (chars "/out")))) (chars "/out/unassigned/texture/entry_3_pic.png")
      = some (rawFile 5) ∧
    buildEntryMaps allFilesTex = .ok (i2fTex, f2iTex) ∧
    getAssoc hash2idxE2E (JV.jstr (chars "T1")) = none ∧
    (allFilesTex.find? (fun fp => strContains fp (chars "T1") &&
        (strContains fp (chars "Texture") || endsW fp (chars ".png") ||
          endsW fp (chars ".jpg"))) = none) ∧
    proximitySearch f2iTex allFilesTex (chars "/in/entry_1_x.json") =
      [chars "/in/entry_3_pic.png"] := by
  refine ⟨by decide, by decide, by decide, by decide, by decide, by decide, by decide⟩

/-- C7 (amended): for a string texture checksum with no index entry, the
resolver selects the first discovered file whose path contains the checksum
and looks like an image, and never a proximity candidate; when that
containment scan finds nothing, the slot is simply dropped — the
extraction-index proximity fallback is not applied (it lives in an `except`
handler reachable only when the `try` body raises, which a failed scan does
not). -/
theorem c7_amended (m2i : List (JV × Int)) (i2f : List (Int × Chars))
    (f2i : List (Chars × Int)) (all : List Chars) (mat : Chars) (s : Chars)
    (hmiss : getAssoc m2i (JV.jstr s) = none) :
    (∀ fp, all.find? (fun fp => strContains fp s && (strContains fp (chars "Texture") ||
        endsW fp (chars ".png") || endsW fp (chars ".jpg"))) = some fp →
      resolveTexture m2i i2f f2i all mat (.jstr s) = [fp]) ∧
    (all.find? (fun fp => strContains fp s && (strContains fp (chars "Texture") ||
        endsW fp (chars ".png") || endsW fp (chars ".jpg"))) = none →
      resolveTexture m2i i2f f2i all mat (.jstr s) = []) := by
  constructor
  · intro fp hfind
    simp [resolveTexture, JV.hashable, hmiss, hfind]
  · intro hfind
    simp [resolveTexture, JV.hashable, hmiss, hfind]

/-- Witness for C7 (amended): the concrete `T1` slot resolves to nothing
although a proximity candidate exists. -/
theorem c7_amended_witness :
    getAssoc hash2idxE2E (JV.jstr (chars "T1")) = none ∧
    resolveTexture hash2idxE2E i2fTex f2iTex allFilesTex (chars "/in/entry_1_x.json")
      (.jstr (chars "T1")) = [] := by
  exact ⟨by decide, (c7_amended hash2idxE2E i2fTex f2iTex allFilesTex
      (chars "/in/entry_1_x.json") (chars "T1") (by decide)).2 (by decide)⟩

/-- C8: when the resolved material file cannot be read or parsed, the
resolver substitutes the empty texture mapping `{"textures": {}}` and the
instance still produces its bundle: `processInstance` reduces exactly to
creating the instance directory and copying the object, mesh and material
files — no texture copies, no skip, no failure introduced by the unreadable
material. -/
theorem c8_material_unreadable (cx : Ctx) (st : RunSt) (i : Nat) (go : Chars)
    (g mh r mat : JV) (idx1 idx2 : Int) (mesh_fn mat_fn : Chars)
    (hg : safe_read_json st.fs go = some g)
    (hm : pySubscr g (chars "1_UnityEngine.MeshFilter") = .ok mh)
    (hr : pySubscr g (chars "2_UnityEngine.MeshRenderer") = .ok r)
    (h0 : pySubscrIdx r 0 = .ok mat)
    (hi1 : dictGetJ cx.map_hash2idx mh = .ok idx1)
    (hf1 : getAssoc cx.map_idx2filename idx1 = some mesh_fn)
    (hi2 : dictGetJ cx.map_hash2idx mat = .ok idx2)
    (hf2 : getAssoc cx.map_idx2filename idx2 = some mat_fn)
    (hmat : safe_read_json st.fs mat_fn = none) :
    processInstance cx st i go = (do
      let fs2 ← makedirs st.fs (pathJoin cx.instances_dir (chars "instance_" ++ natChars i))
      let st2 ← copyIfAbsent { st with fs := fs2 } go
          (pathJoin cx.instances_dir (chars "instance_" ++ natChars i))
      let st3 ← copyIfAbsent st2 mesh_fn
          (pathJoin cx.instances_dir (chars "instance_" ++ natChars i))
      copyIfAbsent st3 mat_fn
          (pathJoin cx.instances_dir (chars "instance_" ++ natChars i)) :
        Except PyErr RunSt) := by
  have htex : getTextureHashes (JV.jdict (.dcons (chars "textures") (.jdict .dnil) .dnil)) =
      .ok ([] : List JV) := by decide
  simp [processInstance, exc_bind_ok, exc_bind_error, exc_bind_pure, hg, hm, hr, h0,
    hi1, hf1, hi2, hf2, hmat, htex, resolveTextures, copyFilesLoop]

/-- Witness for C8: a concrete instance with an unreadable material file
reduces to the three bundle copies and succeeds. -/
theorem c8_witness :
    safe_read_json stMiniC8.fs (chars "/in/entry_2_GameObject.json") = some gameobjE2E ∧
    safe_read_json stMiniC8.fs (chars "/in/entry_1_x.json") = none ∧
    processInstance cxMini stMiniC8 0 (chars "/in/entry_2_GameObject.json") = (do
      let fs2 ← makedirs stMiniC8.fs (pathJoin cxMini.instances_dir
          (chars "instance_" ++ natChars 0))
      let st2 ← copyIfAbsent { stMiniC8 with fs := fs2 } (chars "/in/entry_2_GameObject.json")
          (pathJoin cxMini.instances_dir (chars "instance_" ++ natChars 0))
      let st3 ← copyIfAbsent st2 (chars "/in/entry_0_x.obj")
          (pathJoin cxMini.instances_dir (chars "instance_" ++ natChars 0))
      copyIfAbsent st3 (chars "/in/entry_1_x.json")
          (pathJoin cxMini.instances_dir (chars "instance_" ++ natChars 0)) :
        Except PyErr RunSt) ∧
    (processInstance cxMini stMiniC8 0 (chars "/in/entry_2_GameObject.json")).isOk = true := by
  refine ⟨by decide, by decide, ?_, by decide⟩
  exact c8_material_unreadable cxMini stMiniC8 0 (chars "/in/entry_2_GameObject.json")
      gameobjE2E (.jstr (chars "A1")) (.jarr (.ofList [.jstr (chars "B2")]))
      (.jstr (chars "B2")) 0 1 (chars "/in/entry_0_x.obj") (chars "/in/entry_1_x.json")
      (by decide) (by decide) (by decide) (by decide) (by decide) (by decide) (by decide)
      (by decide) (by decide)

/-- C9 (counterexample): the claim says any path containing `entry` that is
not of the form `...entry_<digits>_...` aborts index building.  The path
`/in/xentry_12` contains `entry` and has no underscore after the digits —
the claimed form requires one — yet the index parses 12 out of it and the
whole organization run succeeds. -/
theorem c9_counterexample :
    strContains (chars "/in/xentry_12") (chars "entry") = true ∧
    parseEntryIdx (chars "/in/xentry_12") = .ok 12 ∧
    (organize_crp_assets (chars "/") fsXentry (chars "/in") (some (chars "/out"))).isOk
      = true := by
  refine ⟨by decide, by decide, by decide⟩

/-- C9 (amended): entry discovery tests the substring `entry` against the
full joined path, skipping paths without it; for a path that contains
`entry`, index building aborts the run with the uncaught parse exception
exactly when taking the text after the first `entry_` up to the next `_`
(or the end) fails to parse as an integer — in particular a path with
`entry` but no `entry_` at all, such as a file inside an input directory
named `/data/entry`, raises `IndexError` and the whole directory's
organization aborts; but digits running to the end of the name (no
trailing underscore) parse fine. -/
theorem c9_amended :
    (∀ (m1 : List (Int × Chars)) (m2 : List (Chars × Int)) (f : Chars) (rest : List Chars),
        strContains f (chars "entry") = false →
        buildEntryMapsAux (m1, m2) (f :: rest) = buildEntryMapsAux (m1, m2) rest) ∧
    (∀ (m1 : List (Int × Chars)) (m2 : List (Chars × Int)) (f : Chars) (rest : List Chars)
        (e : PyErr), strContains f (chars "entry") = true →
        parseEntryIdx f = .error e →
        buildEntryMapsAux (m1, m2) (f :: rest) = .error e) ∧
    parseEntryIdx (chars "/data/entry/header.json") = .error .indexError ∧
    organize_crp_assets (chars "/") fsEntryDir (chars "/data/entry") (some (chars "/out")) =
      .error .indexError := by
  refine ⟨?_, ?_, by decide, by decide⟩
  · intro m1 m2 f rest h
    simp [buildEntryMapsAux, h]
  · intro m1 m2 f rest e h1 h2
    simp [buildEntryMapsAux, exc_bind_ok, exc_bind_error, h1, h2]

/-- Witness for C9 (amended): a path without `entry` is skipped; a path
with `entry` but no `entry_` aborts the map construction. -/
theorem c9_amended_witness :
    strContains (chars "/d/xe") (chars "entry") = false ∧
    buildEntryMapsAux ([], []) [chars "/d/xe"] = buildEntryMapsAux ([], []) [] ∧
    strContains (chars "/d/entry") (chars "entry") = true ∧
    parseEntryIdx (chars "/d/entry") = .error .indexError ∧
    buildEntryMapsAux ([], []) [chars "/d/entry"] = .error .indexError := by
  refine ⟨by decide, c9_amended.1 [] [] (chars "/d/xe") [] (by decide), by decide, by decide,
    c9_amended.2.1 [] [] (chars "/d/entry") [] .indexError (by decide) (by decide)⟩

/-- C10: the claim says file discovery lists every name of the input
directory without filtering for regular files, and the default output
directory `<input>/organized` is created inside the input directory before
the listing, so with the default output location the fresh `organized`
directory is itself enumerated, is claimed by no instance, reaches the
unassigned sweep, and the attempted `shutil.copy2` of a directory raises an
uncaught error that aborts the run.  Confirmed in general: for any
well-formed absolute input path whose `organized` subtree is fresh (and
whose path avoids the `entry`/`Texture` substrings that would redirect the
abort into index building or the texture scan), a run with default output
never returns successfully. -/
theorem c10_default_output_abort (cwd : Chars) (fs0 : FS) (input : Chars)
    (hin : pathOk input = true)
    (hfresh : fs0.all (fun e => !underEq (pathJoin input (chars "organized")) e.1) = true)
    (hent : strContains (pathJoin input (chars "organized")) (chars "entry") = false)
    (htex : strContains (pathJoin input (chars "organized")) (chars "Texture") = false) :
    ∀ r, organize_crp_assets cwd fs0 input none ≠ .ok r := by
  intro r h
  obtain ⟨st2, outp⟩ := r
  obtain ⟨houtp, fs7, names, maps, hmaps, st, assigned, hmono, hnew, hnodup, htarget,
    hls, hbe, hpi, hca, hsw⟩ := organize_inv_default cwd fs0 input st2 outp h
  have habs : pyAbspath cwd input = input := by
    unfold pyAbspath
    rw [if_pos (pathOk_startsW input hin)]
  rw [habs] at hnew htarget hls hbe hpi hca hsw
  have hin1 : startsW input (chars "/") = true := pathOk_startsW input hin
  have hin2 : endsW input (chars "/") = false := pathOk_not_endsW input hin
  obtain ⟨hOs, hOe, hOeq⟩ := pathNice_join input (chars "organized") hin1 hin2 (by decide)
  have hOne : (pathJoin input (chars "organized")) ≠ [] := by
    rw [hOeq]
    intro hc
    cases (List.append_eq_nil.mp hc).2
  have hO7 : fsGet fs7 (pathJoin input (chars "organized")) = some Node.dir := htarget hOne
  obtain ⟨hindir, hnames⟩ := pyListdir_ok fs7 input names hls
  have hOn : chars "organized" ∈ names := by
    rw [hnames]
    exact mem_listNames_of_node fs7 input (chars "organized") hin1 hin2 (by decide)
      (by rw [hO7]; simp)
  have hOfile : (pathJoin input (chars "organized")) ∈ (names.map (fun n => pathJoin input n)) := List.mem_map.mpr ⟨chars "organized", hOn, rfl⟩
  obtain ⟨mono, newc, ndup⟩ := processInstances_char ({ map_idx2filename := maps.1, map_filename2idx := maps.2, map_hash2idx := hmaps.2, all_files := names.map (fun n => pathJoin input n), instances_dir := pathJoin (pathJoin input (chars "organized")) (chars "instances") } : Ctx) { fs := fs7, log := [] } st 0
    ((names.map (fun n => pathJoin input n)).filter (fun f => endsW f (chars "GameObject.json"))) hpi
  obtain ⟨hDs, hDe, hDeq⟩ := pathNice_join (pathJoin input (chars "organized")) (chars "instances") hOs hOe (by decide)
  obtain ⟨hUs, hUe, hUeq⟩ := pathNice_join (pathJoin input (chars "organized")) (chars "unassigned") hOs hOe (by decide)
  have hOnotass : (pathJoin input (chars "organized")) ∉ assigned := by
    intro hass
    unfold computeAssigned at hca
    obtain ⟨fwd, bwd⟩ := computeAssignedAux_char st.fs input (pathJoin (pathJoin input (chars "organized")) (chars "instances"))
      (List.range ((names.map (fun n => pathJoin input n)).filter (fun f => endsW f (chars "GameObject.json"))).length) assigned hca
    obtain ⟨i, hi, name, hname, hor⟩ := fwd _ hass
    have hnOk : nameOk name = true := listNames_nameOk st.fs _ name hname
    have hbase : baseName name = name := baseName_of_nameOk name hnOk
    have hnameO : name = chars "organized" := by
      rcases hor with h1 | h1
      · rw [hbase] at h1
        rw [hOeq, pathJoin_eq input name hin1 hin2 hnOk] at h1
        exact (under_eq_decomp input (chars "organized") name h1).symm
      · rw [hOeq, pathJoin_eq input name hin1 hin2 hnOk] at h1
        exact (under_eq_decomp input (chars "organized") name h1).symm
    subst hnameO
    rw [mem_listNames_iff] at hname
    obtain ⟨qpath, hqmem, hqchild⟩ := hname
    obtain ⟨hqeq, hnOk2⟩ := (childNameOf_eq_some _ qpath (chars "organized")).mp hqchild
    have hqnode : fsGet st.fs qpath ≠ none := fsGet_ne_none_of_mem st.fs qpath hqmem
    obtain ⟨hIsi, hIei, hIeqi⟩ := pathNice_join (pathJoin (pathJoin input (chars "organized")) (chars "instances")) (chars "instance_" ++ natChars i)
      hDs hDe (instName_nameOk i)
    have hqA : qpath = (pathJoin input (chars "organized")) ++ '/' :: (chars "instances" ++ '/' ::
        ((chars "instance_" ++ natChars i) ++ '/' :: chars "organized")) := by
      rw [hqeq, hIeqi, hDeq]
      simp
    rcases processPhase_trace fs0 fs7 (pathJoin input (chars "organized")) ({ map_idx2filename := maps.1, map_filename2idx := maps.2, map_hash2idx := hmaps.2, all_files := names.map (fun n => pathJoin input n), instances_dir := pathJoin (pathJoin input (chars "organized")) (chars "instances") } : Ctx) ((names.map (fun n => pathJoin input n)).filter (fun f => endsW f (chars "GameObject.json"))) st hOs hOe hfresh hnew rfl hpi
        qpath _ hqA hqnode with ⟨t, ht, hpre, hdt⟩ | ⟨j, hjlt, hqI, hdt⟩ |
      ⟨j, hjlt, src, go, hgo, hsrcu, hq, hid, fd, hv⟩
    · simp only [bucketsOf, List.mem_cons, List.not_mem_nil, or_false] at ht
      rw [hqA] at hpre
      rcases ht with rfl | rfl | rfl | rfl | rfl | rfl | rfl
      · have hlen := hpre.length_le
        simp only [List.length_append, List.length_cons] at hlen
        omega
      · rw [hDeq] at hpre
        have h2 := under_prefix_decomp _ _ _ hpre
        have hlen := h2.length_le
        simp only [List.length_append, List.length_cons] at hlen
        omega
      · rw [hUeq] at hpre
        have h2 := under_prefix_decomp _ _ _ hpre
        have h3 : chars "unassigned" = chars "unassigned" ++ ([] : Chars) := by simp
        rw [h3] at h2
        exact inst_unass_prefix_kill _ _ h2
      · have hBeq : pathJoin (pathJoin (pathJoin input (chars "organized")) (chars "unassigned")) (chars "mesh") =
            (pathJoin input (chars "organized")) ++ '/' :: (chars "unassigned" ++ '/' :: chars "mesh") := by
          rw [pathJoin_eq (pathJoin (pathJoin input (chars "organized")) (chars "unassigned")) (chars "mesh") hUs hUe (by decide), hUeq]
          simp
        rw [hBeq] at hpre
        have h2 := under_prefix_decomp _ _ _ hpre
        exact inst_unass_prefix_kill _ _ h2
      · have hBeq : pathJoin (pathJoin (pathJoin input (chars "organized")) (chars "unassigned")) (chars "material") =
            (pathJoin input (chars "organized")) ++ '/' :: (chars "unassigned" ++ '/' :: chars "material") := by
          rw [pathJoin_eq (pathJoin (pathJoin input (chars "organized")) (chars "unassigned")) (chars "material") hUs hUe (by decide), hUeq]
          simp
        rw [hBeq] at hpre
        have h2 := under_prefix_decomp _ _ _ hpre
        exact inst_unass_prefix_kill _ _ h2
      · have hBeq : pathJoin (pathJoin (pathJoin input (chars "organized")) (chars "unassigned")) (chars "texture") =
            (pathJoin input (chars "organized")) ++ '/' :: (chars "unassigned" ++ '/' :: chars "texture") := by
          rw [pathJoin_eq (pathJoin (pathJoin input (chars "organized")) (chars "unassigned")) (chars "texture") hUs hUe (by decide), hUeq]
          simp
        rw [hBeq] at hpre
        have h2 := under_prefix_decomp _ _ _ hpre
        exact inst_unass_prefix_kill _ _ h2
      · have hBeq : pathJoin (pathJoin (pathJoin input (chars "organized")) (chars "unassigned")) (chars "other") =
            (pathJoin input (chars "organized")) ++ '/' :: (chars "unassigned" ++ '/' :: chars "other") := by
          rw [pathJoin_eq (pathJoin (pathJoin input (chars "organized")) (chars "unassigned")) (chars "other") hUs hUe (by decide), hUeq]
          simp
        rw [hBeq] at hpre
        have h2 := under_prefix_decomp _ _ _ hpre
        exact inst_unass_prefix_kill _ _ h2
    · have hIequ : instDirOf ({ map_idx2filename := maps.1, map_filename2idx := maps.2, map_hash2idx := hmaps.2, all_files := names.map (fun n => pathJoin input n), instances_dir := pathJoin (pathJoin input (chars "organized")) (chars "instances") } : Ctx) j = (pathJoin input (chars "organized")) ++ '/' :: (chars "instances" ++ '/' ::
          (chars "instance_" ++ natChars j)) := by
        show pathJoin (pathJoin (pathJoin input (chars "organized")) (chars "instances")) (chars "instance_" ++ natChars j) = _
        rw [pathJoin_eq (pathJoin (pathJoin input (chars "organized")) (chars "instances")) (chars "instance_" ++ natChars j) hDs hDe
          (instName_nameOk j), hDeq]
        simp
      rw [hqA, hIequ] at hqI
      have h2 := under_eq_decomp _ _ _ hqI
      have h3 := under_eq_decomp (chars "instances") _ _ h2
      have hsl := ((nameOk_iff _).mp (instName_nameOk j)).2
      have hmem : '/' ∈ chars "instance_" ++ natChars j := by
        rw [← h3]
        exact List.mem_append.mpr (Or.inr (List.mem_cons_self _ _))
      exact hsl '/' hmem rfl
    · have hIdir : instDirOf ({ map_idx2filename := maps.1, map_filename2idx := maps.2, map_hash2idx := hmaps.2, all_files := names.map (fun n => pathJoin input n), instances_dir := pathJoin (pathJoin input (chars "organized")) (chars "instances") } : Ctx) j = pathJoin (pathJoin (pathJoin input (chars "organized")) (chars "instances")) (chars "instance_" ++ natChars j) := rfl
      obtain ⟨hIsj, hIej, hIeqj⟩ := pathNice_join (pathJoin (pathJoin input (chars "organized")) (chars "instances")) (chars "instance_" ++ natChars j)
        hDs hDe (instName_nameOk j)
      rcases join_base_cases (instDirOf ({ map_idx2filename := maps.1, map_filename2idx := maps.2, map_hash2idx := hmaps.2, all_files := names.map (fun n => pathJoin input n), instances_dir := pathJoin (pathJoin input (chars "organized")) (chars "instances") } : Ctx) j) (baseName src)
          (by rw [hIdir]; exact hIsj) (by rw [hIdir]; exact hIej)
          (baseName_no_slash src) with ⟨hbn, hjoin⟩ | ⟨hbOk, hjoin⟩
      · rw [hjoin] at hq
        rw [hqeq] at hq
        exact join_name_ne_slash _ (chars "organized") _ (by decide) hq
      · rw [hjoin, hqeq] at hq
        obtain ⟨hdd, hbb⟩ := lastComp_decomp _ _ _ _ (by decide)
          (baseName_no_slash src) hq
        simp only [instSrc] at hsrcu
        rcases hsrcu with hsg | ⟨k, hget⟩ | ⟨hmemall, himg⟩
        · subst hsg
          simp only [List.mem_filter] at hgo
          obtain ⟨hmem, hend⟩ := hgo
          simp only [List.mem_map] at hmem
          obtain ⟨m, hmn, hme⟩ := hmem
          subst hme
          have hmOk : nameOk m = true := by
            rw [hnames] at hmn
            exact listNames_nameOk fs7 input m hmn
          have hjm := pathJoin_eq input m hin1 hin2 hmOk
          have hbm : baseName (pathJoin input m) = m := by
            rw [hjm]
            exact baseName_append input m ((nameOk_iff m).mp hmOk).2
          rw [hbm] at hbb
          rw [hjm, ← hbb] at hend
          have h5 := endsW_base input (chars "organized") (chars "GameObject.json")
            (by decide) hend
          rw [show endsW (chars "organized") (chars "GameObject.json") = false from
            by decide] at h5
          cases h5
        · have hval := buildEntryMaps_val (names.map (fun n => pathJoin input n)) maps.1 maps.2 (by rw [hbe]) k src hget
          obtain ⟨hmemall2, hcont⟩ := hval
          simp only [List.mem_map] at hmemall2
          obtain ⟨m, hmn, hme⟩ := hmemall2
          subst hme
          have hmOk : nameOk m = true := by
            rw [hnames] at hmn
            exact listNames_nameOk fs7 input m hmn
          have hjm := pathJoin_eq input m hin1 hin2 hmOk
          have hbm : baseName (pathJoin input m) = m := by
            rw [hjm]
            exact baseName_append input m ((nameOk_iff m).mp hmOk).2
          rw [hbm] at hbb
          rw [hjm, ← hbb, ← hOeq] at hcont
          rw [hent] at hcont
          cases hcont
        · simp only [List.mem_map] at hmemall
          obtain ⟨m, hmn, hme⟩ := hmemall
          subst hme
          have hmOk : nameOk m = true := by
            rw [hnames] at hmn
            exact listNames_nameOk fs7 input m hmn
          have hjm := pathJoin_eq input m hin1 hin2 hmOk
          have hbm : baseName (pathJoin input m) = m := by
            rw [hjm]
            exact baseName_append input m ((nameOk_iff m).mp hmOk).2
          rw [hbm] at hbb
          rw [hjm, ← hbb] at himg
          simp only [Bool.or_eq_true] at himg
          rcases himg with (h6 | h6) | h6
          · rw [← hOeq] at h6
            rw [htex] at h6
            cases h6
          · have h7 := endsW_base input (chars "organized") (chars ".png")
              (by decide) h6
            rw [show endsW (chars "organized") (chars ".png") = false from
              by decide] at h7
            cases h7
          · have h7 := endsW_base input (chars "organized") (chars ".jpg")
              (by decide) h6
            rw [show endsW (chars "organized") (chars ".jpg") = false from
              by decide] at h7
            cases h7
  have hOst : fsGet st.fs (pathJoin input (chars "organized")) = some Node.dir := mono (pathJoin input (chars "organized")) Node.dir hO7
  have hl1 : (pathJoin input (chars "organized")).length < (pathJoin (pathJoin input (chars "organized")) (chars "unassigned")).length :=
    pathJoin_length_gt _ _ (by decide)
  have hlB1 : (pathJoin (pathJoin input (chars "organized")) (chars "unassigned")).length < (pathJoin (pathJoin (pathJoin input (chars "organized")) (chars "unassigned")) (chars "mesh")).length :=
    pathJoin_length_gt _ _ (by decide)
  have hlB2 : (pathJoin (pathJoin input (chars "organized")) (chars "unassigned")).length < (pathJoin (pathJoin (pathJoin input (chars "organized")) (chars "unassigned")) (chars "material")).length :=
    pathJoin_length_gt _ _ (by decide)
  have hlB3 : (pathJoin (pathJoin input (chars "organized")) (chars "unassigned")).length < (pathJoin (pathJoin (pathJoin input (chars "organized")) (chars "unassigned")) (chars "texture")).length :=
    pathJoin_length_gt _ _ (by decide)
  have hlB4 : (pathJoin (pathJoin input (chars "organized")) (chars "unassigned")).length < (pathJoin (pathJoin (pathJoin input (chars "organized")) (chars "unassigned")) (chars "other")).length :=
    pathJoin_length_gt _ _ (by decide)
  refine sweepLoop_src_dir_error assigned (pathJoin (pathJoin (pathJoin input (chars "organized")) (chars "unassigned")) (chars "mesh"))
    (pathJoin (pathJoin (pathJoin input (chars "organized")) (chars "unassigned")) (chars "material")) (pathJoin (pathJoin (pathJoin input (chars "organized")) (chars "unassigned")) (chars "texture"))
    (pathJoin (pathJoin (pathJoin input (chars "organized")) (chars "unassigned")) (chars "other")) st (names.map (fun n => pathJoin input n)) (pathJoin input (chars "organized")) hOnotass ?_ hOfile hOst st2 hsw
  intro b hb
  simp only [List.mem_cons, List.not_mem_nil, or_false] at hb
  rcases hb with rfl | rfl | rfl | rfl
  · omega
  · omega
  · omega
  · omega

theorem bucket_canon (outp b : Chars)
    (houts : startsW outp (chars "/") = true)
    (houte : endsW outp (chars "/") = false)
    (hb : b ∈ bucketsOf outp) :
    ∃ bn, nameOk bn = true ∧
      b = pathJoin (pathJoin outp (chars "unassigned")) bn ∧
      b = outp ++ '/' :: (chars "unassigned" ++ '/' :: bn) ∧
      startsW b (chars "/") = true ∧ endsW b (chars "/") = false := by
  obtain ⟨hUs, hUe, hUeq⟩ := pathNice_join outp (chars "unassigned") houts houte (by decide)
  simp only [bucketsOf, List.mem_cons, List.not_mem_nil, or_false] at hb
  rcases hb with rfl | rfl | rfl | rfl
  · obtain ⟨hBs, hBe, hBeq⟩ := pathNice_join (pathJoin outp (chars "unassigned"))
      (chars "mesh") hUs hUe (by decide)
    exact ⟨chars "mesh", by decide, rfl, by rw [hBeq, hUeq]; simp, hBs, hBe⟩
  · obtain ⟨hBs, hBe, hBeq⟩ := pathNice_join (pathJoin outp (chars "unassigned"))
      (chars "material") hUs hUe (by decide)
    exact ⟨chars "material", by decide, rfl, by rw [hBeq, hUeq]; simp, hBs, hBe⟩
  · obtain ⟨hBs, hBe, hBeq⟩ := pathNice_join (pathJoin outp (chars "unassigned"))
      (chars "texture") hUs hUe (by decide)
    exact ⟨chars "texture", by decide, rfl, by rw [hBeq, hUeq]; simp, hBs, hBe⟩
  · obtain ⟨hBs, hBe, hBeq⟩ := pathNice_join (pathJoin outp (chars "unassigned"))
      (chars "other") hUs hUe (by decide)
    exact ⟨chars "other", by decide, rfl, by rw [hBeq, hUeq]; simp, hBs, hBe⟩

theorem bucket_member_canon (outp b : Chars)
    (houts : startsW outp (chars "/") = true)
    (houte : endsW outp (chars "/") = false)
    (hb : b ∈ bucketsOf outp) (m : Chars) (hm : ∀ c ∈ m, c ≠ '/') :
    ∃ X, pathJoin b m = outp ++ '/' :: (chars "unassigned" ++ '/' :: X) ∧ '/' ∈ X := by
  obtain ⟨bn, hbnOk, hbJ, hbeq, hbs, hbe⟩ := bucket_canon outp b houts houte hb
  rcases join_base_cases b m hbs hbe hm with ⟨hm0, hjoin⟩ | ⟨hmOk, hjoin⟩
  · refine ⟨bn ++ [ '/' ], ?_, by simp⟩
    rw [hjoin, hbeq]
    simp
  · refine ⟨bn ++ '/' :: m, ?_, by simp⟩
    rw [hjoin, hbeq]
    simp

theorem sweepJoin_canon (outp : Chars)
    (houts : startsW outp (chars "/") = true)
    (houte : endsW outp (chars "/") = false)
    (m : Chars) (hm : ∀ c ∈ m, c ≠ '/') :
    ∃ bn, nameOk bn = true ∧
      sweepDest (pathJoin (pathJoin outp (chars "unassigned")) (chars "mesh"))
        (pathJoin (pathJoin outp (chars "unassigned")) (chars "material"))
        (pathJoin (pathJoin outp (chars "unassigned")) (chars "texture"))
        (pathJoin (pathJoin outp (chars "unassigned")) (chars "other")) m =
        pathJoin (pathJoin outp (chars "unassigned")) bn ∧
      ((m = [] ∧ pathJoin (sweepDest
          (pathJoin (pathJoin outp (chars "unassigned")) (chars "mesh"))
          (pathJoin (pathJoin outp (chars "unassigned")) (chars "material"))
          (pathJoin (pathJoin outp (chars "unassigned")) (chars "texture"))
          (pathJoin (pathJoin outp (chars "unassigned")) (chars "other")) m) m =
          outp ++ '/' :: (chars "unassigned" ++ '/' :: (bn ++ [ '/' ]))) ∨
       (nameOk m = true ∧ pathJoin (sweepDest
          (pathJoin (pathJoin outp (chars "unassigned")) (chars "mesh"))
          (pathJoin (pathJoin outp (chars "unassigned")) (chars "material"))
          (pathJoin (pathJoin outp (chars "unassigned")) (chars "texture"))
          (pathJoin (pathJoin outp (chars "unassigned")) (chars "other")) m) m =
          outp ++ '/' :: (chars "unassigned" ++ '/' :: (bn ++ '/' :: m)))) := by
  have hmem := sweepDest_mem
    (pathJoin (pathJoin outp (chars "unassigned")) (chars "mesh"))
    (pathJoin (pathJoin outp (chars "unassigned")) (chars "material"))
    (pathJoin (pathJoin outp (chars "unassigned")) (chars "texture"))
    (pathJoin (pathJoin outp (chars "unassigned")) (chars "other")) m
  have hmem2 : sweepDest
      (pathJoin (pathJoin outp (chars "unassigned")) (chars "mesh"))
      (pathJoin (pathJoin outp (chars "unassigned")) (chars "material"))
      (pathJoin (pathJoin outp (chars "unassigned")) (chars "texture"))
      (pathJoin (pathJoin outp (chars "unassigned")) (chars "other")) m ∈
      bucketsOf outp := hmem
  obtain ⟨bn, hbnOk, hbJ, hbeq, hbs, hbe⟩ := bucket_canon outp _ houts houte hmem2
  refine ⟨bn, hbnOk, hbJ, ?_⟩
  rcases join_base_cases _ m hbs hbe hm with ⟨hm0, hjoin⟩ | ⟨hmOk, hjoin⟩
  · left
    refine ⟨hm0, ?_⟩
    rw [hjoin, hbeq]
    simp
  · right
    refine ⟨hmOk, ?_⟩
    rw [hjoin, hbeq]
    simp

theorem M_kill_inst (outp X t : Chars)
    (houts : startsW outp (chars "/") = true)
    (houte : endsW outp (chars "/") = false)
    (ht : t ∈ outp :: pathJoin outp (chars "instances") ::
        pathJoin outp (chars "unassigned") :: bucketsOf outp)
    (hpre : outp ++ '/' :: (chars "instances" ++ '/' :: X) <+: t) : False := by
  obtain ⟨hDs, hDe, hDeq⟩ := pathNice_join outp (chars "instances") houts houte (by decide)
  obtain ⟨hUs, hUe, hUeq⟩ := pathNice_join outp (chars "unassigned") houts houte (by decide)
  simp only [List.mem_cons] at ht
  rcases ht with rfl | rfl | rfl | hb
  · have hlen := hpre.length_le
    simp only [List.length_append, List.length_cons] at hlen
    omega
  · rw [hDeq] at hpre
    have h2 := under_prefix_decomp _ _ _ hpre
    have hlen := h2.length_le
    simp only [List.length_append, List.length_cons] at hlen
    omega
  · rw [hUeq] at hpre
    have h2 := under_prefix_decomp _ _ _ hpre
    have h3 : chars "unassigned" = chars "unassigned" ++ ([] : Chars) := by simp
    rw [h3] at h2
    exact inst_unass_prefix_kill _ _ h2
  · obtain ⟨bn, hbnOk, hbJ, hbeq, hbs, hbe⟩ := bucket_canon outp t houts houte hb
    rw [hbeq] at hpre
    have h2 := under_prefix_decomp _ _ _ hpre
    exact inst_unass_prefix_kill _ _ h2

theorem M_kill_unass (outp X t : Chars)
    (houts : startsW outp (chars "/") = true)
    (houte : endsW outp (chars "/") = false)
    (ht : t ∈ outp :: pathJoin outp (chars "instances") ::
        pathJoin outp (chars "unassigned") :: bucketsOf outp)
    (hpre : outp ++ '/' :: (chars "unassigned" ++ '/' :: X) <+: t)
    (hX : '/' ∈ X) : False := by
  obtain ⟨hDs, hDe, hDeq⟩ := pathNice_join outp (chars "instances") houts houte (by decide)
  obtain ⟨hUs, hUe, hUeq⟩ := pathNice_join outp (chars "unassigned") houts houte (by decide)
  simp only [List.mem_cons] at ht
  rcases ht with rfl | rfl | rfl | hb
  · have hlen := hpre.length_le
    simp only [List.length_append, List.length_cons] at hlen
    omega
  · rw [hDeq] at hpre
    have h2 := under_prefix_decomp _ _ _ hpre
    have h3 : chars "instances" = chars "instances" ++ ([] : Chars) := by simp
    rw [h3] at h2
    exact unass_inst_prefix_kill _ _ h2
  · rw [hUeq] at hpre
    have h2 := under_prefix_decomp _ _ _ hpre
    have hlen := h2.length_le
    simp only [List.length_append, List.length_cons] at hlen
    omega
  · obtain ⟨bn, hbnOk, hbJ, hbeq, hbs, hbe⟩ := bucket_canon outp t houts houte hb
    rw [hbeq] at hpre
    have h2 := under_prefix_decomp _ _ _ hpre
    have h3 := under_prefix_decomp (chars "unassigned") _ _ h2
    have h4 : '/' ∈ bn := h3.sublist.subset hX
    obtain ⟨hne, hsl⟩ := (nameOk_iff bn).mp hbnOk
    exact hsl '/' h4 rfl

/-- C6: the claim says that after a complete run in which no two instances
claim the same file, every file of the input directory appears in exactly
one place under the output directory — inside exactly one instance
directory or inside exactly one unassigned bucket, never both and never
neither.  Confirmed: for a well-formed starting filesystem, absolute input
and output paths, a fresh output subtree, a successful run, and pairwise
disjoint instance-directory listings, every input file's name is listed
under exactly one member of `placesOf`. -/
theorem c6_partition (cwd : Chars) (fs0 : FS) (input outp : Chars) (st2 : RunSt)
    (n : Chars) (fd : FData)
    (hin : pathOk input = true)
    (hout : pathOk outp = true)
    (hfresh : fs0.all (fun e => !underEq outp e.1) = true)
    (hok : organize_crp_assets cwd fs0 input (some outp) = .ok (st2, outp))
    (hdisj : (listNames st2.fs (pathJoin outp (chars "instances"))).Pairwise
      (fun a b => ∀ m, m ∈ listNames st2.fs
          (pathJoin (pathJoin outp (chars "instances")) a) →
        m ∉ listNames st2.fs (pathJoin (pathJoin outp (chars "instances")) b)))
    (hn : nameOk n = true)
    (hfile : fsGet fs0 (pathJoin input n) = some (Node.file fd)) :
    ∃ d ∈ placesOf st2.fs outp, n ∈ listNames st2.fs d ∧
      ∀ d2 ∈ placesOf st2.fs outp, n ∈ listNames st2.fs d2 → d2 = d := by
  obtain ⟨houtp, fs7, names, maps, hmaps, st, assigned, hmono, hnew, hnodup, htarget,
    hls, hbe, hpi, hca, hsw⟩ := organize_inv_out cwd fs0 input outp st2 outp hok
  have habs : pyAbspath cwd input = input := by
    unfold pyAbspath
    rw [if_pos (pathOk_startsW input hin)]
  rw [habs] at hls hbe hpi hca hsw
  have hin1 : startsW input (chars "/") = true := pathOk_startsW input hin
  have hin2 : endsW input (chars "/") = false := pathOk_not_endsW input hin
  have houts : startsW outp (chars "/") = true := pathOk_startsW outp hout
  have houte : endsW outp (chars "/") = false := pathOk_not_endsW outp hout
  obtain ⟨hDs, hDe, hDeq⟩ := pathNice_join outp (chars "instances") houts houte (by decide)
  obtain ⟨hUs, hUe, hUeq⟩ := pathNice_join outp (chars "unassigned") houts houte (by decide)
  obtain ⟨hindir, hnames⟩ := pyListdir_ok fs7 input names hls
  obtain ⟨mono, newc, ndup⟩ := processInstances_char ({ map_idx2filename := maps.1, map_filename2idx := maps.2, map_hash2idx := hmaps.2, all_files := names.map (fun n => pathJoin input n), instances_dir := pathJoin outp (chars "instances") } : Ctx) { fs := fs7, log := [] } st 0
    ((names.map (fun n => pathJoin input n)).filter (fun f => endsW f (chars "GameObject.json"))) hpi
  have hfeq := pathJoin_eq input n hin1 hin2 hn
  have hf7 : fsGet fs7 (pathJoin input n) = some (Node.file fd) := hmono _ _ hfile
  have hnn : n ∈ names := by
    rw [hnames]
    exact mem_listNames_of_node fs7 input n hin1 hin2 hn (by rw [hf7]; simp)
  have hfall : pathJoin input n ∈ (names.map (fun n => pathJoin input n)) := List.mem_map.mpr ⟨n, hnn, rfl⟩
  have hnameOk2 : ∀ m ∈ names, nameOk m = true := by
    intro m hm
    rw [hnames] at hm
    exact listNames_nameOk fs7 input m hm
  have bchild_none_st : ∀ b ∈ bucketsOf outp, ∀ m, (∀ c ∈ m, c ≠ '/') →
      fsGet st.fs (pathJoin b m) = none := by
    intro b hb m hm
    by_contra hne
    obtain ⟨X, hXeq, hXsl⟩ := bucket_member_canon outp b houts houte hb m hm
    rcases processPhase_trace fs0 fs7 outp ({ map_idx2filename := maps.1, map_filename2idx := maps.2, map_hash2idx := hmaps.2, all_files := names.map (fun n => pathJoin input n), instances_dir := pathJoin outp (chars "instances") } : Ctx) ((names.map (fun n => pathJoin input n)).filter (fun f => endsW f (chars "GameObject.json"))) st houts houte hfresh hnew rfl hpi
        (pathJoin b m) _ hXeq hne with ⟨t, ht, hpre, hdt⟩ | ⟨j, hj, hqI, hdt⟩ |
      ⟨j, hj, src, go, hgo, hsrcu, hq, hid, fd2, hv⟩
    · rw [hXeq] at hpre
      exact M_kill_unass outp X t houts houte ht hpre hXsl
    · have hIequ : instDirOf ({ map_idx2filename := maps.1, map_filename2idx := maps.2, map_hash2idx := hmaps.2, all_files := names.map (fun n => pathJoin input n), instances_dir := pathJoin outp (chars "instances") } : Ctx) j = outp ++ '/' :: (chars "instances" ++ '/' ::
          (chars "instance_" ++ natChars j)) := by
        show pathJoin (pathJoin outp (chars "instances")) (chars "instance_" ++ natChars j) = _
        rw [pathJoin_eq (pathJoin outp (chars "instances")) (chars "instance_" ++ natChars j) hDs hDe
          (instName_nameOk j), hDeq]
        simp
      rw [hXeq, hIequ] at hqI
      have h2 := under_eq_decomp _ _ _ hqI
      exact unass_inst_eq_kill _ _ h2
    · have hIdir : instDirOf ({ map_idx2filename := maps.1, map_filename2idx := maps.2, map_hash2idx := hmaps.2, all_files := names.map (fun n => pathJoin input n), instances_dir := pathJoin outp (chars "instances") } : Ctx) j = pathJoin (pathJoin outp (chars "instances")) (chars "instance_" ++ natChars j) := rfl
      obtain ⟨hIsj, hIej, hIeqj⟩ := pathNice_join (pathJoin outp (chars "instances")) (chars "instance_" ++ natChars j)
        hDs hDe (instName_nameOk j)
      rcases join_base_cases (instDirOf ({ map_idx2filename := maps.1, map_filename2idx := maps.2, map_hash2idx := hmaps.2, all_files := names.map (fun n => pathJoin input n), instances_dir := pathJoin outp (chars "instances") } : Ctx) j) (baseName src)
          (by rw [hIdir]; exact hIsj) (by rw [hIdir]; exact hIej)
          (baseName_no_slash src) with ⟨hbn0, hjoin⟩ | ⟨hbOk, hjoin⟩
      · rw [hjoin, hIdir, hIeqj, hDeq, hXeq] at hq
        have hq2 : outp ++ '/' :: (chars "unassigned" ++ '/' :: X) =
            outp ++ '/' :: (chars "instances" ++ '/' ::
              ((chars "instance_" ++ natChars j) ++ [ '/' ])) := by
          rw [hq]
          simp
        have h2 := under_eq_decomp _ _ _ hq2
        exact unass_inst_eq_kill _ _ h2
      · rw [hjoin, hIdir, hIeqj, hDeq, hXeq] at hq
        have hq2 : outp ++ '/' :: (chars "unassigned" ++ '/' :: X) =
            outp ++ '/' :: (chars "instances" ++ '/' ::
              ((chars "instance_" ++ natChars j) ++ '/' :: baseName src)) := by
          rw [hq]
          simp
        have h2 := under_eq_decomp _ _ _ hq2
        exact unass_inst_eq_kill _ _ h2
  have hnd : ∀ b ∈ [(pathJoin (pathJoin outp (chars "unassigned")) (chars "mesh")), (pathJoin (pathJoin outp (chars "unassigned")) (chars "material")), (pathJoin (pathJoin outp (chars "unassigned")) (chars "texture")), (pathJoin (pathJoin outp (chars "unassigned")) (chars "other"))], ∀ m, (∀ c ∈ m, c ≠ '/') →
      fsGet st.fs (pathJoin b m) ≠ some Node.dir := by
    intro b hb m hm
    rw [bchild_none_st b hb m hm]
    simp
  obtain ⟨sfwd, sbwd, sdup⟩ := sweepLoop_char assigned (pathJoin (pathJoin outp (chars "unassigned")) (chars "mesh")) (pathJoin (pathJoin outp (chars "unassigned")) (chars "material")) (pathJoin (pathJoin outp (chars "unassigned")) (chars "texture")) (pathJoin (pathJoin outp (chars "unassigned")) (chars "other")) st st2 (names.map (fun n => pathJoin input n)) hsw hnd
  have spres : ∀ q, fsGet st.fs q ≠ none → fsGet st2.fs q ≠ none := by
    intro q hq
    rcases sfwd q with he | ⟨f2, hf2l, hf2a, hqj, fd2, hval⟩
    · rw [he]
      exact hq
    · rw [hval]
      simp
  have sback : ∀ q X, q = outp ++ '/' :: (chars "instances" ++ '/' :: X) →
      fsGet st2.fs q = fsGet st.fs q := by
    intro q X hq
    rcases sfwd q with he | ⟨f2, hf2l, hf2a, hqj, fd2, hval⟩
    · exact he
    · exfalso
      obtain ⟨bn, hbnOk, hsd, hcan⟩ := sweepJoin_canon outp houts houte (baseName f2)
        (baseName_no_slash f2)
      rcases hcan with ⟨hm0, hje⟩ | ⟨hmOk2, hje⟩
      · rw [hje] at hqj
        rw [hq] at hqj
        have h2 := under_eq_decomp _ _ _ hqj
        exact inst_unass_eq_kill _ _ h2
      · rw [hje] at hqj
        rw [hq] at hqj
        have h2 := under_eq_decomp _ _ _ hqj
        exact inst_unass_eq_kill _ _ h2
  have bmatch : ∀ b ∈ bucketsOf outp, ∀ m, nameOk m = true →
      fsGet st2.fs (pathJoin b m) ≠ none →
      pathJoin input m ∉ assigned ∧ b = sweepDest (pathJoin (pathJoin outp (chars "unassigned")) (chars "mesh")) (pathJoin (pathJoin outp (chars "unassigned")) (chars "material")) (pathJoin (pathJoin outp (chars "unassigned")) (chars "texture")) (pathJoin (pathJoin outp (chars "unassigned")) (chars "other")) m := by
    intro b hb m hm hne
    rcases sfwd (pathJoin b m) with he | ⟨f2, hf2l, hf2a, hqj, fd2, hval⟩
    · exfalso
      rw [he] at hne
      exact hne (bchild_none_st b hb m ((nameOk_iff m).mp hm).2)
    · simp only [List.mem_map] at hf2l
      obtain ⟨m2, hm2n, hf2e⟩ := hf2l
      have hm2Ok : nameOk m2 = true := hnameOk2 m2 hm2n
      have hbase2 : baseName f2 = m2 := by
        rw [← hf2e, pathJoin_eq input m2 hin1 hin2 hm2Ok]
        exact baseName_append input m2 ((nameOk_iff m2).mp hm2Ok).2
      rw [hbase2] at hqj
      obtain ⟨bnL, hbnLOk, hbJL, hbeqL, hbsL, hbeL⟩ := bucket_canon outp b houts houte hb
      have hjL : pathJoin b m = outp ++ '/' :: (chars "unassigned" ++ '/' ::
          (bnL ++ '/' :: m)) := by
        rw [pathJoin_eq b m hbsL hbeL hm, hbeqL]
        simp
      obtain ⟨bn2, hbn2Ok, hsd2, hcan2⟩ := sweepJoin_canon outp houts houte m2
        ((nameOk_iff m2).mp hm2Ok).2
      rcases hcan2 with ⟨hm20, hje2⟩ | ⟨hm2Ok2, hje2⟩
      · exfalso
        rw [hm20] at hm2Ok
        exact absurd hm2Ok (by decide)
      · rw [hje2] at hqj
        rw [hjL] at hqj
        have h2 := under_eq_decomp _ _ _ hqj
        have h3 := under_eq_decomp (chars "unassigned") _ _ h2
        obtain ⟨hbn, hmm⟩ := lastComp_decomp _ _ _ _ ((nameOk_iff m).mp hm).2
          ((nameOk_iff m2).mp hm2Ok).2 h3
        subst hmm
        constructor
        · rw [← hf2e] at hf2a
          exact hf2a
        · rw [hsd2, hbJL, hbn]
  have dchild : ∀ a2, a2 ∈ listNames st2.fs (pathJoin outp (chars "instances")) →
      ∃ j2, j2 < ((names.map (fun n => pathJoin input n)).filter (fun f => endsW f (chars "GameObject.json"))).length ∧ a2 = chars "instance_" ++ natChars j2 ∧
        fsGet st.fs (pathJoin (pathJoin outp (chars "instances")) a2) = some Node.dir := by
    intro a2 ha2
    rw [mem_listNames_iff] at ha2
    obtain ⟨q3, hq3mem, hq3child⟩ := ha2
    obtain ⟨hq3eq, ha2Ok⟩ := (childNameOf_eq_some _ q3 a2).mp hq3child
    have hq3node2 : fsGet st2.fs q3 ≠ none := fsGet_ne_none_of_mem st2.fs q3 hq3mem
    have hq3A : q3 = outp ++ '/' :: (chars "instances" ++ '/' :: a2) := by
      rw [hq3eq, hDeq]
      simp
    have hq3st : fsGet st.fs q3 ≠ none := by
      rw [← sback q3 _ hq3A]
      exact hq3node2
    rcases processPhase_trace fs0 fs7 outp ({ map_idx2filename := maps.1, map_filename2idx := maps.2, map_hash2idx := hmaps.2, all_files := names.map (fun n => pathJoin input n), instances_dir := pathJoin outp (chars "instances") } : Ctx) ((names.map (fun n => pathJoin input n)).filter (fun f => endsW f (chars "GameObject.json"))) st houts houte hfresh hnew rfl hpi
        q3 _ hq3A hq3st with ⟨t, ht, hpre, hdt⟩ | ⟨j2, hj2, hqI, hdt⟩ |
      ⟨j2, hj2, src, go, hgo, hsrcu, hq, hid, fd2, hv⟩
    · exfalso
      rw [hq3A] at hpre
      exact M_kill_inst outp a2 t houts houte ht hpre
    · have hIequ : instDirOf ({ map_idx2filename := maps.1, map_filename2idx := maps.2, map_hash2idx := hmaps.2, all_files := names.map (fun n => pathJoin input n), instances_dir := pathJoin outp (chars "instances") } : Ctx) j2 = outp ++ '/' :: (chars "instances" ++ '/' ::
          (chars "instance_" ++ natChars j2)) := by
        show pathJoin (pathJoin outp (chars "instances")) (chars "instance_" ++ natChars j2) = _
        rw [pathJoin_eq (pathJoin outp (chars "instances")) (chars "instance_" ++ natChars j2) hDs hDe
          (instName_nameOk j2), hDeq]
        simp
      rw [hq3A, hIequ] at hqI
      have h2 := under_eq_decomp _ _ _ hqI
      have h3 := under_eq_decomp (chars "instances") _ _ h2
      refine ⟨j2, hj2, h3, ?_⟩
      rw [pathJoin_eq (pathJoin outp (chars "instances")) a2 hDs hDe ha2Ok, ← hq3eq]
      exact hdt
    · exfalso
      have hIdir : instDirOf ({ map_idx2filename := maps.1, map_filename2idx := maps.2, map_hash2idx := hmaps.2, all_files := names.map (fun n => pathJoin input n), instances_dir := pathJoin outp (chars "instances") } : Ctx) j2 = pathJoin (pathJoin outp (chars "instances")) (chars "instance_" ++ natChars j2) := rfl
      obtain ⟨hIsj, hIej, hIeqj⟩ := pathNice_join (pathJoin outp (chars "instances")) (chars "instance_" ++ natChars j2)
        hDs hDe (instName_nameOk j2)
      rcases join_base_cases (instDirOf ({ map_idx2filename := maps.1, map_filename2idx := maps.2, map_hash2idx := hmaps.2, all_files := names.map (fun n => pathJoin input n), instances_dir := pathJoin outp (chars "instances") } : Ctx) j2) (baseName src)
          (by rw [hIdir]; exact hIsj) (by rw [hIdir]; exact hIej)
          (baseName_no_slash src) with ⟨hbn0, hjoin⟩ | ⟨hbOk, hjoin⟩
      · rw [hjoin] at hq
        rw [hq3eq] at hq
        exact join_name_ne_slash _ a2 _ ha2Ok hq
      · rw [hjoin, hq3eq] at hq
        rw [hIdir, hIeqj] at hq
        have hq2 : pathJoin outp (chars "instances") ++ '/' :: a2 =
            pathJoin outp (chars "instances") ++ '/' ::
              ((chars "instance_" ++ natChars j2) ++ '/' :: baseName src) := by
          rw [hq]
          simp
        have h2 := under_eq_decomp _ _ _ hq2
        have hsl := ((nameOk_iff a2).mp ha2Ok).2
        have hmem4 : '/' ∈ a2 := by
          rw [h2]
          exact List.mem_append.mpr (Or.inr (List.mem_cons_self _ _))
        exact hsl '/' hmem4 rfl
  have instgrand : ∀ a2 m2, nameOk a2 = true → nameOk m2 = true →
      fsGet st2.fs (pathJoin (pathJoin (pathJoin outp (chars "instances")) a2) m2) ≠ none →
      fsGet st.fs (pathJoin (pathJoin (pathJoin outp (chars "instances")) a2) m2) ≠ none := by
    intro a2 m2 ha2 hm2 hne
    obtain ⟨hIs2, hIe2, hIeq2⟩ := pathNice_join (pathJoin outp (chars "instances")) a2 hDs hDe ha2
    have hA : pathJoin (pathJoin (pathJoin outp (chars "instances")) a2) m2 = outp ++ '/' :: (chars "instances" ++ '/' ::
        (a2 ++ '/' :: m2)) := by
      rw [pathJoin_eq (pathJoin (pathJoin outp (chars "instances")) a2) m2 hIs2 hIe2 hm2, hIeq2, hDeq]
      simp
    rw [← sback _ _ hA]
    exact hne
  by_cases hass : pathJoin input n ∈ assigned
  · unfold computeAssigned at hca
    obtain ⟨fwd, bwd⟩ := computeAssignedAux_char st.fs input (pathJoin outp (chars "instances")) (List.range ((names.map (fun n => pathJoin input n)).filter (fun f => endsW f (chars "GameObject.json"))).length)
      assigned hca
    obtain ⟨i, hi, name, hname, hor⟩ := fwd _ hass
    have hnmOk : nameOk name = true := listNames_nameOk st.fs _ name hname
    have hbase : baseName name = name := baseName_of_nameOk name hnmOk
    have hnameN : name = n := by
      rcases hor with h1 | h1
      · rw [hbase] at h1
        rw [hfeq, pathJoin_eq input name hin1 hin2 hnmOk] at h1
        exact (under_eq_decomp input n name h1).symm
      · rw [hfeq, pathJoin_eq input name hin1 hin2 hnmOk] at h1
        exact (under_eq_decomp input n name h1).symm
    rw [hnameN] at hname
    rw [mem_listNames_iff] at hname
    obtain ⟨qpath, hqmem, hqchild⟩ := hname
    obtain ⟨hqeq, hqnOk⟩ := (childNameOf_eq_some _ qpath n).mp hqchild
    have hqnode : fsGet st.fs qpath ≠ none := fsGet_ne_none_of_mem st.fs qpath hqmem
    obtain ⟨hIsi, hIei, hIeqi⟩ := pathNice_join (pathJoin outp (chars "instances")) (chars "instance_" ++ natChars i)
      hDs hDe (instName_nameOk i)
    have hqA : qpath = outp ++ '/' :: (chars "instances" ++ '/' ::
        ((chars "instance_" ++ natChars i) ++ '/' :: n)) := by
      rw [hqeq, hIeqi, hDeq]
      simp
    rcases processPhase_trace fs0 fs7 outp ({ map_idx2filename := maps.1, map_filename2idx := maps.2, map_hash2idx := hmaps.2, all_files := names.map (fun n => pathJoin input n), instances_dir := pathJoin outp (chars "instances") } : Ctx) ((names.map (fun n => pathJoin input n)).filter (fun f => endsW f (chars "GameObject.json"))) st houts houte hfresh hnew rfl hpi
        qpath _ hqA hqnode with ⟨t, ht, hpre, hdt⟩ | ⟨j, hj, hqI, hdt⟩ |
      ⟨j, hj, src, go, hgo, hsrcu, hq, hid, fd2, hv⟩
    · exfalso
      rw [hqA] at hpre
      exact M_kill_inst outp _ t houts houte ht hpre
    · exfalso
      have hIequ : instDirOf ({ map_idx2filename := maps.1, map_filename2idx := maps.2, map_hash2idx := hmaps.2, all_files := names.map (fun n => pathJoin input n), instances_dir := pathJoin outp (chars "instances") } : Ctx) j = outp ++ '/' :: (chars "instances" ++ '/' ::
          (chars "instance_" ++ natChars j)) := by
        show pathJoin (pathJoin outp (chars "instances")) (chars "instance_" ++ natChars j) = _
        rw [pathJoin_eq (pathJoin outp (chars "instances")) (chars "instance_" ++ natChars j) hDs hDe
          (instName_nameOk j), hDeq]
        simp
      rw [hqA, hIequ] at hqI
      have h2 := under_eq_decomp _ _ _ hqI
      have h3 := under_eq_decomp (chars "instances") _ _ h2
      have hsl := ((nameOk_iff _).mp (instName_nameOk j)).2
      have hmem4 : '/' ∈ chars "instance_" ++ natChars j := by
        rw [← h3]
        exact List.mem_append.mpr (Or.inr (List.mem_cons_self _ _))
      exact hsl '/' hmem4 rfl
    · have hIdir : instDirOf ({ map_idx2filename := maps.1, map_filename2idx := maps.2, map_hash2idx := hmaps.2, all_files := names.map (fun n => pathJoin input n), instances_dir := pathJoin outp (chars "instances") } : Ctx) j = pathJoin (pathJoin outp (chars "instances")) (chars "instance_" ++ natChars j) := rfl
      obtain ⟨hIsj, hIej, hIeqj⟩ := pathNice_join (pathJoin outp (chars "instances")) (chars "instance_" ++ natChars j)
        hDs hDe (instName_nameOk j)
      rcases join_base_cases (instDirOf ({ map_idx2filename := maps.1, map_filename2idx := maps.2, map_hash2idx := hmaps.2, all_files := names.map (fun n => pathJoin input n), instances_dir := pathJoin outp (chars "instances") } : Ctx) j) (baseName src)
          (by rw [hIdir]; exact hIsj) (by rw [hIdir]; exact hIej)
          (baseName_no_slash src) with ⟨hbn0, hjoin⟩ | ⟨hbOk, hjoin⟩
      · exfalso
        rw [hjoin] at hq
        rw [hqeq] at hq
        exact join_name_ne_slash _ n _ hn hq
      · rw [hjoin, hqeq] at hq
        obtain ⟨hdd, hbb⟩ := lastComp_decomp _ _ _ _ ((nameOk_iff n).mp hn).2
          (baseName_no_slash src) hq
        have hstI : fsGet st.fs (pathJoin (pathJoin outp (chars "instances")) (chars "instance_" ++ natChars i)) =
            some Node.dir := by
          rw [hdd]
          exact hid
        have hstI2 : fsGet st2.fs (pathJoin (pathJoin outp (chars "instances")) (chars "instance_" ++ natChars i)) ≠
            none := spres _ (by rw [hstI]; simp)
        have hai2 : chars "instance_" ++ natChars i ∈ listNames st2.fs (pathJoin outp (chars "instances")) :=
          mem_listNames_of_node st2.fs (pathJoin outp (chars "instances")) _ hDs hDe (instName_nameOk i) hstI2
        have hqn2 : fsGet st2.fs qpath ≠ none := spres qpath hqnode
        have hn2mem : n ∈ listNames st2.fs
            (pathJoin (pathJoin outp (chars "instances")) (chars "instance_" ++ natChars i)) := by
          apply mem_listNames_of_node st2.fs _ n hIsi hIei hn
          rw [pathJoin_eq _ n hIsi hIei hn, ← hqeq]
          exact hqn2
        refine ⟨pathJoin (pathJoin outp (chars "instances")) (chars "instance_" ++ natChars i), ?_, hn2mem, ?_⟩
        · unfold placesOf
          exact List.mem_append.mpr (Or.inl (List.mem_map.mpr ⟨_, hai2, rfl⟩))
        · intro d2 hd2 hn2
          unfold placesOf at hd2
          rcases List.mem_append.mp hd2 with hd2i | hd2b
          · simp only [List.mem_map] at hd2i
            obtain ⟨a2, ha2mem, hd2e⟩ := hd2i
            subst hd2e
            by_contra hne
            have hane : a2 ≠ chars "instance_" ++ natChars i := by
              intro hc
              exact hne (by rw [hc])
            rcases pairwise_mem_or hdisj ha2mem hai2 hane with hR | hR
            · exact hR n hn2 hn2mem
            · exact hR n hn2mem hn2
          · exfalso
            rw [mem_listNames_iff] at hn2
            obtain ⟨q4, hq4mem, hq4child⟩ := hn2
            obtain ⟨hq4eq, hq4nOk⟩ := (childNameOf_eq_some _ q4 n).mp hq4child
            have hq4node : fsGet st2.fs q4 ≠ none := fsGet_ne_none_of_mem _ _ hq4mem
            obtain ⟨bnx, hbnxOk, hbJx, hbeqx, hbsx, hbex⟩ :=
              bucket_canon outp d2 houts houte hd2b
            have hq4join : pathJoin d2 n = q4 := by
              rw [pathJoin_eq d2 n hbsx hbex hn, hq4eq]
            obtain ⟨hnotass, hsd⟩ := bmatch d2 hd2b n hn (by rw [hq4join]; exact hq4node)
            exact hnotass hass
  · have hbf : baseName (pathJoin input n) = n := by
      rw [hfeq]
      exact baseName_append input n ((nameOk_iff n).mp hn).2
    have hsweepnode := sbwd _ hfall hass
    rw [hbf] at hsweepnode
    have hsdmem : sweepDest (pathJoin (pathJoin outp (chars "unassigned")) (chars "mesh")) (pathJoin (pathJoin outp (chars "unassigned")) (chars "material")) (pathJoin (pathJoin outp (chars "unassigned")) (chars "texture")) (pathJoin (pathJoin outp (chars "unassigned")) (chars "other")) n ∈ bucketsOf outp :=
      sweepDest_mem (pathJoin (pathJoin outp (chars "unassigned")) (chars "mesh")) (pathJoin (pathJoin outp (chars "unassigned")) (chars "material")) (pathJoin (pathJoin outp (chars "unassigned")) (chars "texture")) (pathJoin (pathJoin outp (chars "unassigned")) (chars "other")) n
    obtain ⟨bnL, hbnLOk, hbJL, hbeqL, hbsL, hbeL⟩ :=
      bucket_canon outp _ houts houte hsdmem
    have hnmem2 : n ∈ listNames st2.fs (sweepDest (pathJoin (pathJoin outp (chars "unassigned")) (chars "mesh")) (pathJoin (pathJoin outp (chars "unassigned")) (chars "material")) (pathJoin (pathJoin outp (chars "unassigned")) (chars "texture")) (pathJoin (pathJoin outp (chars "unassigned")) (chars "other")) n) :=
      mem_listNames_of_node st2.fs _ n hbsL hbeL hn hsweepnode
    refine ⟨sweepDest (pathJoin (pathJoin outp (chars "unassigned")) (chars "mesh")) (pathJoin (pathJoin outp (chars "unassigned")) (chars "material")) (pathJoin (pathJoin outp (chars "unassigned")) (chars "texture")) (pathJoin (pathJoin outp (chars "unassigned")) (chars "other")) n, ?_, hnmem2, ?_⟩
    · unfold placesOf
      exact List.mem_append.mpr (Or.inr hsdmem)
    · intro d2 hd2 hn2
      unfold placesOf at hd2
      rcases List.mem_append.mp hd2 with hd2i | hd2b
      · exfalso
        simp only [List.mem_map] at hd2i
        obtain ⟨a2, ha2mem, hd2e⟩ := hd2i
        subst hd2e
        obtain ⟨j2, hj2, ha2e, hdirst⟩ := dchild a2 ha2mem
        have ha2Ok : nameOk a2 = true := by
          rw [ha2e]
          exact instName_nameOk j2
        rw [mem_listNames_iff] at hn2
        obtain ⟨q4, hq4mem, hq4child⟩ := hn2
        obtain ⟨hq4eq, hq4nOk⟩ := (childNameOf_eq_some _ q4 n).mp hq4child
        have hq4node : fsGet st2.fs q4 ≠ none := fsGet_ne_none_of_mem _ _ hq4mem
        obtain ⟨hIs2, hIe2, hIeq2⟩ := pathNice_join (pathJoin outp (chars "instances")) a2 hDs hDe ha2Ok
        have hq4join : pathJoin (pathJoin (pathJoin outp (chars "instances")) a2) n = q4 := by
          rw [pathJoin_eq (pathJoin (pathJoin outp (chars "instances")) a2) n hIs2 hIe2 hn, hq4eq]
        have hq4st : fsGet st.fs (pathJoin (pathJoin (pathJoin outp (chars "instances")) a2) n) ≠ none := by
          apply instgrand a2 n ha2Ok hn
          rw [hq4join]
          exact hq4node
        have hnlst : n ∈ listNames st.fs (pathJoin (pathJoin outp (chars "instances")) a2) :=
          mem_listNames_of_node st.fs _ n hIs2 hIe2 hn hq4st
        have hne2 : fsGet st.fs (pathJoin (pathJoin outp (chars "instances")) (chars "instance_" ++ natChars j2)) ≠
            none := by
          rw [← ha2e, hdirst]
          simp
        have hnlst2 : n ∈ listNames st.fs
            (pathJoin (pathJoin outp (chars "instances")) (chars "instance_" ++ natChars j2)) := by
          rw [← ha2e]
          exact hnlst
        unfold computeAssigned at hca
        obtain ⟨fwd, bwd⟩ := computeAssignedAux_char st.fs input (pathJoin outp (chars "instances"))
          (List.range ((names.map (fun n => pathJoin input n)).filter (fun f => endsW f (chars "GameObject.json"))).length) assigned hca
        have hassf := bwd j2 (List.mem_range.mpr hj2) hne2 n hnlst2
        rw [baseName_of_nameOk n hn] at hassf
        exact hass hassf
      · rw [mem_listNames_iff] at hn2
        obtain ⟨q4, hq4mem, hq4child⟩ := hn2
        obtain ⟨hq4eq, hq4nOk⟩ := (childNameOf_eq_some _ q4 n).mp hq4child
        have hq4node : fsGet st2.fs q4 ≠ none := fsGet_ne_none_of_mem _ _ hq4mem
        obtain ⟨bnx, hbnxOk, hbJx, hbeqx, hbsx, hbex⟩ :=
          bucket_canon outp d2 houts houte hd2b
        have hq4join : pathJoin d2 n = q4 := by
          rw [pathJoin_eq d2 n hbsx hbex hn, hq4eq]
        obtain ⟨hnotass, hsd⟩ := bmatch d2 hd2b n hn (by rw [hq4join]; exact hq4node)
        exact hsd

/-- Witness for C10: on the spec's end-to-end input the default-output run
satisfies every hypothesis and indeed aborts — concretely with
`IsADirectoryError` on `/in/organized`. -/
theorem c10_default_output_abort_witness :
    pathOk (chars "/in") = true ∧
    fsE2E.all (fun e => !underEq (pathJoin (chars "/in") (chars "organized")) e.1) = true ∧
    strContains (pathJoin (chars "/in") (chars "organized")) (chars "entry") = false ∧
    strContains (pathJoin (chars "/in") (chars "organized")) (chars "Texture") = false ∧
    organize_crp_assets (chars "/") fsE2E (chars "/in") none =
      .error (.isADirectoryError (chars "/in/organized")) ∧
    ∀ r, organize_crp_assets (chars "/") fsE2E (chars "/in") none ≠ .ok r :=
  ⟨by decide, by decide, by decide, by decide, by decide,
    c10_default_output_abort (chars "/") fsE2E (chars "/in") (by decide) (by decide) (by decide)
      (by decide)⟩

/-- Witness for C6: on the spec's end-to-end input with output `/out`, the
file `entry_0_x.obj` lands in exactly one place of the organized tree. -/
theorem c6_partition_witness :
    pathOk (chars "/in") = true ∧ pathOk (chars "/out") = true ∧
    fsE2E.all (fun e => !underEq (chars "/out") e.1) = true ∧
    organize_crp_assets (chars "/") fsE2E (chars "/in") (some (chars "/out")) =
      .ok (e2eRun1, chars "/out") ∧
    nameOk (chars "entry_0_x.obj") = true ∧
    fsGet fsE2E (pathJoin (chars "/in") (chars "entry_0_x.obj")) =
      some (Node.file ⟨none, [], 2⟩) ∧
    (∃ d ∈ placesOf e2eRun1.fs (chars "/out"),
      chars "entry_0_x.obj" ∈ listNames e2eRun1.fs d ∧
      ∀ d2 ∈ placesOf e2eRun1.fs (chars "/out"),
        chars "entry_0_x.obj" ∈ listNames e2eRun1.fs d2 → d2 = d) :=
  ⟨by decide, by decide, by decide, by decide, by decide, by decide,
    c6_partition (chars "/") fsE2E (chars "/in") (chars "/out") e2eRun1
      (chars "entry_0_x.obj") ⟨none, [], 2⟩ (by decide) (by decide) (by decide)
      (by decide)
      (by
        have hl : listNames e2eRun1.fs
            (pathJoin (chars "/out") (chars "instances")) = [chars "instance_0"] := by
          decide
        rw [hl]
        exact List.Pairwise.cons (by simp) List.Pairwise.nil)
      (by decide) (by decide)⟩

end Crp
